import Mathlib

/-!
# Registrant Alert Go client: validation, dispatch and response demultiplexing

A shallow embedding of `registrantalert.go`, `client.go`, `options.go` and
`models.go`.

Conventions of the embedding:

* a Go pointer or slice that may be `nil` is an `Option`; `none` is `nil`;
* a Go `error` result is an `Option Error`; `none` is the `nil` error;
* Go `int` values (codes, counts, HTTP statuses) are `Int`: they are only
  carried and compared, never the subject of arithmetic;
* the calls into Go's standard library that the code makes (the JSON reader
  and writer, `http.NewRequest`, the `*http.Client`) are parameters: the
  fields of `Lib` and of `Client`; what `json.Marshal` writes for the request
  struct is fixed by the struct's field tags and is modelled from them;
* every function that may reach the network returns, next to its Go results,
  the trace of the external effects it performed, in order.
-/

set_option autoImplicit false
set_option linter.dupNamespace false

namespace RegistrantAlert

/-! ## Basic types -/

/-- A Go byte slice, `[]byte`. -/
abbrev Bytes := List (Fin 256)

/-- The conversion `[]byte(s)` of a text of ASCII characters. -/
def bytesOf (s : String) : Bytes :=
  s.data.map (fun ch => Fin.ofNat ch.toNat)

/-- Go's `strconv.Itoa`: the decimal text of an `int`. -/
def Itoa (n : Int) : String := toString n

/-- Go's `len` on a slice that may be `nil`: a `nil` slice has length 0. -/
def len {α : Type} : Option (List α) → Nat
  | none => 0
  | some xs => xs.length

/-- The library's `time.Time`, seen through what `Format` and `==` read:
the civil date and the time of day in the value's own location, and the
location, identified by a number; location 0 is the `nil` location pointer,
which stands for UTC. -/
structure GoTime where
  year : Int
  month : Nat
  day : Nat
  hour : Nat
  minute : Nat
  second : Nat
  nanosecond : Nat
  loc : Nat
  deriving DecidableEq, Repr

/-- The zero value `time.Time{}`: January 1, year 1, 00:00:00 UTC. -/
def GoTime.zero : GoTime :=
  { year := 1, month := 1, day := 1, hour := 0, minute := 0, second := 0, nanosecond := 0,
    loc := 0 }

/-- The `appendInt` helper of Go's `time` package: a sign for a negative
value, then the decimal digits padded with zeros on the left to `width`. -/
def appendInt (x : Int) (width : Nat) : String :=
  let digits := Nat.repr x.natAbs
  let padded := String.mk (List.replicate (width - digits.length) '0') ++ digits
  if x < 0 then "-" ++ padded else padded

/-- The constant `dateFormat = "2006-01-02"` applied by `time.Time.Format`:
year to width 4, month and day to width 2, joined by `-`. -/
def formatDate (t : GoTime) : String :=
  appendInt t.year 4 ++ "-" ++ appendInt (Int.ofNat t.month) 2 ++ "-" ++ appendInt (Int.ofNat t.day) 2

/-- The leap-year rule of the library's `time` package. -/
def isLeap (year : Int) : Bool :=
  year % 4 = 0 ∧ (year % 100 ≠ 0 ∨ year % 400 = 0)

/-- The `daysIn` helper of the library's `time` package: the number of days
of a month of a year. -/
def daysIn (month : Nat) (year : Int) : Nat :=
  if month = 2 ∧ isLeap year = true then 29
  else
    match month with
    | 1 => 31
    | 2 => 28
    | 3 => 31
    | 4 => 30
    | 5 => 31
    | 6 => 30
    | 7 => 31
    | 8 => 31
    | 9 => 30
    | 10 => 31
    | 11 => 30
    | 12 => 31
    | _ => 0

/-- Whether a character is a decimal digit. -/
def isDigit (ch : Char) : Bool :=
  48 ≤ ch.toNat ∧ ch.toNat ≤ 57

/-- The value of a decimal digit character. -/
def digitValue (ch : Char) : Nat :=
  ch.toNat - 48

/-- The year element `2006` of a layout: exactly four digits. -/
def getYear : List Char → Option (Nat × List Char)
  | a :: b :: c :: d :: rest =>
    if isDigit a = true ∧ isDigit b = true ∧ isDigit c = true ∧ isDigit d = true then
      some (digitValue a * 1000 + digitValue b * 100 + digitValue c * 10 + digitValue d, rest)
    else none
  | _ => none

/-- The `getnum` helper of the library's `time` package with `fixed` set,
for the elements `01` and `02` of a layout: exactly two digits. -/
def getnum (s : List Char) : Option (Nat × List Char) :=
  match s with
  | a :: b :: rest =>
    if isDigit a = true ∧ isDigit b = true then some (digitValue a * 10 + digitValue b, rest)
    else none
  | _ => none

/-- The literal `-` of a layout: the next character has to be `-`. -/
def skipDash : List Char → Option (List Char)
  | ch :: rest => if ch = '-' then some rest else none
  | [] => none

/-- The text of the library's `ParseError`, with the value in plain double
quotes. -/
def parseErrorText (value : String) (message : String) : String :=
  "parsing time \"" ++ value ++ "\"" ++ message

/-- The message of a `ParseError` for an element of the layout that does not
parse: the layout, the rest of the value at that element, and the element,
each in plain double quotes. -/
def cannotParse (rest : List Char) (element : String) : String :=
  " as \"2006-01-02\": cannot parse \"" ++ String.mk rest ++ "\" as \"" ++ element ++ "\""

/-- The call `time.Parse(dateFormat, value)` for `dateFormat = "2006-01-02"`:
the four digits of the year, `-`, the two digits of a month from 1 to 12,
`-`, the two digits of the day, nothing after them, and a day the month
has; the result is midnight of that day in UTC. -/
def timeParse (value : String) : Except String GoTime :=
  match getYear value.data with
  | none => .error (parseErrorText value (cannotParse value.data "2006"))
  | some (year, v1) =>
    match skipDash v1 with
    | none => .error (parseErrorText value (cannotParse v1 "-"))
    | some v2 =>
      match getnum v2 with
      | none => .error (parseErrorText value (cannotParse v2 "01"))
      | some (month, v3) =>
        if month ≤ 0 ∨ 12 < month then .error (parseErrorText value ": month out of range")
        else
          match skipDash v3 with
          | none => .error (parseErrorText value (cannotParse v3 "-"))
          | some v4 =>
            match getnum v4 with
            | none => .error (parseErrorText value (cannotParse v4 "02"))
            | some (day, v5) =>
              if v5 ≠ [] then
                .error (parseErrorText value
                  (": extra text: \"" ++ String.mk v5 ++ "\""))
              else if day < 1 ∨ day > daysIn month (Int.ofNat year) then
                .error (parseErrorText value ": day out of range")
              else
                .ok { year := Int.ofNat year, month := month, day := day, hour := 0,
                      minute := 0, second := 0, nanosecond := 0, loc := 0 }

/-! ## models.go -/

/-- `Time` is the helper wrapper on `time.Time`. -/
structure Time where
  t : GoTime
  deriving DecidableEq, Repr

/-- The variable `emptyTime`: the zero `Time`. -/
def emptyTime : Time := ⟨GoTime.zero⟩

/-- `Time.MarshalJSON` encodes time as the API does: the result bytes and
the error, which is always `nil`. -/
def Time.MarshalJSON (t : Time) : Bytes × Option String :=
  if t = emptyTime then (bytesOf "\"\"", none)
  else (bytesOf ("\"" ++ formatDate t.t ++ "\""), none)

/-- `BasicSearchTerms` is a part of the request. -/
structure BasicSearchTerms where
  Include : Option (List String)
  Exclude : Option (List String)
  deriving DecidableEq, Repr

/-- `AdvancedSearchTerm` is a part of the request. -/
structure AdvancedSearchTerm where
  Field : String
  Term : String
  ExactMatch : Bool
  deriving DecidableEq, Repr

/-- `registrantAlertRequest` is the request struct; the fields are in the
order of the source, which is the order of the positional literal in
`request`. -/
structure registrantAlertRequest where
  APIKey : String
  BasicSearchTerms : Option BasicSearchTerms
  AdvancedSearchTerms : Option (List AdvancedSearchTerm)
  SinceDate : String
  Mode : String
  Punycode : Bool
  ResponseFormat : String
  CreatedDateFrom : String
  CreatedDateTo : String
  UpdatedDateFrom : String
  UpdatedDateTo : String
  ExpiredDateFrom : String
  ExpiredDateTo : String
  deriving DecidableEq, Repr

/-- `DomainItem` is a part of the response. -/
structure DomainItem where
  DomainName : String
  Action : String
  Date : Time
  deriving DecidableEq, Repr

/-- `RegistrantAlertResponse` is a response of the API. -/
structure RegistrantAlertResponse where
  DomainsList : Option (List DomainItem)
  DomainsCount : Int
  deriving DecidableEq, Repr

/-- `Messages` is a wrapper on `[]string`; `none` is the `nil` slice and
`some []` is an empty slice that is not `nil`. -/
abbrev Messages := Option (List String)

/-- `ErrorMessage` is the error message. -/
structure ErrorMessage where
  Code : Int
  Message : Messages
  deriving DecidableEq, Repr

/-- `apiResponse` is used for parsing the response: it embeds both structs. -/
structure apiResponse where
  RegistrantAlertResponse : RegistrantAlertResponse
  ErrorMessage : ErrorMessage
  deriving DecidableEq, Repr

/-! ## HTTP values -/

/-- The body stream of an `http.Response`, described by what consuming it
does: `data` are the bytes `io.Copy` delivers to the writer before it stops,
`readErr` is the error it stops with (`none` at a clean end of stream), and
`closeErr` is the result of `Close`. -/
structure BodyReader where
  data : Bytes
  readErr : Option String
  closeErr : Option String
  deriving DecidableEq, Repr

/-- The library's `http.Response`, with the fields the code reads. -/
structure HTTPResponse where
  StatusCode : Int
  Header : List (String × String)
  Body : BodyReader
  deriving DecidableEq, Repr

/-- The library's `http.Request`; `ctx` identifies the attached context. -/
structure HTTPRequest where
  Method : String
  URL : String
  Header : List (String × String)
  Body : Bytes
  ctx : Nat
  deriving DecidableEq, Repr

/-- `Response` is the `http.Response` wrapper with `Body` saved as a byte
slice. The embedded pointer may be `nil`. -/
structure Response where
  Response : Option HTTPResponse
  Body : Bytes
  deriving DecidableEq, Repr

/-! ## Errors -/

/-- `ArgError` is the argument error. -/
structure ArgError where
  Name : String
  Message : String
  deriving DecidableEq, Repr

/-- `ErrorResponse` is returned when the response status code is not 2xx. -/
structure ErrorResponse where
  Response : HTTPResponse
  Message : String
  deriving DecidableEq, Repr

/-- The dynamic types a returned `error` can have: the three error types of
the package, an error made by `fmt.Errorf(msg + "%w", cause)`, an error that
comes out of the standard library, and the run-time panic of a `nil`
dereference (which unwinds the call instead of returning). -/
inductive Error where
  | argError (a : ArgError)
  | errorMessage (e : ErrorMessage)
  | errorResponse (e : ErrorResponse)
  | wrapped (msg : String) (cause : Error)
  | library (text : String)
  | nilDereference
  deriving DecidableEq, Repr

/-- `(*ArgError).Error`. -/
def ArgError.Error (a : ArgError) : String :=
  "invalid argument: \"" ++ a.Name ++ "\" " ++ a.Message

/-- `(*ErrorResponse).Error`. -/
def ErrorResponse.Error (e : ErrorResponse) : String :=
  if e.Message ≠ "" then
    "API failed with status code: " ++ Itoa e.Response.StatusCode ++ " (" ++ e.Message ++ ")"
  else
    "API failed with status code: " ++ Itoa e.Response.StatusCode

/-- The loop by which the library's `fmt` prints the elements of a slice
under `%s`, from index `i` on: a space before every element but the first. -/
def sprintElems : Nat → List String → String
  | _, [] => ""
  | i, s :: rest => (if i > 0 then " " else "") ++ s ++ sprintElems (i + 1) rest

/-- The library's `%s` rendering of a `[]string`: `[`, the elements, `]`.
A `nil` slice has no elements. -/
def sprintStrings (m : Messages) : String :=
  "[" ++ sprintElems 0 (m.getD []) ++ "]"

/-- `(*ErrorMessage).Error`: `fmt.Sprintf("API error: [%d] %s", e.Code, e.Message)`. -/
def ErrorMessage.Error (e : ErrorMessage) : String :=
  "API error: [" ++ Itoa e.Code ++ "] " ++ sprintStrings e.Message

/-- The text of an error, `err.Error()`. -/
def Error.Error : Error → String
  | .argError a => a.Error
  | .errorMessage e => e.Error
  | .errorResponse e => e.Error
  | .wrapped msg cause => msg ++ cause.Error
  | .library text => text
  | .nilDereference => "runtime error: invalid memory address or nil pointer dereference"

/-! ## options.go -/

/-- `Option` adds parameters to the query: a function that updates the
request it is given. -/
abbrev OptionFn := registrantAlertRequest → registrantAlertRequest

/-- An entry of an `opts ...Option` argument; `none` is the `nil` function. -/
abbrev Opt := Option OptionFn

/-- `OptionResponseFormat` sets the response output format. -/
def OptionResponseFormat (outputFormat : String) : OptionFn :=
  fun v => { v with ResponseFormat := outputFormat }

/-- `OptionSinceDate` sets `SinceDate` to the formatted date. -/
def OptionSinceDate (date : GoTime) : OptionFn :=
  fun v => { v with SinceDate := formatDate date }

/-- `OptionPunycode` sets the punycode option. -/
def OptionPunycode (punycode : Bool) : OptionFn :=
  fun v => { v with Punycode := punycode }

/-- `OptionCreatedDateFrom` sets `CreatedDateFrom` to the formatted date. -/
def OptionCreatedDateFrom (date : GoTime) : OptionFn :=
  fun v => { v with CreatedDateFrom := formatDate date }

/-- `OptionCreatedDateTo` sets `CreatedDateTo` to the formatted date. -/
def OptionCreatedDateTo (date : GoTime) : OptionFn :=
  fun v => { v with CreatedDateTo := formatDate date }

/-- `OptionUpdatedDateFrom` sets `UpdatedDateFrom` to the formatted date. -/
def OptionUpdatedDateFrom (date : GoTime) : OptionFn :=
  fun v => { v with UpdatedDateFrom := formatDate date }

/-- `OptionUpdatedDateTo` sets `UpdatedDateTo` to the formatted date. -/
def OptionUpdatedDateTo (date : GoTime) : OptionFn :=
  fun v => { v with UpdatedDateTo := formatDate date }

/-- `OptionExpiredDateFrom` sets `ExpiredDateFrom` to the formatted date. -/
def OptionExpiredDateFrom (date : GoTime) : OptionFn :=
  fun v => { v with ExpiredDateFrom := formatDate date }

/-- `OptionExpiredDateTo` sets `ExpiredDateTo` to the formatted date. -/
def OptionExpiredDateTo (date : GoTime) : OptionFn :=
  fun v => { v with ExpiredDateTo := formatDate date }

/-- The nine option constructors of `options.go`, as data. -/
inductive KnownOption where
  | responseFormat (outputFormat : String)
  | sinceDate (date : GoTime)
  | punycode (b : Bool)
  | createdDateFrom (date : GoTime)
  | createdDateTo (date : GoTime)
  | updatedDateFrom (date : GoTime)
  | updatedDateTo (date : GoTime)
  | expiredDateFrom (date : GoTime)
  | expiredDateTo (date : GoTime)
  deriving DecidableEq, Repr

/-- The `Option` value a constructor of `options.go` returns. -/
def KnownOption.toFn : KnownOption → OptionFn
  | .responseFormat s => OptionResponseFormat s
  | .sinceDate d => OptionSinceDate d
  | .punycode b => OptionPunycode b
  | .createdDateFrom d => OptionCreatedDateFrom d
  | .createdDateTo d => OptionCreatedDateTo d
  | .updatedDateFrom d => OptionUpdatedDateFrom d
  | .updatedDateTo d => OptionUpdatedDateTo d
  | .expiredDateFrom d => OptionExpiredDateFrom d
  | .expiredDateTo d => OptionExpiredDateTo d

/-- A list of recognized options as an `opts ...Option` argument: every
entry is the (non-nil) function its constructor returns. -/
def knownOpts (ks : List KnownOption) : List Opt :=
  ks.map (fun k => some k.toFn)

/-! ## JSON values -/

/-- A JSON document as the library's reader sees it. The members of an
object are in the order of the text and may repeat a key. A number is
identified by the text `fmt` prints for the `float64` it decodes to, which
is the one observation the code makes of it. -/
inductive JSON where
  | null
  | bool (b : Bool)
  | number (g : String)
  | string (s : String)
  | array (items : List JSON)
  | object (members : List (String × JSON))

/-- The name by which the library's `UnmarshalTypeError` calls the kind of a
document. -/
def JSON.kindName : JSON → String
  | .null => "null"
  | .bool _ => "bool"
  | .number _ => "number"
  | .string _ => "string"
  | .array _ => "array"
  | .object _ => "object"

/-- The entries of the Go map an object decodes to: of the members that
share a key, the last one wins. -/
def lastWins : List (String × String) → List (String × String)
  | [] => []
  | (k, v) :: rest =>
    if rest.any (fun e => e.1 = k) then lastWins rest else (k, v) :: lastWins rest

/-- Insertion of an entry into a list of entries in ascending key order. -/
def insertEntry (e : String × String) : List (String × String) → List (String × String)
  | [] => [e]
  | x :: rest => if e.1 < x.1 then e :: x :: rest else x :: insertEntry e rest

/-- The entries of a map in the order `fmt` prints them: ascending by key. -/
def sortEntries : List (String × String) → List (String × String)
  | [] => []
  | e :: rest => insertEntry e (sortEntries rest)

/-- The printed entries of a map: `key:value`, a space between entries. -/
def joinEntries : List (String × String) → String
  | [] => ""
  | [(k, v)] => k ++ ":" ++ v
  | (k, v) :: rest => k ++ ":" ++ v ++ " " ++ joinEntries rest

mutual
/-- The library's `%s` rendering of a decoded value that is nested in a
slice or a map. -/
def sprintValue : JSON → String
  | .null => "<nil>"
  | .bool b => "%!s(bool=" ++ toString b ++ ")"
  | .number g => "%!s(float64=" ++ g ++ ")"
  | .string s => s
  | .array items => "[" ++ sprintItems items ++ "]"
  | .object members => "map[" ++ joinEntries (sortEntries (lastWins (sprintMembers members))) ++ "]"
/-- The rendering of the elements of a slice, a space between elements. -/
def sprintItems : List JSON → String
  | [] => ""
  | [v] => sprintValue v
  | v :: w :: rest => sprintValue v ++ " " ++ sprintItems (w :: rest)
/-- The members of an object, each with its value rendered. -/
def sprintMembers : List (String × JSON) → List (String × String)
  | [] => []
  | (k, v) :: rest => (k, sprintValue v) :: sprintMembers rest
end

/-- The call `fmt.Sprintf("%s", x)` on a decoded `interface{}` value: a
`nil` interface at the top prints as a bad verb. -/
def sprintfS : JSON → String
  | .null => "%!s(<nil>)"
  | x => sprintValue x

/-- What `json.Unmarshal` stores into a `nil` `[]string` from a document:
`null` leaves the slice `nil`; an array whose items are strings or `null`
gives a slice that is not `nil`, with `""` for a `null` item; every other
document is a type error, which names the kind of the first item that is
neither (for an array) or the kind of the document. -/
def decodeStrings : JSON → Except String (Option (List String))
  | .null => .ok none
  | .array items =>
    if items.all (fun v => match v with | .string _ => true | .null => true | _ => false) then
      .ok (some (items.map (fun v => match v with | .string s => s | _ => "")))
    else
      match items.find?
          (fun v => match v with | .string _ => false | .null => false | _ => true) with
      | some item =>
        .error ("json: cannot unmarshal " ++ item.kindName ++ " into Go value of type string")
      | none => .error "json: cannot unmarshal into Go value of type string"
  | doc => .error ("json: cannot unmarshal " ++ doc.kindName ++ " into Go value of type []string")

/-- An empty-omitting string member: the tag `json:"name,omitempty"`. -/
def omitEmptyString (name : String) (s : String) : List (String × JSON) :=
  if s = "" then [] else [(name, .string s)]

/-- An empty-omitting `[]string` member. -/
def omitEmptyStrings (name : String) (xs : Option (List String)) : List (String × JSON) :=
  if len xs = 0 then [] else [(name, .array ((xs.getD []).map .string))]

/-- An empty-omitting `bool` member: `false` is the empty value. -/
def omitEmptyBool (name : String) (b : Bool) : List (String × JSON) :=
  if b then [(name, .bool true)] else []

/-- The document `json.Marshal` writes for a `BasicSearchTerms`. -/
def BasicSearchTerms.toJSON (t : BasicSearchTerms) : JSON :=
  .object (omitEmptyStrings "include" t.Include ++ omitEmptyStrings "exclude" t.Exclude)

/-- The document `json.Marshal` writes for an `AdvancedSearchTerm`. -/
def AdvancedSearchTerm.toJSON (t : AdvancedSearchTerm) : JSON :=
  .object ([("field", .string t.Field), ("term", .string t.Term)]
    ++ omitEmptyBool "exactMatch" t.ExactMatch)

/-- An empty-omitting `*BasicSearchTerms` member: `nil` is the empty value. -/
def omitNilBasic (name : String) (t : Option BasicSearchTerms) : List (String × JSON) :=
  match t with
  | none => []
  | some t => [(name, t.toJSON)]

/-- An empty-omitting `[]AdvancedSearchTerm` member: a slice of length 0,
`nil` or not, is the empty value. -/
def omitEmptyTerms (name : String) (xs : Option (List AdvancedSearchTerm)) :
    List (String × JSON) :=
  if len xs = 0 then [] else [(name, .array ((xs.getD []).map AdvancedSearchTerm.toJSON))]

/-- The members `json.Marshal` writes for a `registrantAlertRequest`, by the
field tags of the struct, in the order of the fields. -/
def registrantAlertRequest.members (r : registrantAlertRequest) : List (String × JSON) :=
  [("apiKey", .string r.APIKey)]
    ++ omitNilBasic "basicSearchTerms" r.BasicSearchTerms
    ++ omitEmptyTerms "advancedSearchTerms" r.AdvancedSearchTerms
    ++ omitEmptyString "sinceDate" r.SinceDate
    ++ omitEmptyString "mode" r.Mode
    ++ omitEmptyBool "punycode" r.Punycode
    ++ omitEmptyString "responseFormat" r.ResponseFormat
    ++ omitEmptyString "createdDateFrom" r.CreatedDateFrom
    ++ omitEmptyString "createdDateTo" r.CreatedDateTo
    ++ omitEmptyString "updatedDateFrom" r.UpdatedDateFrom
    ++ omitEmptyString "updatedDateTo" r.UpdatedDateTo
    ++ omitEmptyString "expiredDateFrom" r.ExpiredDateFrom
    ++ omitEmptyString "expiredDateTo" r.ExpiredDateTo

/-- The value of the member `name` in a list of members, if it is there. -/
def lookupMember (name : String) : List (String × JSON) → Option JSON
  | [] => none
  | (k, v) :: rest => if k = name then some v else lookupMember name rest

/-! ## client.go -/

/-- The calls into Go's standard library whose behaviour the code relies on
but does not define: `jsonText` is the text the JSON writer produces for a
document, `jsonParse` is the JSON reader on a text, `jsonDecode` is
`json.NewDecoder(bytes.NewReader(raw)).Decode` into a zero `apiResponse`,
and `httpNewRequest` is the check `http.NewRequest` makes on the method and
the URL text (`none` when it accepts them). -/
structure Lib where
  jsonText : JSON → Bytes
  jsonParse : Bytes → Except String JSON
  jsonDecode : Bytes → Except String apiResponse
  httpNewRequest : String → String → Option String

/-- `Client` is the client for the API services. Its `client` field is the
`Do` method of the `*http.Client` in use: the one exchange with the server. -/
structure Client where
  client : HTTPRequest → Except String HTTPResponse
  userAgent : String
  apiKey : String

/-- The constant `mediaType`. -/
def mediaType : String := "application/json"

/-- The constant `userAgent`, the library name and `libraryVersion`. -/
def userAgent : String := "registrant-alert-go/" ++ "1.0.0"

/-- An external effect of a call, as it appears in a trace: the request
struct handed to `json.Marshal`, the HTTP request handed to the transport,
the copy of the response body, and the close of the response body. -/
inductive Event where
  | marshal (request : registrantAlertRequest)
  | send (req : HTTPRequest)
  | readBody
  | closeBody
  deriving DecidableEq, Repr

/-- `json.Marshal` on a request: the text of the members its tags select.
No field of the struct has a type the encoder can fail on. -/
def jsonMarshal (L : Lib) (request : registrantAlertRequest) : Except String Bytes :=
  .ok (L.jsonText (.object request.members))

/-- `Client.NewRequest` creates a basic API request. -/
def Client.NewRequest (L : Lib) (c : Client) (method : String) (u : String) (body : Bytes) :
    Except Error HTTPRequest :=
  match L.httpNewRequest method u with
  | some err => .error (.library err)
  | none =>
    let req : HTTPRequest := { Method := method, URL := u, Header := [], Body := body, ctx := 0 }
    let req := { req with Header := req.Header ++ [("Content-Type", mediaType)] }
    let req := { req with Header := req.Header ++ [("Accept", mediaType)] }
    let req := { req with Header := req.Header ++ [("User-Agent", c.userAgent)] }
    .ok req

/-- The results of `Client.Do`: the two Go results, the bytes written to the
writer `v`, and the trace of effects. -/
structure DoResult where
  response : Option HTTPResponse
  err : Option Error
  written : Bytes
  trace : List Event
  deriving DecidableEq, Repr

/-- `Client.Do` sends the API request and returns the API response. The
deferred function closes the body after the copy and replaces the named
result `err` only when it is still `nil`. -/
def Client.Do (c : Client) (ctx : Nat) (req : HTTPRequest) : DoResult :=
  let req := { req with ctx := ctx }
  match c.client req with
  | .error err =>
    { response := none
      err := some (.wrapped "cannot execute request: " (.library err))
      written := []
      trace := [.send req] }
  | .ok resp =>
    match resp.Body.readErr with
    | some cause =>
      { response := some resp
        err := some (.wrapped "cannot read response: " (.library cause))
        written := resp.Body.data
        trace := [.send req, .readBody, .closeBody] }
    | none =>
      match resp.Body.closeErr with
      | some rerr =>
        { response := some resp
          err := some (.wrapped "cannot close response: " (.library rerr))
          written := resp.Body.data
          trace := [.send req, .readBody, .closeBody] }
      | none =>
        { response := some resp
          err := none
          written := resp.Body.data
          trace := [.send req, .readBody, .closeBody] }

/-- `checkResponse` checks if the response status code is not 2xx. A `nil`
response is dereferenced, which panics. -/
def checkResponse (r : Option HTTPResponse) : Option Error :=
  match r with
  | none => some .nilDereference
  | some r =>
    if r.StatusCode ≥ 200 ∧ r.StatusCode ≤ 299 then none
    else some (.errorResponse { Response := r, Message := "" })

/-! ## models.go: decoding of messages -/

/-- `unmarshalString`: the call `json.Unmarshal(raw, &val)` on an empty
string. A string document gives its text, `null` leaves the string empty,
and any other document is a type error. -/
def unmarshalString (L : Lib) (raw : Bytes) : String × Option Error :=
  match L.jsonParse raw with
  | .error err => ("", some (.library err))
  | .ok (.string val) => (val, none)
  | .ok .null => ("", none)
  | .ok doc =>
    ("", some (.library
      ("json: cannot unmarshal " ++ doc.kindName ++ " into Go value of type string")))

/-- `Time.UnmarshalJSON` decodes time as the API does: the receiver after
the call, and the error. -/
def Time.UnmarshalJSON (L : Lib) (t : Time) (b : Bytes) : Time × Option Error :=
  match unmarshalString L b with
  | (_, some err) => (t, some err)
  | (str, none) =>
    if str = "" then (emptyTime, none)
    else
      match timeParse str with
      | .error err => (t, some (.library err))
      | .ok v => (⟨v⟩, none)

/-- The call `json.Unmarshal(b, &msgs)` on a `nil` `[]string`. -/
def unmarshalStrings (L : Lib) (b : Bytes) : Except String (Option (List String)) :=
  match L.jsonParse b with
  | .error err => .error err
  | .ok doc => decodeStrings doc

/-- `Messages.UnmarshalJSON` decodes the error messages returned by the API:
the receiver after the call, and the error. -/
def Messages.UnmarshalJSON (L : Lib) (m : Messages) (b : Bytes) : Messages × Option Error :=
  match unmarshalStrings L b with
  | .ok msgs => (msgs, none)
  | .error _ =>
    match L.jsonParse b with
    | .error err => (m, some (.library err))
    | .ok x => (some (m.getD [] ++ [sprintfS x]), none)

/-- The text `json.Marshal` writes for a `Messages`: `null` for a `nil`
slice, an array of strings otherwise. -/
def Messages.marshal (L : Lib) (m : Messages) : Bytes :=
  match m with
  | none => L.jsonText .null
  | some xs => L.jsonText (.array (xs.map .string))

/-! ## registrantalert.go -/

/-- `registrantAlertServiceOp` is the type implementing the interface. -/
structure registrantAlertServiceOp where
  client : Client
  baseURL : String

/-- `newRequest` creates the API request with default parameters and the
specified body. -/
def registrantAlertServiceOp.newRequest (L : Lib) (service : registrantAlertServiceOp)
    (body : Bytes) : Except Error HTTPRequest :=
  match service.client.NewRequest L "POST" service.baseURL body with
  | .error err => .error err
  | .ok req => .ok req

/-- `validateBasicSearchTerms` validates the terms of the basic search. -/
def validateBasicSearchTerms (basicSearchTerms : Option BasicSearchTerms) : Option Error :=
  let limitOfSearchTerms := 4
  match basicSearchTerms with
  | none => some (.argError ⟨"basicSearchTerms.include", "is required."⟩)
  | some terms =>
    if terms.Include = none ∨ len terms.Include = 0 ∨ len terms.Include > limitOfSearchTerms then
      some (.argError ⟨"basicSearchTerms.include", "must have between 1 and 4 items."⟩)
    else if terms.Exclude ≠ none ∧ len terms.Exclude > limitOfSearchTerms then
      some (.argError ⟨"basicSearchTerms.exclude", "must have between 0 and 4 items."⟩)
    else none

/-- The `for i, searchTerm := range advancedSearchTerms` loop of
`validateAdvancedSearchTerms`, from index `i` on. -/
def validateAdvancedLoop : Nat → List AdvancedSearchTerm → Option Error
  | _, [] => none
  | i, searchTerm :: rest =>
    if searchTerm.Field = "" then
      some (.argError ⟨"advancedSearchTerms." ++ Itoa (Int.ofNat i) ++ ".Field", "is required."⟩)
    else if searchTerm.Term = "" then
      some (.argError ⟨"advancedSearchTerms." ++ Itoa (Int.ofNat i) ++ ".Term", "is required."⟩)
    else validateAdvancedLoop (i + 1) rest

/-- `validateAdvancedSearchTerms` validates the terms of the advanced search. -/
def validateAdvancedSearchTerms (advancedSearchTerms : Option (List AdvancedSearchTerm)) :
    Option Error :=
  match advancedSearchTerms with
  | none => some (.argError ⟨"advancedSearchTerms", "is required."⟩)
  | some terms =>
    if terms.length = 0 ∨ terms.length > 4 then
      some (.argError ⟨"advancedSearchTerms", "must have between 1 and 4 items."⟩)
    else validateAdvancedLoop 0 terms

/-- `validateOptions` validates options. -/
def validateOptions : List Opt → Option Error
  | [] => none
  | opt :: rest =>
    if opt.isNone then some (.argError ⟨"Option", "can not be nil"⟩)
    else validateOptions rest

/-- The loop `for _, opt := range opts { opt(request) }`. It runs only after
`validateOptions` has accepted `opts`, so no entry is `nil` when it runs;
calling a `nil` entry would panic, and it is skipped here. -/
def applyOptions : List Opt → registrantAlertRequest → registrantAlertRequest
  | [], request => request
  | some opt :: rest, request => applyOptions rest (opt request)
  | none :: rest, request => applyOptions rest request

/-- The results of `request`: the two Go results and the trace of effects. -/
structure RequestResult where
  resp : Option Response
  err : Option Error
  trace : List Event
  deriving DecidableEq, Repr

/-- The request value `request` builds before it validates the options:
the positional literal, then the `purchase` switch. -/
def initialRequest (apiKey : String) (basicSearchTerms : Option BasicSearchTerms)
    (advancedSearchTerms : Option (List AdvancedSearchTerm)) (purchase : Bool) :
    registrantAlertRequest :=
  let request : registrantAlertRequest :=
    ⟨apiKey, basicSearchTerms, advancedSearchTerms, "", "preview", true, "json", "", "", "", "", "", ""⟩
  if purchase then { request with Mode := "purchase" } else request

/-- `request` returns the intermediate API response for further actions. -/
def registrantAlertServiceOp.request (L : Lib) (service : registrantAlertServiceOp) (ctx : Nat)
    (basicSearchTerms : Option BasicSearchTerms)
    (advancedSearchTerms : Option (List AdvancedSearchTerm))
    (purchase : Bool) (opts : List Opt) : RequestResult :=
  let request := initialRequest service.client.apiKey basicSearchTerms advancedSearchTerms purchase
  match validateOptions opts with
  | some err => { resp := none, err := some err, trace := [] }
  | none =>
    let request := applyOptions opts request
    match jsonMarshal L request with
    | .error err => { resp := none, err := some (.library err), trace := [.marshal request] }
    | .ok requestBody =>
      match service.newRequest L requestBody with
      | .error err => { resp := none, err := some err, trace := [.marshal request] }
      | .ok req =>
        let d := service.client.Do ctx req
        { resp := some { Response := d.response, Body := d.written }
          err := d.err
          trace := .marshal request :: d.trace }

/-- `parse` parses the raw API response. -/
def parse (L : Lib) (raw : Bytes) : Except Error apiResponse :=
  match L.jsonDecode raw with
  | .error err => .error (.wrapped "cannot parse response: " (.library err))
  | .ok response => .ok response

/-- The results of a preview entry point, with the trace of effects. -/
structure PreviewResult where
  domainsCount : Int
  resp : Option Response
  err : Option Error
  trace : List Event
  deriving DecidableEq, Repr

/-- The results of a purchase entry point, with the trace of effects. -/
structure PurchaseResult where
  registrantAlertResponse : Option RegistrantAlertResponse
  resp : Option Response
  err : Option Error
  trace : List Event
  deriving DecidableEq, Repr

/-- The results of a raw-data entry point, with the trace of effects. -/
structure RawResult where
  resp : Option Response
  err : Option Error
  trace : List Event
  deriving DecidableEq, Repr

/-- `BasicPurchase` returns the parsed API response. -/
def registrantAlertServiceOp.BasicPurchase (L : Lib) (service : registrantAlertServiceOp)
    (ctx : Nat) (basicSearchTerms : Option BasicSearchTerms) (opts : List Opt) : PurchaseResult :=
  match validateBasicSearchTerms basicSearchTerms with
  | some err => ⟨none, none, some err, []⟩
  | none =>
    let optsJSON := opts ++ [some (OptionResponseFormat "json")]
    let r := service.request L ctx basicSearchTerms none true optsJSON
    match r.err with
    | some err => ⟨none, r.resp, some err, r.trace⟩
    | none =>
      match r.resp with
      | none => ⟨none, none, some .nilDereference, r.trace⟩
      | some resp =>
        match parse L resp.Body with
        | .error err => ⟨none, some resp, some err, r.trace⟩
        | .ok registrantAlertResp =>
          if registrantAlertResp.ErrorMessage.Message ≠ none
              ∨ registrantAlertResp.ErrorMessage.Code ≠ 0 then
            ⟨none, none, some (.errorMessage
              { Code := registrantAlertResp.ErrorMessage.Code
                Message := registrantAlertResp.ErrorMessage.Message }), r.trace⟩
          else ⟨some registrantAlertResp.RegistrantAlertResponse, some resp, none, r.trace⟩

/-- `BasicPreview` returns only the number of domains. -/
def registrantAlertServiceOp.BasicPreview (L : Lib) (service : registrantAlertServiceOp)
    (ctx : Nat) (basicSearchTerms : Option BasicSearchTerms) (opts : List Opt) : PreviewResult :=
  match validateBasicSearchTerms basicSearchTerms with
  | some err => ⟨0, none, some err, []⟩
  | none =>
    let optsJSON := opts ++ [some (OptionResponseFormat "json")]
    let r := service.request L ctx basicSearchTerms none false optsJSON
    match r.err with
    | some err => ⟨0, r.resp, some err, r.trace⟩
    | none =>
      match r.resp with
      | none => ⟨0, none, some .nilDereference, r.trace⟩
      | some resp =>
        match parse L resp.Body with
        | .error err => ⟨0, some resp, some err, r.trace⟩
        | .ok registrantAlertResp =>
          if registrantAlertResp.ErrorMessage.Message ≠ none
              ∨ registrantAlertResp.ErrorMessage.Code ≠ 0 then
            ⟨0, none, some (.errorMessage
              { Code := registrantAlertResp.ErrorMessage.Code
                Message := registrantAlertResp.ErrorMessage.Message }), r.trace⟩
          else ⟨registrantAlertResp.RegistrantAlertResponse.DomainsCount, some resp, none, r.trace⟩

/-- `BasicRawData` returns the raw API response. -/
def registrantAlertServiceOp.BasicRawData (L : Lib) (service : registrantAlertServiceOp)
    (ctx : Nat) (basicSearchTerms : Option BasicSearchTerms) (opts : List Opt) : RawResult :=
  match validateBasicSearchTerms basicSearchTerms with
  | some err => ⟨none, some err, []⟩
  | none =>
    let r := service.request L ctx basicSearchTerms none true opts
    match r.err with
    | some err => ⟨r.resp, some err, r.trace⟩
    | none =>
      match r.resp with
      | none => ⟨none, some .nilDereference, r.trace⟩
      | some resp =>
        match checkResponse resp.Response with
        | some respErr => ⟨some resp, some respErr, r.trace⟩
        | none => ⟨some resp, none, r.trace⟩

/-- `AdvancedPreview` returns only the number of domains. -/
def registrantAlertServiceOp.AdvancedPreview (L : Lib) (service : registrantAlertServiceOp)
    (ctx : Nat) (advancedSearchTerms : Option (List AdvancedSearchTerm)) (opts : List Opt) :
    PreviewResult :=
  match validateAdvancedSearchTerms advancedSearchTerms with
  | some err => ⟨0, none, some err, []⟩
  | none =>
    let optsJSON := opts ++ [some (OptionResponseFormat "json")]
    let r := service.request L ctx none advancedSearchTerms false optsJSON
    match r.err with
    | some err => ⟨0, r.resp, some err, r.trace⟩
    | none =>
      match r.resp with
      | none => ⟨0, none, some .nilDereference, r.trace⟩
      | some resp =>
        match parse L resp.Body with
        | .error err => ⟨0, some resp, some err, r.trace⟩
        | .ok registrantAlertResp =>
          if registrantAlertResp.ErrorMessage.Message ≠ none
              ∨ registrantAlertResp.ErrorMessage.Code ≠ 0 then
            ⟨0, none, some (.errorMessage
              { Code := registrantAlertResp.ErrorMessage.Code
                Message := registrantAlertResp.ErrorMessage.Message }), r.trace⟩
          else ⟨registrantAlertResp.RegistrantAlertResponse.DomainsCount, some resp, none, r.trace⟩

/-- `AdvancedPurchase` returns the parsed API response. -/
def registrantAlertServiceOp.AdvancedPurchase (L : Lib) (service : registrantAlertServiceOp)
    (ctx : Nat) (advancedSearchTerms : Option (List AdvancedSearchTerm)) (opts : List Opt) :
    PurchaseResult :=
  match validateAdvancedSearchTerms advancedSearchTerms with
  | some err => ⟨none, none, some err, []⟩
  | none =>
    let optsJSON := opts ++ [some (OptionResponseFormat "json")]
    let r := service.request L ctx none advancedSearchTerms true optsJSON
    match r.err with
    | some err => ⟨none, r.resp, some err, r.trace⟩
    | none =>
      match r.resp with
      | none => ⟨none, none, some .nilDereference, r.trace⟩
      | some resp =>
        match parse L resp.Body with
        | .error err => ⟨none, some resp, some err, r.trace⟩
        | .ok registrantAlertResp =>
          if registrantAlertResp.ErrorMessage.Message ≠ none
              ∨ registrantAlertResp.ErrorMessage.Code ≠ 0 then
            ⟨none, none, some (.errorMessage
              { Code := registrantAlertResp.ErrorMessage.Code
                Message := registrantAlertResp.ErrorMessage.Message }), r.trace⟩
          else ⟨some registrantAlertResp.RegistrantAlertResponse, some resp, none, r.trace⟩

/-- `AdvancedRawData` returns the raw API response. -/
def registrantAlertServiceOp.AdvancedRawData (L : Lib) (service : registrantAlertServiceOp)
    (ctx : Nat) (advancedSearchTerms : Option (List AdvancedSearchTerm)) (opts : List Opt) :
    RawResult :=
  match validateAdvancedSearchTerms advancedSearchTerms with
  | some err => ⟨none, some err, []⟩
  | none =>
    let r := service.request L ctx none advancedSearchTerms true opts
    match r.err with
    | some err => ⟨r.resp, some err, r.trace⟩
    | none =>
      match r.resp with
      | none => ⟨none, some .nilDereference, r.trace⟩
      | some resp =>
        match checkResponse resp.Response with
        | some respErr => ⟨some resp, some respErr, r.trace⟩
        | none => ⟨some resp, none, r.trace⟩

/-! ## The six entry points, uniformly -/

/-- A call of the interface: an entry point with its search-terms argument. -/
inductive Call where
  | BasicPreview (basicSearchTerms : Option BasicSearchTerms)
  | BasicPurchase (basicSearchTerms : Option BasicSearchTerms)
  | BasicRawData (basicSearchTerms : Option BasicSearchTerms)
  | AdvancedPreview (advancedSearchTerms : Option (List AdvancedSearchTerm))
  | AdvancedPurchase (advancedSearchTerms : Option (List AdvancedSearchTerm))
  | AdvancedRawData (advancedSearchTerms : Option (List AdvancedSearchTerm))
  deriving DecidableEq, Repr

/-- The results of a call in one shape: `count` is the `int` of a preview
and `parsed` the pointer of a purchase; an entry point that has no such
result leaves the field at its zero value. -/
structure CallResult where
  count : Int
  parsed : Option RegistrantAlertResponse
  resp : Option Response
  err : Option Error
  trace : List Event
  deriving DecidableEq, Repr

/-- Runs the entry point of a call. -/
def Call.run (L : Lib) (service : registrantAlertServiceOp) (ctx : Nat) (c : Call)
    (opts : List Opt) : CallResult :=
  match c with
  | .BasicPreview t =>
    let r := service.BasicPreview L ctx t opts
    ⟨r.domainsCount, none, r.resp, r.err, r.trace⟩
  | .BasicPurchase t =>
    let r := service.BasicPurchase L ctx t opts
    ⟨0, r.registrantAlertResponse, r.resp, r.err, r.trace⟩
  | .BasicRawData t =>
    let r := service.BasicRawData L ctx t opts
    ⟨0, none, r.resp, r.err, r.trace⟩
  | .AdvancedPreview t =>
    let r := service.AdvancedPreview L ctx t opts
    ⟨r.domainsCount, none, r.resp, r.err, r.trace⟩
  | .AdvancedPurchase t =>
    let r := service.AdvancedPurchase L ctx t opts
    ⟨0, r.registrantAlertResponse, r.resp, r.err, r.trace⟩
  | .AdvancedRawData t =>
    let r := service.AdvancedRawData L ctx t opts
    ⟨0, none, r.resp, r.err, r.trace⟩

/-- The validator of the entry point, on the argument of the call. -/
def Call.validate : Call → Option Error
  | .BasicPreview t => validateBasicSearchTerms t
  | .BasicPurchase t => validateBasicSearchTerms t
  | .BasicRawData t => validateBasicSearchTerms t
  | .AdvancedPreview t => validateAdvancedSearchTerms t
  | .AdvancedPurchase t => validateAdvancedSearchTerms t
  | .AdvancedRawData t => validateAdvancedSearchTerms t

/-- Whether the entry point parses the body (preview and purchase). -/
def Call.parsed : Call → Bool
  | .BasicRawData _ => false
  | .AdvancedRawData _ => false
  | _ => true

/-- Whether the entry point is a preview. -/
def Call.preview : Call → Bool
  | .BasicPreview _ => true
  | .AdvancedPreview _ => true
  | _ => false

/-- The basic terms the entry point hands to `request`. -/
def Call.basic : Call → Option BasicSearchTerms
  | .BasicPreview t => t
  | .BasicPurchase t => t
  | .BasicRawData t => t
  | _ => none

/-- The advanced terms the entry point hands to `request`. -/
def Call.advanced : Call → Option (List AdvancedSearchTerm)
  | .AdvancedPreview t => t
  | .AdvancedPurchase t => t
  | .AdvancedRawData t => t
  | _ => none

/-- The options the entry point hands to `request`. -/
def Call.opts (c : Call) (opts : List Opt) : List Opt :=
  if c.parsed then opts ++ [some (OptionResponseFormat "json")] else opts

/-- The call of `request` the entry point makes once the terms are accepted. -/
def Call.request (L : Lib) (service : registrantAlertServiceOp) (ctx : Nat) (c : Call)
    (opts : List Opt) : RequestResult :=
  service.request L ctx c.basic c.advanced (!c.preview) (c.opts opts)

/-- The request struct that call of `request` hands to `json.Marshal`. -/
def Call.built (apiKey : String) (c : Call) (opts : List Opt) : registrantAlertRequest :=
  applyOptions (c.opts opts) (initialRequest apiKey c.basic c.advanced (!c.preview))

/-! ## The reference validator of the basic terms -/

/-- The validation of the basic terms as the specification words it: absent
terms; else an include list of length 0 or above 4; else an exclude list of
length above 4; else no error. -/
def validateBasicReference (terms : Option BasicSearchTerms) : Option ArgError :=
  match terms with
  | none => some ⟨"basicSearchTerms.include", "is required."⟩
  | some t =>
    if len t.Include = 0 ∨ 4 < len t.Include then
      some ⟨"basicSearchTerms.include", "must have between 1 and 4 items."⟩
    else if 4 < len t.Exclude then
      some ⟨"basicSearchTerms.exclude", "must have between 0 and 4 items."⟩
    else none

/-! ## Fixtures: a library, a server and arguments to run the code on -/

/-- A library whose decoder answers `decoded` for every body, whose reader
answers `doc` for every text, and which accepts every method and URL. -/
def fixtureLib (decoded : Except String apiResponse) (doc : Except String JSON) : Lib :=
  { jsonText := fun _ => []
    jsonParse := fun _ => doc
    jsonDecode := fun _ => decoded
    httpNewRequest := fun _ _ => none }

/-- A service whose transport answers `outcome` for every request. -/
def fixtureService (outcome : Except String HTTPResponse) : registrantAlertServiceOp :=
  { client := { client := fun _ => outcome, userAgent := userAgent, apiKey := "key" }
    baseURL := "https://registrant-alert.whoisxmlapi.com/api/v2" }

/-- A response with the given status whose body is delivered whole. -/
def fixtureResponse (status : Int) (body : String) : HTTPResponse :=
  { StatusCode := status, Header := [], Body := { data := bytesOf body, readErr := none, closeErr := none } }

/-- The text of a success body with a count of 4. -/
def fixtureCountText : String := "\x7b\"domainsCount\":4\x7d"

/-- The text of an error body with code 499 and one message. -/
def fixtureErrorText : String :=
  "\x7b\"code\":499,\"messages\":[\"Test error message.\"]\x7d"

/-- The text of a body with code 0 and an empty array of messages. -/
def fixtureEmptyMessagesText : String := "\x7b\"code\":0,\"messages\":[]\x7d"

/-- Accepted basic terms: `include` is `["whois"]`. -/
def fixtureBasic : Option BasicSearchTerms :=
  some { Include := some ["whois"], Exclude := none }

/-- Accepted advanced terms: one term with a field and a text. -/
def fixtureAdvanced : Option (List AdvancedSearchTerm) :=
  some [{ Field := "RegistrantContact.Organization", Term := "Airbnb, Inc.", ExactMatch := true }]

/-- A decoded success body: a count of 4 and no error part. -/
def fixtureSuccess : apiResponse :=
  { RegistrantAlertResponse := { DomainsList := none, DomainsCount := 4 }
    ErrorMessage := { Code := 0, Message := none } }

/-- A decoded error body: code 499 with one message. -/
def fixtureFailure : apiResponse :=
  { RegistrantAlertResponse := { DomainsList := none, DomainsCount := 0 }
    ErrorMessage := { Code := 499, Message := some ["Test error message."] } }

/-- A decoded body with code 0 and a messages sequence that is empty but not
`nil`, as the text `{"code":0,"messages":[]}` decodes. -/
def fixtureEmptyMessages : apiResponse :=
  { RegistrantAlertResponse := { DomainsList := none, DomainsCount := 0 }
    ErrorMessage := { Code := 0, Message := some [] } }

/-- The HTTP request the fixture service prepares: the fixture library
writes every document as the empty text. -/
def fixtureRequest : HTTPRequest :=
  { Method := "POST"
    URL := "https://registrant-alert.whoisxmlapi.com/api/v2"
    Header := [("Content-Type", "application/json"), ("Accept", "application/json"),
      ("User-Agent", "registrant-alert-go/1.0.0")]
    Body := []
    ctx := 0 }

/-- A response whose body breaks off after the bytes of `body`. -/
def fixtureTruncated (status : Int) (body : String) : HTTPResponse :=
  { StatusCode := status, Header := []
    Body := { data := bytesOf body, readErr := some "unexpected EOF", closeErr := none } }

/-! ## Vocabulary of the statements -/

/-- The decimal digit character of a number below ten. -/
def digitOf (n : Nat) : Char := Char.ofNat (48 + n)

/-- The items of a list, each preceded by the separator. -/
def tailJoin (sep : String) : List String → String
  | [] => ""
  | x :: rest => sep ++ x ++ tailJoin sep rest

/-- The request an entry point sends when it is given no option, as the
specification words it: the key of the client, the supplied terms of the one
kind and nil for the other, mode `preview` for the two previews and
`purchase` otherwise, punycode on, format `json`, and every date empty. -/
def defaultRequestOf (apiKey : String) : Call → registrantAlertRequest
  | .BasicPreview t => ⟨apiKey, t, none, "", "preview", true, "json", "", "", "", "", "", ""⟩
  | .BasicPurchase t => ⟨apiKey, t, none, "", "purchase", true, "json", "", "", "", "", "", ""⟩
  | .BasicRawData t => ⟨apiKey, t, none, "", "purchase", true, "json", "", "", "", "", "", ""⟩
  | .AdvancedPreview t => ⟨apiKey, none, t, "", "preview", true, "json", "", "", "", "", "", ""⟩
  | .AdvancedPurchase t => ⟨apiKey, none, t, "", "purchase", true, "json", "", "", "", "", "", ""⟩
  | .AdvancedRawData t => ⟨apiKey, none, t, "", "purchase", true, "json", "", "", "", "", "", ""⟩

/-- The names of the fields of `registrantAlertRequest`. -/
inductive FieldName where
  | APIKey
  | BasicSearchTerms
  | AdvancedSearchTerms
  | SinceDate
  | Mode
  | Punycode
  | ResponseFormat
  | CreatedDateFrom
  | CreatedDateTo
  | UpdatedDateFrom
  | UpdatedDateTo
  | ExpiredDateFrom
  | ExpiredDateTo
  deriving DecidableEq, Repr

/-- The value of a field of `registrantAlertRequest`. -/
inductive FieldValue where
  | text (s : String)
  | flag (b : Bool)
  | basic (t : Option BasicSearchTerms)
  | advanced (t : Option (List AdvancedSearchTerm))
  deriving DecidableEq, Repr

/-- The value of the named field of a request. -/
def registrantAlertRequest.get (r : registrantAlertRequest) : FieldName → FieldValue
  | .APIKey => .text r.APIKey
  | .BasicSearchTerms => .basic r.BasicSearchTerms
  | .AdvancedSearchTerms => .advanced r.AdvancedSearchTerms
  | .SinceDate => .text r.SinceDate
  | .Mode => .text r.Mode
  | .Punycode => .flag r.Punycode
  | .ResponseFormat => .text r.ResponseFormat
  | .CreatedDateFrom => .text r.CreatedDateFrom
  | .CreatedDateTo => .text r.CreatedDateTo
  | .UpdatedDateFrom => .text r.UpdatedDateFrom
  | .UpdatedDateTo => .text r.UpdatedDateTo
  | .ExpiredDateFrom => .text r.ExpiredDateFrom
  | .ExpiredDateTo => .text r.ExpiredDateTo

/-- The field an option is named after. -/
def KnownOption.field : KnownOption → FieldName
  | .responseFormat _ => .ResponseFormat
  | .sinceDate _ => .SinceDate
  | .punycode _ => .Punycode
  | .createdDateFrom _ => .CreatedDateFrom
  | .createdDateTo _ => .CreatedDateTo
  | .updatedDateFrom _ => .UpdatedDateFrom
  | .updatedDateTo _ => .UpdatedDateTo
  | .expiredDateFrom _ => .ExpiredDateFrom
  | .expiredDateTo _ => .ExpiredDateTo

/-- The value an option is meant to give its field: the string or the flag
as given, a date in the format of `dateFormat`. -/
def KnownOption.value : KnownOption → FieldValue
  | .responseFormat s => .text s
  | .sinceDate d => .text (formatDate d)
  | .punycode b => .flag b
  | .createdDateFrom d => .text (formatDate d)
  | .createdDateTo d => .text (formatDate d)
  | .updatedDateFrom d => .text (formatDate d)
  | .updatedDateTo d => .text (formatDate d)
  | .expiredDateFrom d => .text (formatDate d)
  | .expiredDateTo d => .text (formatDate d)

/-- Whether an option is a response-format option. -/
def KnownOption.isResponseFormat : KnownOption → Bool
  | .responseFormat _ => true
  | _ => false

/-- The document of a `Messages`: `null` for a `nil` slice, an array of
strings otherwise. -/
def Messages.toJSON (m : Messages) : JSON :=
  match m with
  | none => .null
  | some xs => .array (xs.map .string)

/-- Whether a document is an array. -/
def JSON.isArray : JSON → Bool
  | .array _ => true
  | _ => false

/-- Whether a document is a string or `null`: what the decoder stores into
an item of a `[]string` without an error. -/
def JSON.isStringOrNull : JSON → Bool
  | .string _ => true
  | .null => true
  | _ => false

/-- Whether a document is an array whose items are all strings or `null`:
the arrays the decoder stores into a `[]string` without an error. -/
def JSON.isStringArray : JSON → Bool
  | .array items => items.all JSON.isStringOrNull
  | _ => false

/-- The string the decoder stores for an item of a `[]string`: the text of a
string item, the empty string for `null`. -/
def JSON.itemText : JSON → String
  | .string s => s
  | _ => ""

/-- Whether a document is `null`. -/
def JSON.isNull : JSON → Bool
  | .null => true
  | _ => false

/-- The value of a member of an object of messages: a string or an array of
strings. -/
inductive MemberValue where
  | text (s : String)
  | texts (items : List String)
  deriving DecidableEq, Repr

/-- The document of a member value. -/
def MemberValue.toJSON : MemberValue → JSON
  | .text s => .string s
  | .texts items => .array (items.map .string)

/-- The text of a member value as the specification words it: a string as
it is, an array as `[`, its items separated by single spaces, `]`. -/
def MemberValue.render : MemberValue → String
  | .text s => s
  | .texts items => "[" ++ " ".intercalate items ++ "]"

/-- The text `YYYY-MM-DD` of a calendar day: the four digits of the year,
the two digits of the month and the two digits of the day. -/
def dateText (y m d : Nat) : String :=
  String.mk [digitOf (y / 1000), digitOf (y / 100 % 10), digitOf (y / 10 % 10), digitOf (y % 10),
    '-', digitOf (m / 10), digitOf (m % 10), '-', digitOf (d / 10), digitOf (d % 10)]

/-- A text as a JSON string: the text in double quotes. No character of a
date text needs an escape. -/
def quoted (s : String) : String := "\"" ++ s ++ "\""

/-- The `Time` that is midnight of a calendar day in UTC. -/
def dayTime (y m d : Nat) : Time :=
  ⟨{ year := Int.ofNat y, month := m, day := d, hour := 0, minute := 0, second := 0,
     nanosecond := 0, loc := 0 }⟩

/-- The name of the member a field of the request is serialized as, from
the tags of the struct. -/
def FieldName.key : FieldName → String
  | .APIKey => "apiKey"
  | .BasicSearchTerms => "basicSearchTerms"
  | .AdvancedSearchTerms => "advancedSearchTerms"
  | .SinceDate => "sinceDate"
  | .Mode => "mode"
  | .Punycode => "punycode"
  | .ResponseFormat => "responseFormat"
  | .CreatedDateFrom => "createdDateFrom"
  | .CreatedDateTo => "createdDateTo"
  | .UpdatedDateFrom => "updatedDateFrom"
  | .UpdatedDateTo => "updatedDateTo"
  | .ExpiredDateFrom => "expiredDateFrom"
  | .ExpiredDateTo => "expiredDateTo"

/-- Whether an option is one of the seven date options. -/
def KnownOption.isDate : KnownOption → Bool
  | .responseFormat _ => false
  | .punycode _ => false
  | _ => true

/-- The date an option carries, the zero time for an option without one. -/
def KnownOption.date : KnownOption → GoTime
  | .sinceDate d => d
  | .createdDateFrom d => d
  | .createdDateTo d => d
  | .updatedDateFrom d => d
  | .updatedDateTo d => d
  | .expiredDateFrom d => d
  | .expiredDateTo d => d
  | _ => GoTime.zero

/-- A response with its status replaced. -/
def HTTPResponse.setStatus (status : Int) (resp : HTTPResponse) : HTTPResponse :=
  { resp with StatusCode := status }

/-- A service like `service` whose transport answers with the given status
in place of the status of the server. -/
def withStatus (status : Int) (service : registrantAlertServiceOp) : registrantAlertServiceOp :=
  { service with
    client := { service.client with
      client := fun req =>
        match service.client.client req with
        | .error err => .error err
        | .ok resp => .ok (resp.setStatus status) } }

/-! ## Lemmas on the validators -/

theorem validateAdvancedLoop_eq_none (i : Nat) (xs : List AdvancedSearchTerm) :
    validateAdvancedLoop i xs = none ↔ ∀ x ∈ xs, x.Field ≠ "" ∧ x.Term ≠ "" := by
  induction xs generalizing i with
  | nil => simp [validateAdvancedLoop]
  | cons x rest ih =>
    by_cases hf : x.Field = ""
    · simp [validateAdvancedLoop, hf]
    · by_cases ht : x.Term = ""
      · simp [validateAdvancedLoop, hf, ht]
      · simp [validateAdvancedLoop, hf, ht, ih]

theorem validateAdvancedLoop_first (xs : List AdvancedSearchTerm) :
    ∀ (k i : Nat) (bad : AdvancedSearchTerm), xs[i]? = some bad →
      (∀ j x, j < i → xs[j]? = some x → x.Field ≠ "" ∧ x.Term ≠ "") →
      (bad.Field = "" ∨ bad.Term = "") →
      validateAdvancedLoop k xs = some (.argError
        ⟨"advancedSearchTerms." ++ Itoa (Int.ofNat (k + i))
          ++ (if bad.Field = "" then ".Field" else ".Term"), "is required."⟩) := by
  induction xs with
  | nil => intro k i bad h; simp at h
  | cons x rest ih =>
    intro k i bad h hmin hbad
    cases i with
    | zero =>
      simp at h
      subst h
      by_cases hf : x.Field = ""
      · simp [validateAdvancedLoop, hf]
      · have ht : x.Term = "" := by tauto
        simp [validateAdvancedLoop, hf, ht]
    | succ i =>
      have hx := hmin 0 x (Nat.succ_pos i) (by simp)
      simp at h
      have hrest := ih (k + 1) i bad h
        (fun j y hj hy => hmin (j + 1) y (Nat.succ_lt_succ hj) (by simpa using hy)) hbad
      have hk : k + 1 + i = k + (i + 1) := by omega
      simp [validateAdvancedLoop, hx.1, hx.2, hrest, hk]

theorem validateOptions_eq_none (opts : List Opt) :
    validateOptions opts = none ↔ ∀ o ∈ opts, o.isSome = true := by
  induction opts with
  | nil => simp [validateOptions]
  | cons o rest ih =>
    cases o with
    | none => simp [validateOptions]
    | some f => simp [validateOptions, ih]

theorem validateOptions_eq_some (opts : List Opt) (err : Error)
    (h : validateOptions opts = some err) : err = .argError ⟨"Option", "can not be nil"⟩ := by
  induction opts with
  | nil => simp [validateOptions] at h
  | cons o rest ih =>
    cases o with
    | none => simp [validateOptions] at h; exact h.symm
    | some f => simp [validateOptions] at h; exact ih h

theorem validateOptions_append (xs ys : List Opt) :
    validateOptions (xs ++ ys) = (validateOptions xs).orElse (fun _ => validateOptions ys) := by
  induction xs with
  | nil => simp [validateOptions]
  | cons o rest ih =>
    cases o with
    | none => simp [validateOptions]
    | some f => simp [validateOptions, ih]

theorem validateOptions_knownOpts (ks : List KnownOption) :
    validateOptions (knownOpts ks) = none := by
  rw [validateOptions_eq_none]
  intro o ho
  simp only [knownOpts, List.mem_map] at ho
  obtain ⟨k, -, rfl⟩ := ho
  rfl

theorem validate_eq_some (c : Call) (err : Error) (h : c.validate = some err) :
    ∃ a, err = .argError a := by
  have hb : ∀ t e, validateBasicSearchTerms t = some e → ∃ a, e = .argError a := by
    intro t e ht
    cases t with
    | none => simp [validateBasicSearchTerms] at ht; exact ⟨_, ht.symm⟩
    | some b =>
      simp only [validateBasicSearchTerms] at ht
      split_ifs at ht
      · simp at ht; exact ⟨_, ht.symm⟩
      · simp at ht; exact ⟨_, ht.symm⟩
  have hl : ∀ xs i e, validateAdvancedLoop i xs = some e → ∃ a, e = .argError a := by
    intro xs
    induction xs with
    | nil => intro i e h; simp [validateAdvancedLoop] at h
    | cons x rest ih =>
      intro i e h
      simp only [validateAdvancedLoop] at h
      split_ifs at h
      · simp at h; exact ⟨_, h.symm⟩
      · simp at h; exact ⟨_, h.symm⟩
      · exact ih _ _ h
  have ha : ∀ t e, validateAdvancedSearchTerms t = some e → ∃ a, e = .argError a := by
    intro t e ht
    cases t with
    | none => simp [validateAdvancedSearchTerms] at ht; exact ⟨_, ht.symm⟩
    | some xs =>
      simp only [validateAdvancedSearchTerms] at ht
      split_ifs at ht
      · simp at ht; exact ⟨_, ht.symm⟩
      · exact hl _ _ _ ht
  cases c <;> first | exact hb _ _ h | exact ha _ _ h

/-! ## Lemmas on the option loop -/

theorem applyOptions_append (xs ys : List Opt) (r : registrantAlertRequest) :
    applyOptions (xs ++ ys) r = applyOptions ys (applyOptions xs r) := by
  induction xs generalizing r with
  | nil => rfl
  | cons o rest ih =>
    cases o with
    | none => simpa [applyOptions] using ih r
    | some f => simpa [applyOptions] using ih (f r)

/-! ## Lemmas on `Client.Do` and `request` -/

theorem Do_trace_no_marshal (c : Client) (ctx : Nat) (req : HTTPRequest)
    (request : registrantAlertRequest) : Event.marshal request ∉ (c.Do ctx req).trace := by
  unfold Client.Do
  dsimp only
  rcases c.client _ with e | ⟨status, header, ⟨data, _ | cause, _ | rerr⟩⟩ <;> simp

theorem Do_err_not_errorMessage (c : Client) (ctx : Nat) (req : HTTPRequest) (em : ErrorMessage) :
    (c.Do ctx req).err ≠ some (.errorMessage em) := by
  unfold Client.Do
  dsimp only
  rcases c.client _ with e | ⟨status, header, ⟨data, _ | cause, _ | rerr⟩⟩ <;> simp

theorem Do_response_of_ok (c : Client) (ctx : Nat) (req : HTTPRequest)
    (h : (c.Do ctx req).err = none) : ∃ hr, (c.Do ctx req).response = some hr := by
  revert h
  unfold Client.Do
  dsimp only
  rcases c.client _ with e | ⟨status, header, ⟨data, _ | cause, _ | rerr⟩⟩ <;> simp

/-- The three shapes of the result of `request`. -/
theorem request_eq (L : Lib) (service : registrantAlertServiceOp) (ctx : Nat)
    (b : Option BasicSearchTerms) (a : Option (List AdvancedSearchTerm)) (p : Bool)
    (opts : List Opt) :
    service.request L ctx b a p opts =
      match validateOptions opts with
      | some err => ⟨none, some err, []⟩
      | none =>
        match service.newRequest L
            (L.jsonText (.object (applyOptions opts
              (initialRequest service.client.apiKey b a p)).members)) with
        | .error err =>
          ⟨none, some err, [.marshal (applyOptions opts (initialRequest service.client.apiKey b a p))]⟩
        | .ok req =>
          ⟨some ⟨(service.client.Do ctx req).response, (service.client.Do ctx req).written⟩,
            (service.client.Do ctx req).err,
            .marshal (applyOptions opts (initialRequest service.client.apiKey b a p))
              :: (service.client.Do ctx req).trace⟩ := by
  unfold registrantAlertServiceOp.request jsonMarshal
  cases validateOptions opts with
  | some err => rfl
  | none => rfl

theorem newRequest_error (L : Lib) (service : registrantAlertServiceOp) (body : Bytes)
    (err : Error) (h : service.newRequest L body = .error err) : ∃ text, err = .library text := by
  unfold registrantAlertServiceOp.newRequest Client.NewRequest at h
  cases hn : L.httpNewRequest "POST" service.baseURL with
  | none => simp [hn] at h
  | some e => simp [hn] at h; exact ⟨e, h.symm⟩

/-! ## Lemmas on the entry points -/

theorem run_of_rejected (L : Lib) (service : registrantAlertServiceOp) (ctx : Nat) (c : Call)
    (opts : List Opt) (err : Error) (h : c.validate = some err) :
    c.run L service ctx opts = ⟨0, none, none, some err, []⟩ := by
  cases c <;>
    simp only [Call.validate] at h <;>
    simp [Call.run, registrantAlertServiceOp.BasicPreview, registrantAlertServiceOp.BasicPurchase,
      registrantAlertServiceOp.BasicRawData, registrantAlertServiceOp.AdvancedPreview,
      registrantAlertServiceOp.AdvancedPurchase, registrantAlertServiceOp.AdvancedRawData, h]

theorem run_of_request_err (L : Lib) (service : registrantAlertServiceOp) (ctx : Nat) (c : Call)
    (opts : List Opt) (err : Error) (hv : c.validate = none)
    (he : (c.request L service ctx opts).err = some err) :
    c.run L service ctx opts
      = ⟨0, none, (c.request L service ctx opts).resp, some err,
          (c.request L service ctx opts).trace⟩ := by
  cases c <;>
    simp only [Call.validate] at hv <;>
    simp only [Call.request, Call.basic, Call.advanced, Call.preview, Call.opts, Call.parsed,
      Bool.not_true, Bool.not_false, if_true, Bool.false_eq_true, if_false] at he ⊢ <;>
    simp [Call.run, registrantAlertServiceOp.BasicPreview, registrantAlertServiceOp.BasicPurchase,
      registrantAlertServiceOp.BasicRawData, registrantAlertServiceOp.AdvancedPreview,
      registrantAlertServiceOp.AdvancedPurchase, registrantAlertServiceOp.AdvancedRawData, hv, he]

theorem run_parsed_of_decode_error (L : Lib) (service : registrantAlertServiceOp) (ctx : Nat)
    (c : Call) (opts : List Opt) (resp : Response) (cause : String)
    (hp : c.parsed = true) (hv : c.validate = none)
    (he : (c.request L service ctx opts).err = none)
    (hr : (c.request L service ctx opts).resp = some resp)
    (hd : L.jsonDecode resp.Body = .error cause) :
    c.run L service ctx opts
      = ⟨0, none, some resp, some (.wrapped "cannot parse response: " (.library cause)),
          (c.request L service ctx opts).trace⟩ := by
  cases c <;>
    simp only [Call.validate] at hv <;>
    simp only [Call.parsed, Bool.false_eq_true] at hp <;>
    simp only [Call.request, Call.basic, Call.advanced, Call.preview, Call.opts, Call.parsed,
      Bool.not_true, Bool.not_false, if_true, Bool.false_eq_true, if_false] at he hr ⊢ <;>
    simp [Call.run, registrantAlertServiceOp.BasicPreview, registrantAlertServiceOp.BasicPurchase,
      registrantAlertServiceOp.AdvancedPreview, registrantAlertServiceOp.AdvancedPurchase,
      parse, hv, he, hr, hd]

theorem run_parsed_of_decoded (L : Lib) (service : registrantAlertServiceOp) (ctx : Nat)
    (c : Call) (opts : List Opt) (resp : Response) (v : apiResponse)
    (hp : c.parsed = true) (hv : c.validate = none)
    (he : (c.request L service ctx opts).err = none)
    (hr : (c.request L service ctx opts).resp = some resp)
    (hd : L.jsonDecode resp.Body = .ok v) :
    c.run L service ctx opts
      = if v.ErrorMessage.Message ≠ none ∨ v.ErrorMessage.Code ≠ 0 then
          ⟨0, none, none, some (.errorMessage ⟨v.ErrorMessage.Code, v.ErrorMessage.Message⟩),
            (c.request L service ctx opts).trace⟩
        else
          ⟨if c.preview then v.RegistrantAlertResponse.DomainsCount else 0,
            if c.preview then none else some v.RegistrantAlertResponse,
            some resp, none, (c.request L service ctx opts).trace⟩ := by
  cases c <;>
    simp only [Call.validate] at hv <;>
    simp only [Call.parsed, Bool.false_eq_true] at hp <;>
    simp only [Call.request, Call.basic, Call.advanced, Call.preview, Call.opts, Call.parsed,
      Bool.not_true, Bool.not_false, if_true, Bool.false_eq_true, if_false] at he hr ⊢ <;>
    simp only [Call.run, registrantAlertServiceOp.BasicPreview,
      registrantAlertServiceOp.BasicPurchase, registrantAlertServiceOp.AdvancedPreview,
      registrantAlertServiceOp.AdvancedPurchase, parse, hv, he, hr, hd] <;>
    split_ifs <;> rfl

theorem run_raw_of_request_ok (L : Lib) (service : registrantAlertServiceOp) (ctx : Nat)
    (c : Call) (opts : List Opt) (resp : Response)
    (hp : c.parsed = false) (hv : c.validate = none)
    (he : (c.request L service ctx opts).err = none)
    (hr : (c.request L service ctx opts).resp = some resp) :
    c.run L service ctx opts
      = ⟨0, none, some resp, checkResponse resp.Response,
          (c.request L service ctx opts).trace⟩ := by
  cases c <;>
    simp only [Call.validate] at hv <;>
    simp only [Call.parsed, Bool.true_eq_false] at hp <;>
    simp only [Call.request, Call.basic, Call.advanced, Call.preview, Call.opts, Call.parsed,
      Bool.not_true, Bool.not_false, if_true, Bool.false_eq_true, if_false] at he hr ⊢ <;>
    simp only [Call.run, registrantAlertServiceOp.BasicRawData,
      registrantAlertServiceOp.AdvancedRawData, hv, he, hr] <;>
    cases checkResponse resp.Response <;> rfl

theorem request_ok_resp (L : Lib) (service : registrantAlertServiceOp) (ctx : Nat)
    (b : Option BasicSearchTerms) (a : Option (List AdvancedSearchTerm)) (p : Bool)
    (opts : List Opt) (h : (service.request L ctx b a p opts).err = none) :
    ∃ hr body, (service.request L ctx b a p opts).resp = some ⟨some hr, body⟩ := by
  rw [request_eq] at h ⊢
  cases hv : validateOptions opts with
  | some e => simp [hv] at h
  | none =>
    simp only [hv] at h ⊢
    cases hn : service.newRequest L
        (L.jsonText (.object (applyOptions opts
          (initialRequest service.client.apiKey b a p)).members)) with
    | error e => simp [hn] at h
    | ok req =>
      simp only [hn] at h ⊢
      obtain ⟨hr, hhr⟩ := Do_response_of_ok _ _ _ h
      exact ⟨hr, _, by rw [hhr]⟩

theorem Do_ok_iff (c : Client) (ctx : Nat) (req : HTTPRequest) :
    (c.Do ctx req).err = none ↔
      ∃ resp, c.client { req with ctx := ctx } = .ok resp ∧ resp.Body.readErr = none
        ∧ resp.Body.closeErr = none := by
  unfold Client.Do
  dsimp only
  rcases c.client _ with e | ⟨status, header, ⟨data, _ | cause, _ | rerr⟩⟩ <;> simp

theorem Do_written (c : Client) (ctx : Nat) (req : HTTPRequest) :
    (c.Do ctx req).written
      = match c.client { req with ctx := ctx } with
        | .error _ => []
        | .ok resp => resp.Body.data := by
  unfold Client.Do
  dsimp only
  rcases c.client _ with e | ⟨status, header, ⟨data, _ | cause, _ | rerr⟩⟩ <;> rfl

theorem Do_ok_body (c : Client) (ctx : Nat) (req : HTTPRequest) (hr : HTTPResponse)
    (h : (c.Do ctx req).err = none) (hresp : (c.Do ctx req).response = some hr) :
    (c.Do ctx req).written = hr.Body.data := by
  revert h hresp
  unfold Client.Do
  dsimp only
  rcases c.client _ with e | ⟨status, header, ⟨data, _ | cause, _ | rerr⟩⟩ <;> simp
  intro h
  rw [← h]

theorem request_ok_body (L : Lib) (service : registrantAlertServiceOp) (ctx : Nat)
    (b : Option BasicSearchTerms) (a : Option (List AdvancedSearchTerm)) (p : Bool)
    (opts : List Opt) (hr : HTTPResponse) (body : Bytes)
    (h : (service.request L ctx b a p opts).err = none)
    (hresp : (service.request L ctx b a p opts).resp = some ⟨some hr, body⟩) :
    body = hr.Body.data := by
  rw [request_eq] at h hresp
  cases hv : validateOptions opts with
  | some e => simp [hv] at h
  | none =>
    simp only [hv] at h hresp
    cases hn : service.newRequest L
        (L.jsonText (.object (applyOptions opts
          (initialRequest service.client.apiKey b a p)).members)) with
    | error e => simp [hn] at h
    | ok req =>
      simp only [hn] at h hresp
      simp only [Option.some.injEq, Response.mk.injEq] at hresp
      rw [← hresp.2]
      exact Do_ok_body _ _ _ _ h hresp.1

theorem request_of_prepared (L : Lib) (service : registrantAlertServiceOp) (ctx : Nat)
    (c : Call) (opts : List Opt) (req : HTTPRequest) (ho : validateOptions opts = none)
    (hn : service.newRequest L
      (L.jsonText (.object (c.built service.client.apiKey opts).members)) = .ok req) :
    c.request L service ctx opts
      = ⟨some ⟨(service.client.Do ctx req).response, (service.client.Do ctx req).written⟩,
          (service.client.Do ctx req).err,
          .marshal (c.built service.client.apiKey opts) :: (service.client.Do ctx req).trace⟩ := by
  have hopts : validateOptions (c.opts opts) = none := by
    unfold Call.opts
    split_ifs
    · simp [validateOptions_append, ho, validateOptions]
    · exact ho
  unfold Call.request
  rw [request_eq]
  simp only [hopts]
  unfold Call.built at hn
  rw [hn]
  rfl

theorem request_jsonDecode_irrelevant (L : Lib) (service : registrantAlertServiceOp) (ctx : Nat)
    (b : Option BasicSearchTerms) (a : Option (List AdvancedSearchTerm)) (p : Bool)
    (opts : List Opt) (decode : Bytes → Except String apiResponse) :
    service.request { L with jsonDecode := decode } ctx b a p opts
      = service.request L ctx b a p opts := rfl

theorem request_trace (L : Lib) (service : registrantAlertServiceOp) (ctx : Nat)
    (b : Option BasicSearchTerms) (a : Option (List AdvancedSearchTerm)) (p : Bool)
    (opts : List Opt) (hv : validateOptions opts = none) :
    ∃ rest, (service.request L ctx b a p opts).trace
        = .marshal (applyOptions opts (initialRequest service.client.apiKey b a p)) :: rest
      ∧ ∀ request, Event.marshal request ∉ rest := by
  rw [request_eq]
  simp only [hv]
  cases hn : service.newRequest L
      (L.jsonText (.object (applyOptions opts
        (initialRequest service.client.apiKey b a p)).members)) with
  | error e => exact ⟨[], rfl, by simp⟩
  | ok req => exact ⟨_, rfl, fun r => Do_trace_no_marshal _ _ _ r⟩

theorem request_err_not_errorMessage (L : Lib) (service : registrantAlertServiceOp) (ctx : Nat)
    (b : Option BasicSearchTerms) (a : Option (List AdvancedSearchTerm)) (p : Bool)
    (opts : List Opt) (em : ErrorMessage) :
    (service.request L ctx b a p opts).err ≠ some (.errorMessage em) := by
  rw [request_eq]
  cases hv : validateOptions opts with
  | some e =>
    have := validateOptions_eq_some _ _ hv
    simp [this]
  | none =>
    simp only
    cases hn : service.newRequest L
        (L.jsonText (.object (applyOptions opts
          (initialRequest service.client.apiKey b a p)).members)) with
    | error e =>
      obtain ⟨text, rfl⟩ := newRequest_error _ _ _ _ hn
      simp
    | ok req => exact Do_err_not_errorMessage _ _ _ _

theorem run_trace (L : Lib) (service : registrantAlertServiceOp) (ctx : Nat) (c : Call)
    (opts : List Opt) (hv : c.validate = none) :
    (c.run L service ctx opts).trace = (c.request L service ctx opts).trace := by
  cases he : (c.request L service ctx opts).err with
  | some err => rw [run_of_request_err _ _ _ _ _ _ hv he]
  | none =>
    obtain ⟨hr, body, hresp⟩ := request_ok_resp _ _ _ _ _ _ _ he
    cases hp : c.parsed with
    | false => rw [run_raw_of_request_ok _ _ _ _ _ _ hp hv he hresp]
    | true =>
      cases hd : L.jsonDecode body with
      | error cause => rw [run_parsed_of_decode_error _ _ _ _ _ _ _ hp hv he hresp hd]
      | ok v =>
        rw [run_parsed_of_decoded _ _ _ _ _ _ _ hp hv he hresp hd]
        split_ifs <;> rfl

/-! ## Lemmas on the members of the serialized request -/

theorem lookupMember_append (name : String) (xs ys : List (String × JSON)) :
    lookupMember name (xs ++ ys)
      = match lookupMember name xs with
        | some v => some v
        | none => lookupMember name ys := by
  induction xs with
  | nil => rfl
  | cons x rest ih =>
    obtain ⟨k, v⟩ := x
    by_cases hk : k = name
    · simp [lookupMember, hk]
    · simp [lookupMember, hk, ih]

theorem lookupMember_omitEmptyString (name k s : String) :
    lookupMember name (omitEmptyString k s)
      = if k = name then (if s = "" then none else some (.string s)) else none := by
  unfold omitEmptyString
  split_ifs <;> simp_all [lookupMember]

theorem lookupMember_omitEmptyBool (name k : String) (b : Bool) :
    lookupMember name (omitEmptyBool k b)
      = if k = name then (if b then some (.bool true) else none) else none := by
  unfold omitEmptyBool
  split_ifs <;> simp_all [lookupMember]

theorem lookupMember_omitNilBasic (name k : String) (t : Option BasicSearchTerms) :
    lookupMember name (omitNilBasic k t)
      = if k = name then t.map BasicSearchTerms.toJSON else none := by
  cases t <;> simp [omitNilBasic, lookupMember]

theorem lookupMember_omitEmptyTerms (name k : String) (xs : Option (List AdvancedSearchTerm)) :
    lookupMember name (omitEmptyTerms k xs)
      = if k = name then
          (if len xs = 0 then none
            else some (.array ((xs.getD []).map AdvancedSearchTerm.toJSON)))
        else none := by
  unfold omitEmptyTerms
  split_ifs <;> simp_all [lookupMember]

theorem lookupMember_responseFormat (r : registrantAlertRequest) :
    lookupMember "responseFormat" r.members
      = if r.ResponseFormat = "" then none else some (.string r.ResponseFormat) := by
  unfold registrantAlertRequest.members
  simp [lookupMember_append, lookupMember_omitEmptyString, lookupMember_omitEmptyBool,
    lookupMember_omitNilBasic, lookupMember_omitEmptyTerms, lookupMember]
  split_ifs <;> rfl

/-! ## Argument validation (C1 to C4) -/

/-- C1. For each of the six entry points and every search-terms argument its
validator rejects, the entry point returns exactly the validator's error, a
nil envelope and the zero typed result, and performs no external effect at
all (the trace is empty, so the transport is never invoked), whatever the
options are. -/
theorem rejected_terms_return_before_any_effect (L : Lib) (service : registrantAlertServiceOp)
    (ctx : Nat) (c : Call) (opts : List Opt) (err : Error) (h : c.validate = some err) :
    c.run L service ctx opts = ⟨0, none, none, some err, []⟩ :=
  run_of_rejected L service ctx c opts err h

/-- Witness of C1: `BasicPreview` on an empty include list, with a nil
option in the list. -/
theorem rejected_terms_return_before_any_effect_witness :
    (Call.BasicPreview (some ⟨some [], none⟩)).validate
        = some (.argError ⟨"basicSearchTerms.include", "must have between 1 and 4 items."⟩)
      ∧ (Call.BasicPreview (some ⟨some [], none⟩)).run
          (fixtureLib (.ok fixtureSuccess) (.ok .null))
          (fixtureService (.ok (fixtureResponse 200 fixtureCountText))) 0 [none]
        = ⟨0, none, none,
            some (.argError ⟨"basicSearchTerms.include", "must have between 1 and 4 items."⟩), []⟩ :=
  ⟨by decide, rejected_terms_return_before_any_effect _ _ _ _ _ _ (by decide)⟩

/-- C2. `validateBasicSearchTerms` equals the reference validator on every
input; it accepts exactly when the terms are not nil, the include list has
1 to 4 items and the exclude list has at most 4; and an argument error
renders as `invalid argument: "<name>" <message>`, which for the three
errors gives the three texts below. -/
theorem validateBasicSearchTerms_eq_reference :
    (∀ t, validateBasicSearchTerms t = (validateBasicReference t).map Error.argError)
      ∧ (∀ t, validateBasicSearchTerms t = none ↔
          ∃ b, t = some b ∧ 1 ≤ len b.Include ∧ len b.Include ≤ 4 ∧ len b.Exclude ≤ 4)
      ∧ (∀ a : ArgError,
          (Error.argError a).Error = "invalid argument: \"" ++ a.Name ++ "\" " ++ a.Message)
      ∧ (Error.argError ⟨"basicSearchTerms.include", "is required."⟩).Error
          = "invalid argument: \"basicSearchTerms.include\" is required."
      ∧ (Error.argError ⟨"basicSearchTerms.include", "must have between 1 and 4 items."⟩).Error
          = "invalid argument: \"basicSearchTerms.include\" must have between 1 and 4 items."
      ∧ (Error.argError ⟨"basicSearchTerms.exclude", "must have between 0 and 4 items."⟩).Error
          = "invalid argument: \"basicSearchTerms.exclude\" must have between 0 and 4 items." := by
  have ref : ∀ t, validateBasicSearchTerms t = (validateBasicReference t).map Error.argError := by
    intro t
    cases t with
    | none => rfl
    | some b =>
      obtain ⟨inc, exc⟩ := b
      cases inc <;> cases exc <;>
        simp [validateBasicSearchTerms, validateBasicReference, len]
      split_ifs <;> rfl
  refine ⟨ref, ?_, fun a => rfl, by decide, by decide, by decide⟩
  intro t
  rw [ref t]
  cases t with
  | none => simp [validateBasicReference]
  | some b =>
    constructor
    · intro h
      refine ⟨b, rfl, ?_⟩
      simp only [validateBasicReference] at h
      split_ifs at h with h1 h2
      · simp at h
      · simp at h
      · omega
    · rintro ⟨b', hb, h1, h2, h3⟩
      cases hb
      simp only [validateBasicReference]
      rw [if_neg (by omega), if_neg (by omega)]
      rfl

/-- C3. `validateAdvancedSearchTerms` returns no error exactly when the list
is not nil, has 1 to 4 items, and every item has a non-empty field and a
non-empty term; a nil list is reported as required; and a list of length 0
or above 4 is reported as out of range whatever its items contain. -/
theorem validateAdvancedSearchTerms_accepts_iff :
    (∀ t, validateAdvancedSearchTerms t = none ↔
        ∃ xs, t = some xs ∧ 1 ≤ xs.length ∧ xs.length ≤ 4
          ∧ ∀ x ∈ xs, x.Field ≠ "" ∧ x.Term ≠ "")
      ∧ validateAdvancedSearchTerms none
          = some (.argError ⟨"advancedSearchTerms", "is required."⟩)
      ∧ (∀ xs : List AdvancedSearchTerm, xs.length = 0 ∨ 4 < xs.length →
          validateAdvancedSearchTerms (some xs)
            = some (.argError ⟨"advancedSearchTerms", "must have between 1 and 4 items."⟩)) := by
  refine ⟨?_, rfl, ?_⟩
  · intro t
    cases t with
    | none => simp [validateAdvancedSearchTerms]
    | some xs =>
      by_cases hlen : xs.length = 0 ∨ xs.length > 4
      · simp only [validateAdvancedSearchTerms, hlen, if_true]
        constructor
        · intro h; simp at h
        · rintro ⟨ys, hys, h1, h4, -⟩
          cases hys
          omega
      · simp only [validateAdvancedSearchTerms, hlen, if_false, validateAdvancedLoop_eq_none]
        constructor
        · intro h
          exact ⟨xs, rfl, by omega, by omega, h⟩
        · rintro ⟨ys, hys, -, -, h⟩
          cases hys
          exact h
  · intro xs h
    have h2 : xs.length = 0 ∨ xs.length > 4 := h
    simp only [validateAdvancedSearchTerms, h2, if_true]

/-- Witness of C3: a list of five items, the first of which has an empty
field, is reported as out of range. -/
theorem validateAdvancedSearchTerms_accepts_iff_witness :
    validateAdvancedSearchTerms (some [⟨"", "a", false⟩, ⟨"f", "a", false⟩, ⟨"f", "a", false⟩,
        ⟨"f", "a", false⟩, ⟨"f", "a", false⟩])
      = some (.argError ⟨"advancedSearchTerms", "must have between 1 and 4 items."⟩) :=
  validateAdvancedSearchTerms_accepts_iff.2.2 _ (by decide)

/-- C4. In a list of 1 to 4 advanced terms, let `i` be the least index of an
item with an empty field or an empty term, and `bad` that item. The error
names index `i`, with `.Field` when the field of `bad` is empty (also when
its term is empty too) and `.Term` otherwise; `i` is written as its one
decimal digit; and replacing the items after index `i` by any others (within
the length limit) leaves the error unchanged. -/
theorem validateAdvancedSearchTerms_reports_first (xs : List AdvancedSearchTerm) (i : Nat)
    (bad : AdvancedSearchTerm) (hlen : xs.length ≤ 4) (hi : xs[i]? = some bad)
    (hmin : ∀ j x, j < i → xs[j]? = some x → x.Field ≠ "" ∧ x.Term ≠ "")
    (hbad : bad.Field = "" ∨ bad.Term = "") :
    validateAdvancedSearchTerms (some xs)
        = some (.argError ⟨"advancedSearchTerms." ++ Itoa (Int.ofNat i)
            ++ (if bad.Field = "" then ".Field" else ".Term"), "is required."⟩)
      ∧ Itoa (Int.ofNat i) = String.singleton (Char.ofNat (48 + i))
      ∧ ∀ post : List AdvancedSearchTerm, (xs.take (i + 1) ++ post).length ≤ 4 →
          validateAdvancedSearchTerms (some (xs.take (i + 1) ++ post))
            = validateAdvancedSearchTerms (some xs) := by
  have hilt : i < xs.length := by
    rcases Nat.lt_or_ge i xs.length with h | h
    · exact h
    · rw [List.getElem?_eq_none h] at hi
      cases hi
  have key : ∀ ys : List AdvancedSearchTerm, ys.length ≤ 4 → ys[i]? = some bad →
      (∀ j x, j < i → ys[j]? = some x → x.Field ≠ "" ∧ x.Term ≠ "") →
      validateAdvancedSearchTerms (some ys)
        = some (.argError ⟨"advancedSearchTerms." ++ Itoa (Int.ofNat i)
            ++ (if bad.Field = "" then ".Field" else ".Term"), "is required."⟩) := by
    intro ys hys hyi hymin
    have hylt : i < ys.length := by
      rcases Nat.lt_or_ge i ys.length with h | h
      · exact h
      · rw [List.getElem?_eq_none h] at hyi
        cases hyi
    have hne : ¬ (ys.length = 0 ∨ ys.length > 4) := by omega
    have h := validateAdvancedLoop_first ys 0 i bad hyi hymin hbad
    simp only [validateAdvancedSearchTerms, hne, if_false, h, Nat.zero_add]
  refine ⟨key xs hlen hi hmin, ?_, ?_⟩
  · have h4 : i < 4 := by omega
    interval_cases i <;> decide
  · intro post hpost
    rw [key xs hlen hi hmin]
    apply key _ hpost
    · rw [List.getElem?_append_left (by simp; omega)]
      rw [List.getElem?_take_of_lt (by omega)]
      exact hi
    · intro j x hj hx
      rw [List.getElem?_append_left (by simp; omega)] at hx
      rw [List.getElem?_take_of_lt (by omega)] at hx
      exact hmin j x hj hx

/-- Witness of C4: the second of three items has an empty field and an
empty term; the error names `advancedSearchTerms.1.Field`. -/
theorem validateAdvancedSearchTerms_reports_first_witness :
    validateAdvancedSearchTerms (some [⟨"f", "a", false⟩, ⟨"", "", false⟩, ⟨"", "b", true⟩])
      = some (.argError ⟨"advancedSearchTerms.1.Field", "is required."⟩) :=
  (validateAdvancedSearchTerms_reports_first
    [⟨"f", "a", false⟩, ⟨"", "", false⟩, ⟨"", "b", true⟩] 1 ⟨"", "", false⟩
    (by decide) (by decide)
    (by
      intro j x hj hx
      have h0 : j = 0 := by omega
      subst h0
      simp at hx
      subst hx
      decide)
    (by decide)).1

/-! ## The parsed entry points (C5 to C9) -/

/-- C5. For each of the four parsed entry points, every accepted
search-terms argument and every list of recognized options, in any order and
with any response format among them: the first effect of the call is to
serialize the request built from the caller's options followed by the
`json` override; every request the call serializes has `ResponseFormat`
equal to `json`; and the serialized members carry `responseFormat` with the
value `json`. -/
theorem parsed_entry_points_serialize_json (L : Lib) (service : registrantAlertServiceOp)
    (ctx : Nat) (c : Call) (ks : List KnownOption) (hp : c.parsed = true)
    (hv : c.validate = none) :
    (c.run L service ctx (knownOpts ks)).trace.head?
        = some (.marshal (c.built service.client.apiKey (knownOpts ks)))
      ∧ (∀ request, Event.marshal request ∈ (c.run L service ctx (knownOpts ks)).trace →
          request.ResponseFormat = "json")
      ∧ lookupMember "responseFormat" (c.built service.client.apiKey (knownOpts ks)).members
          = some (.string "json") := by
  have hopts : validateOptions (c.opts (knownOpts ks)) = none := by
    simp [Call.opts, hp, validateOptions_append, validateOptions_knownOpts, validateOptions]
  have hjson : (c.built service.client.apiKey (knownOpts ks)).ResponseFormat = "json" := by
    simp [Call.built, Call.opts, hp, applyOptions_append, applyOptions, OptionResponseFormat]
  obtain ⟨rest, htrace, hrest⟩ :=
    request_trace L service ctx c.basic c.advanced (!c.preview) (c.opts (knownOpts ks)) hopts
  have hrun : (c.run L service ctx (knownOpts ks)).trace
      = .marshal (c.built service.client.apiKey (knownOpts ks)) :: rest := by
    rw [run_trace _ _ _ _ _ hv]
    exact htrace
  refine ⟨by rw [hrun]; rfl, ?_, ?_⟩
  · intro request hmem
    rw [hrun] at hmem
    rcases List.mem_cons.mp hmem with h | h
    · cases h
      exact hjson
    · exact absurd h (hrest request)
  · rw [lookupMember_responseFormat, hjson]
    rfl

/-- Witness of C5: `BasicPurchase` with the options `xml`, a since-date and
`XML`, in this order. -/
theorem parsed_entry_points_serialize_json_witness :
    (Call.BasicPurchase fixtureBasic).parsed = true
      ∧ (Call.BasicPurchase fixtureBasic).validate = none
      ∧ lookupMember "responseFormat"
          ((Call.BasicPurchase fixtureBasic).built "key"
            (knownOpts [.responseFormat "xml", .sinceDate GoTime.zero, .responseFormat "XML"])).members
        = some (.string "json") :=
  ⟨by decide, by decide,
    (parsed_entry_points_serialize_json (fixtureLib (.ok fixtureSuccess) (.ok .null))
      (fixtureService (.ok (fixtureResponse 200 fixtureCountText))) 0 (Call.BasicPurchase fixtureBasic)
      [.responseFormat "xml", .sinceDate GoTime.zero, .responseFormat "XML"]
      (by decide) (by decide)).2.2⟩

/-- C6. When the transport step succeeded with envelope `resp`, whatever its
HTTP status, and the body decodes to `v`, a parsed entry point returns an
application error if and only if the decoded code is non-zero or the decoded
messages is not nil; the error is decided by `v` alone. -/
theorem application_error_iff_code_or_messages (L : Lib) (service : registrantAlertServiceOp)
    (ctx : Nat) (c : Call) (opts : List Opt) (resp : Response) (v : apiResponse)
    (hp : c.parsed = true) (hv : c.validate = none)
    (he : (c.request L service ctx opts).err = none)
    (hr : (c.request L service ctx opts).resp = some resp)
    (hd : L.jsonDecode resp.Body = .ok v) :
    ((∃ em, (c.run L service ctx opts).err = some (.errorMessage em))
        ↔ (v.ErrorMessage.Code ≠ 0 ∨ v.ErrorMessage.Message ≠ none))
      ∧ (c.run L service ctx opts).err
          = if v.ErrorMessage.Code ≠ 0 ∨ v.ErrorMessage.Message ≠ none then
              some (.errorMessage ⟨v.ErrorMessage.Code, v.ErrorMessage.Message⟩)
            else none := by
  rw [run_parsed_of_decoded L service ctx c opts resp v hp hv he hr hd]
  by_cases h : v.ErrorMessage.Message ≠ none ∨ v.ErrorMessage.Code ≠ 0
  · have h2 : v.ErrorMessage.Code ≠ 0 ∨ v.ErrorMessage.Message ≠ none := h.symm
    rw [if_pos h, if_pos h2]
    exact ⟨⟨fun _ => h2, fun _ => ⟨_, rfl⟩⟩, rfl⟩
  · have h2 : ¬ (v.ErrorMessage.Code ≠ 0 ∨ v.ErrorMessage.Message ≠ none) := fun k => h k.symm
    rw [if_neg h, if_neg h2]
    refine ⟨⟨?_, fun k => absurd k h2⟩, rfl⟩
    rintro ⟨em, hem⟩
    cases hem

/-- Witness of C6: `BasicPreview` against a server that answers status 200
with an error body; the call returns the application error. -/
theorem application_error_iff_code_or_messages_witness :
    ((Call.BasicPreview fixtureBasic).run (fixtureLib (.ok fixtureFailure) (.ok .null))
        (fixtureService (.ok (fixtureResponse 200 fixtureErrorText))) 0 []).err
      = some (.errorMessage ⟨499, some ["Test error message."]⟩) :=
  (application_error_iff_code_or_messages (fixtureLib (.ok fixtureFailure) (.ok .null))
    (fixtureService (.ok (fixtureResponse 200 fixtureErrorText))) 0
    (Call.BasicPreview fixtureBasic) []
    ⟨some (fixtureResponse 200 fixtureErrorText), bytesOf fixtureErrorText⟩ fixtureFailure
    (by decide) (by decide) (by rfl) (by rfl) (by rfl)).2

/-- C7, counterexample. The array `[]` decodes to a messages sequence that
has length 0 and is not nil, and a body that decodes to code 0 with that
sequence is not returned as a success: `BasicPurchase` returns the
application error with code 0 and no message, a nil result and a nil
envelope, under status 200. -/
theorem empty_messages_is_application_error :
    Messages.UnmarshalJSON (fixtureLib (.ok fixtureEmptyMessages) (.ok (.array []))) none
        (bytesOf "[]") = (some [], none)
      ∧ fixtureEmptyMessages.ErrorMessage.Code = 0
      ∧ len fixtureEmptyMessages.ErrorMessage.Message = 0
      ∧ (Call.BasicPurchase fixtureBasic).run
          (fixtureLib (.ok fixtureEmptyMessages) (.ok (.array [])))
          (fixtureService (.ok (fixtureResponse 200 fixtureEmptyMessagesText))) 0 []
        = ⟨0, none, none, some (.errorMessage ⟨0, some []⟩),
            ((Call.BasicPurchase fixtureBasic).request
              (fixtureLib (.ok fixtureEmptyMessages) (.ok (.array [])))
              (fixtureService (.ok (fixtureResponse 200 fixtureEmptyMessagesText))) 0 []).trace⟩ := by
  refine ⟨by rfl, by rfl, by rfl, by rfl⟩

/-- C7, amended. When the transport step succeeded and the body decodes to
`v`, a parsed entry point raises an application error if and only if the
code is non-zero or the messages sequence is not nil, an empty sequence that
is not nil included; otherwise it returns the `RegistrantAlertResponse`
portion (its count for a preview, the whole of it for a purchase). In
particular code 0 with nil messages is a success, and code 0 with an empty
messages sequence that is not nil is an application error. -/
theorem application_error_iff_code_or_messages_not_nil (L : Lib)
    (service : registrantAlertServiceOp) (ctx : Nat) (c : Call) (opts : List Opt)
    (resp : Response) (v : apiResponse)
    (hp : c.parsed = true) (hv : c.validate = none)
    (he : (c.request L service ctx opts).err = none)
    (hr : (c.request L service ctx opts).resp = some resp)
    (hd : L.jsonDecode resp.Body = .ok v) :
    (v.ErrorMessage.Code ≠ 0 ∨ v.ErrorMessage.Message ≠ none →
        (c.run L service ctx opts).err
            = some (.errorMessage ⟨v.ErrorMessage.Code, v.ErrorMessage.Message⟩)
          ∧ (c.run L service ctx opts).count = 0 ∧ (c.run L service ctx opts).parsed = none)
      ∧ (v.ErrorMessage.Code = 0 ∧ v.ErrorMessage.Message = none →
          (c.run L service ctx opts).err = none
            ∧ (c.run L service ctx opts).count
                = (if c.preview then v.RegistrantAlertResponse.DomainsCount else 0)
            ∧ (c.run L service ctx opts).parsed
                = (if c.preview then none else some v.RegistrantAlertResponse))
      ∧ (v.ErrorMessage.Code = 0 → v.ErrorMessage.Message = some [] →
          (c.run L service ctx opts).err = some (.errorMessage ⟨0, some []⟩)) := by
  rw [run_parsed_of_decoded L service ctx c opts resp v hp hv he hr hd]
  refine ⟨?_, ?_, ?_⟩
  · intro h
    rw [if_pos h.symm]
    exact ⟨rfl, rfl, rfl⟩
  · rintro ⟨h0, hn⟩
    rw [if_neg (by simp [h0, hn])]
    exact ⟨rfl, rfl, rfl⟩
  · intro h0 hm
    rw [if_pos (by simp [hm])]
    simp [h0, hm]

/-- Witness of C7, amended: `AdvancedPurchase` against a server that answers
status 200 with a success body returns the decoded response. -/
theorem application_error_iff_code_or_messages_not_nil_witness :
    ((Call.AdvancedPurchase fixtureAdvanced).run (fixtureLib (.ok fixtureSuccess) (.ok .null))
        (fixtureService (.ok (fixtureResponse 200 fixtureCountText))) 0 []).parsed
      = some fixtureSuccess.RegistrantAlertResponse :=
  ((application_error_iff_code_or_messages_not_nil (fixtureLib (.ok fixtureSuccess) (.ok .null))
    (fixtureService (.ok (fixtureResponse 200 fixtureCountText))) 0
    (Call.AdvancedPurchase fixtureAdvanced) []
    ⟨some (fixtureResponse 200 fixtureCountText), bytesOf fixtureCountText⟩ fixtureSuccess
    (by decide) (by decide) (by rfl) (by rfl) (by rfl)).2.1 ⟨by rfl, by rfl⟩).2.2

/-- C8. Whenever an entry point returns an application error, the call is a
parsed one whose terms were accepted and whose transport step succeeded, the
returned envelope is nil, the typed result is zero, and the code and the
messages of the error are exactly those decoded from the body of the
envelope the transport step produced. -/
theorem application_error_has_no_envelope (L : Lib) (service : registrantAlertServiceOp)
    (ctx : Nat) (c : Call) (opts : List Opt) (em : ErrorMessage)
    (h : (c.run L service ctx opts).err = some (.errorMessage em)) :
    (c.run L service ctx opts).resp = none
      ∧ (c.run L service ctx opts).count = 0
      ∧ (c.run L service ctx opts).parsed = none
      ∧ c.parsed = true
      ∧ ∃ resp v, (c.request L service ctx opts).err = none
          ∧ (c.request L service ctx opts).resp = some resp
          ∧ L.jsonDecode resp.Body = .ok v
          ∧ em.Code = v.ErrorMessage.Code ∧ em.Message = v.ErrorMessage.Message := by
  cases hv : c.validate with
  | some e =>
    obtain ⟨a, rfl⟩ := validate_eq_some c e hv
    rw [run_of_rejected L service ctx c opts _ hv] at h
    simp at h
  | none =>
    cases he : (c.request L service ctx opts).err with
    | some e =>
      rw [run_of_request_err L service ctx c opts e hv he] at h
      simp only [Option.some.injEq] at h
      subst h
      exact absurd he (request_err_not_errorMessage _ _ _ _ _ _ _ _)
    | none =>
      obtain ⟨hr, body, hresp⟩ := request_ok_resp _ _ _ _ _ _ _ he
      cases hp : c.parsed with
      | false =>
        rw [run_raw_of_request_ok L service ctx c opts _ hp hv he hresp] at h
        simp only [checkResponse] at h
        split_ifs at h
        simp at h
      | true =>
        cases hd : L.jsonDecode body with
        | error cause =>
          rw [run_parsed_of_decode_error L service ctx c opts _ cause hp hv he hresp hd] at h
          simp at h
        | ok v =>
          rw [run_parsed_of_decoded L service ctx c opts _ v hp hv he hresp hd] at h ⊢
          split_ifs at h ⊢ with hc
          simp only [Option.some.injEq, Error.errorMessage.injEq] at h
          subst h
          exact ⟨rfl, rfl, rfl, rfl, _, v, rfl, hresp, hd, rfl, rfl⟩

/-- Witness of C8: `AdvancedPreview` against a server that answers status
499 with an error body. -/
theorem application_error_has_no_envelope_witness :
    ((Call.AdvancedPreview fixtureAdvanced).run (fixtureLib (.ok fixtureFailure) (.ok .null))
        (fixtureService (.ok (fixtureResponse 499 fixtureErrorText))) 0 []).resp = none :=
  (application_error_has_no_envelope (fixtureLib (.ok fixtureFailure) (.ok .null))
    (fixtureService (.ok (fixtureResponse 499 fixtureErrorText))) 0
    (Call.AdvancedPreview fixtureAdvanced) [] ⟨499, some ["Test error message."]⟩ (by rfl)).1

/-- C9. For accepted terms and options without a nil entry, once the HTTP
request is prepared: the transport step fails exactly when executing,
reading or closing fails; when it fails, the entry point returns that error
with an envelope that is not nil and holds the bytes written so far (none
after an execute failure, the bytes read before the failure otherwise), and
a zero typed result; and when it succeeds but the body fails to decode in a
parsed entry point, the entry point returns the parse error with the
envelope and a zero typed result. -/
theorem failure_returns_envelope (L : Lib) (service : registrantAlertServiceOp) (ctx : Nat)
    (c : Call) (opts : List Opt) (req : HTTPRequest)
    (hv : c.validate = none) (ho : validateOptions opts = none)
    (hn : service.newRequest L
      (L.jsonText (.object (c.built service.client.apiKey opts).members)) = .ok req) :
    ((service.client.Do ctx req).err = none ↔
        ∃ resp, service.client.client { req with ctx := ctx } = .ok resp
          ∧ resp.Body.readErr = none ∧ resp.Body.closeErr = none)
      ∧ (service.client.Do ctx req).written
          = (match service.client.client { req with ctx := ctx } with
            | .error _ => []
            | .ok resp => resp.Body.data)
      ∧ (∀ err, (service.client.Do ctx req).err = some err →
          c.run L service ctx opts
            = ⟨0, none,
                some ⟨(service.client.Do ctx req).response, (service.client.Do ctx req).written⟩,
                some err,
                .marshal (c.built service.client.apiKey opts)
                  :: (service.client.Do ctx req).trace⟩)
      ∧ (∀ cause, c.parsed = true → (service.client.Do ctx req).err = none →
          L.jsonDecode (service.client.Do ctx req).written = .error cause →
          c.run L service ctx opts
            = ⟨0, none,
                some ⟨(service.client.Do ctx req).response, (service.client.Do ctx req).written⟩,
                some (.wrapped "cannot parse response: " (.library cause)),
                .marshal (c.built service.client.apiKey opts)
                  :: (service.client.Do ctx req).trace⟩) := by
  have hreq := request_of_prepared L service ctx c opts req ho hn
  refine ⟨Do_ok_iff _ _ _, Do_written _ _ _, ?_, ?_⟩
  · intro err herr
    have he : (c.request L service ctx opts).err = some err := by rw [hreq]; exact herr
    rw [run_of_request_err L service ctx c opts err hv he, hreq]
  · intro cause hp hok hd
    have he : (c.request L service ctx opts).err = none := by rw [hreq]; exact hok
    have hr : (c.request L service ctx opts).resp
        = some ⟨(service.client.Do ctx req).response, (service.client.Do ctx req).written⟩ := by
      rw [hreq]
    rw [run_parsed_of_decode_error L service ctx c opts _ cause hp hv he hr hd, hreq]

/-- Witness of C9: `BasicPreview` against a server whose body breaks off
after three bytes; the envelope holds the three bytes. -/
theorem failure_returns_envelope_witness :
    (Call.BasicPreview fixtureBasic).run (fixtureLib (.ok fixtureSuccess) (.ok .null))
        (fixtureService (.ok (fixtureTruncated 200 "abc"))) 0 []
      = ⟨0, none, some ⟨some (fixtureTruncated 200 "abc"), bytesOf "abc"⟩,
          some (.wrapped "cannot read response: " (.library "unexpected EOF")),
          [.marshal ((Call.BasicPreview fixtureBasic).built "key" []), .send fixtureRequest,
            .readBody, .closeBody]⟩ :=
  (failure_returns_envelope (fixtureLib (.ok fixtureSuccess) (.ok .null))
    (fixtureService (.ok (fixtureTruncated 200 "abc"))) 0 (Call.BasicPreview fixtureBasic) []
    fixtureRequest (by decide) (by decide) (by rfl)).2.2.1 _ (by rfl)

/-! ## The raw entry points (C10) -/

/-- C10. For a raw entry point whose transport step succeeded with response
`hr`: the envelope is returned with the body bytes as received and the typed
result is zero; the error is nil if and only if the status is between 200
and 299; otherwise it is the `ErrorResponse` of that response with no
message, whose text is `API failed with status code: ` followed by the
status in decimal; and the decoder plays no part in the result. -/
theorem raw_entry_points_classify_by_status (L : Lib) (service : registrantAlertServiceOp)
    (ctx : Nat) (c : Call) (opts : List Opt) (hr : HTTPResponse) (body : Bytes)
    (hp : c.parsed = false) (hv : c.validate = none)
    (he : (c.request L service ctx opts).err = none)
    (hresp : (c.request L service ctx opts).resp = some ⟨some hr, body⟩) :
    (c.run L service ctx opts).resp = some ⟨some hr, body⟩
      ∧ body = hr.Body.data
      ∧ (c.run L service ctx opts).count = 0
      ∧ (c.run L service ctx opts).parsed = none
      ∧ ((c.run L service ctx opts).err = none ↔ 200 ≤ hr.StatusCode ∧ hr.StatusCode ≤ 299)
      ∧ (¬ (200 ≤ hr.StatusCode ∧ hr.StatusCode ≤ 299) →
          (c.run L service ctx opts).err = some (.errorResponse ⟨hr, ""⟩)
            ∧ (Error.errorResponse ⟨hr, ""⟩).Error
                = "API failed with status code: " ++ Itoa hr.StatusCode)
      ∧ ∀ decode : Bytes → Except String apiResponse,
          c.run { L with jsonDecode := decode } service ctx opts = c.run L service ctx opts := by
  have hbody : body = hr.Body.data := request_ok_body _ _ _ _ _ _ _ _ _ he hresp
  have hrun := run_raw_of_request_ok L service ctx c opts _ hp hv he hresp
  refine ⟨by rw [hrun], hbody, by rw [hrun], by rw [hrun], ?_, ?_, ?_⟩
  · rw [hrun]
    simp only [checkResponse]
    split_ifs with hs
    · simp [hs]
    · simp only [false_iff]
      intro hk
      exact hs hk
  · intro hs
    rw [hrun]
    refine ⟨?_, ?_⟩
    · simp only [checkResponse]
      rw [if_neg hs]
    · simp [Error.Error, ErrorResponse.Error]
  · intro decode
    cases c <;> first | (simp [Call.parsed] at hp; done) | rfl

/-- Witness of C10: `BasicRawData` against a server that answers status 500
with a body that is not JSON. -/
theorem raw_entry_points_classify_by_status_witness :
    ((Call.BasicRawData fixtureBasic).run (fixtureLib (.error "invalid character") (.ok .null))
        (fixtureService (.ok (fixtureResponse 500 "<xml/>"))) 0 []).err
      = some (.errorResponse ⟨fixtureResponse 500 "<xml/>", ""⟩) :=
  ((raw_entry_points_classify_by_status (fixtureLib (.error "invalid character") (.ok .null))
    (fixtureService (.ok (fixtureResponse 500 "<xml/>"))) 0 (Call.BasicRawData fixtureBasic) []
    (fixtureResponse 500 "<xml/>") (bytesOf "<xml/>")
    (by decide) (by decide) (by rfl) (by rfl)).2.2.2.2.2.1 (by decide)).1

/-! ## Success results and error texts (C11, C12) -/

/-- C11. When the transport step succeeds with envelope `resp` and the body
decodes to a value `v` with code 0 and nil messages, a preview entry point
returns the decoded count, the envelope and no error, and a purchase entry
point returns the decoded `RegistrantAlertResponse` as it was decoded (its
list and its count unchanged), the envelope and no error. -/
theorem success_returns_decoded_result (L : Lib) (service : registrantAlertServiceOp)
    (ctx : Nat) (c : Call) (opts : List Opt) (resp : Response) (v : apiResponse)
    (hp : c.parsed = true) (hv : c.validate = none)
    (he : (c.request L service ctx opts).err = none)
    (hr : (c.request L service ctx opts).resp = some resp)
    (hd : L.jsonDecode resp.Body = .ok v)
    (h0 : v.ErrorMessage.Code = 0) (hm : v.ErrorMessage.Message = none) :
    (c.run L service ctx opts).err = none
      ∧ (c.run L service ctx opts).resp = some resp
      ∧ (c.preview = true →
          (c.run L service ctx opts).count = v.RegistrantAlertResponse.DomainsCount)
      ∧ (c.preview = false →
          (c.run L service ctx opts).parsed = some v.RegistrantAlertResponse) := by
  rw [run_parsed_of_decoded L service ctx c opts resp v hp hv he hr hd]
  rw [if_neg (by simp [h0, hm])]
  refine ⟨rfl, rfl, ?_, ?_⟩
  · intro h
    simp [h]
  · intro h
    simp [h]

/-- Witness of C11: `BasicPreview` with `include` equal to `["whois"]`
against a server that answers status 200 with a count of 4 returns 4. -/
theorem success_returns_decoded_result_witness :
    ((Call.BasicPreview fixtureBasic).run (fixtureLib (.ok fixtureSuccess) (.ok .null))
        (fixtureService (.ok (fixtureResponse 200 fixtureCountText))) 0 []).count = 4 :=
  (success_returns_decoded_result (fixtureLib (.ok fixtureSuccess) (.ok .null))
    (fixtureService (.ok (fixtureResponse 200 fixtureCountText))) 0
    (Call.BasicPreview fixtureBasic) []
    ⟨some (fixtureResponse 200 fixtureCountText), bytesOf fixtureCountText⟩ fixtureSuccess
    (by decide) (by decide) (by rfl) (by rfl) (by rfl) (by rfl) (by rfl)).2.2.1 (by decide)

theorem intercalate_go_eq (sep : String) (xs : List String) : ∀ acc : String,
    String.intercalate.go acc sep xs = acc ++ tailJoin sep xs := by
  induction xs with
  | nil => intro acc; simp [String.intercalate.go, tailJoin]
  | cons x rest ih =>
    intro acc
    simp [String.intercalate.go, ih, tailJoin, String.append_assoc]

theorem sprintElems_succ (i : Nat) (xs : List String) :
    sprintElems (i + 1) xs = tailJoin " " xs := by
  induction xs generalizing i with
  | nil => simp [sprintElems, tailJoin]
  | cons x rest ih => simp [sprintElems, ih, tailJoin]

theorem sprintElems_zero (xs : List String) :
    sprintElems 0 xs = " ".intercalate xs := by
  cases xs with
  | nil => rfl
  | cons x rest =>
    simp [sprintElems, String.intercalate, intercalate_go_eq, sprintElems_succ]

/-- C12, counterexample. For code 499 and the two messages `a` and `b`,
`ErrorMessage.Error` returns `API error: [499] [a b]`, which is not the text
with the messages joined by a comma and a space. -/
theorem error_text_two_messages :
    (ErrorMessage.mk 499 (some ["a", "b"])).Error = "API error: [499] [a b]"
      ∧ (ErrorMessage.mk 499 (some ["a", "b"])).Error
          ≠ "API error: [" ++ Itoa 499 ++ "] [" ++ ", ".intercalate ["a", "b"] ++ "]" := by
  decide

/-- C12, amended. For every code `c` and every sequence of messages,
`ErrorMessage.Error` returns `API error: [`, the code in decimal, `] [`, the
messages joined by one space, `]`; for one message this is
`API error: [<c>] [<m1>]`, and for a nil sequence `API error: [<c>] []`. -/
theorem error_text_joins_with_space (c : Int) (ms : List String) (m1 : String) :
    (ErrorMessage.mk c (some ms)).Error
        = "API error: [" ++ Itoa c ++ "] [" ++ " ".intercalate ms ++ "]"
      ∧ (ErrorMessage.mk c (some [m1])).Error = "API error: [" ++ Itoa c ++ "] [" ++ m1 ++ "]"
      ∧ (ErrorMessage.mk c none).Error = "API error: [" ++ Itoa c ++ "] []"
      ∧ (ErrorMessage.mk 499 (some ["Test error message."])).Error
          = "API error: [499] [Test error message.]" := by
  have hb : ∀ x : String, "] " ++ ("[" ++ x) = "] [" ++ x := by
    intro x
    rw [← String.append_assoc]
    rfl
  refine ⟨?_, ?_, ?_, by decide⟩
  · simp [ErrorMessage.Error, sprintStrings, sprintElems_zero, String.append_assoc, hb]
  · simp [ErrorMessage.Error, sprintStrings, sprintElems, String.append_assoc, hb]
  · simp [ErrorMessage.Error, sprintStrings, sprintElems, String.append_assoc]

/-! ## The request model and the options (C13 to C16) -/

/-- C13. With an empty option list and accepted terms, the first effect of
an entry point is to serialize the default request: the key of the client,
mode `preview` for the two previews and `purchase` for the purchase and raw
entry points, punycode true, format `json`, every date empty, and the
supplied terms of the one kind with nil for the other. -/
theorem default_request_without_options (L : Lib) (service : registrantAlertServiceOp)
    (ctx : Nat) (c : Call) (hv : c.validate = none) :
    (c.run L service ctx []).trace.head?
        = some (.marshal (defaultRequestOf service.client.apiKey c))
      ∧ c.built service.client.apiKey [] = defaultRequestOf service.client.apiKey c := by
  have hopts : validateOptions (c.opts []) = none := by
    cases c <;> rfl
  have hbuilt : c.built service.client.apiKey [] = defaultRequestOf service.client.apiKey c := by
    cases c <;> rfl
  obtain ⟨rest, htrace, -⟩ :=
    request_trace L service ctx c.basic c.advanced (!c.preview) (c.opts []) hopts
  refine ⟨?_, hbuilt⟩
  rw [run_trace _ _ _ _ _ hv]
  unfold Call.request
  rw [htrace, ← hbuilt]
  rfl

/-- Witness of C13: `AdvancedPreview` on accepted terms serializes the
default preview request with the advanced terms and no basic terms. -/
theorem default_request_without_options_witness :
    ((Call.AdvancedPreview fixtureAdvanced).run (fixtureLib (.ok fixtureSuccess) (.ok .null))
        (fixtureService (.ok (fixtureResponse 200 fixtureCountText))) 0 []).trace.head?
      = some (.marshal
          ⟨"key", none, fixtureAdvanced, "", "preview", true, "json", "", "", "", "", "", ""⟩) :=
  (default_request_without_options (fixtureLib (.ok fixtureSuccess) (.ok .null))
    (fixtureService (.ok (fixtureResponse 200 fixtureCountText))) 0
    (Call.AdvancedPreview fixtureAdvanced) (by decide)).1

theorem toFn_get_of_ne (k : KnownOption) (r : registrantAlertRequest) (f : FieldName)
    (h : f ≠ k.field) : (k.toFn r).get f = r.get f := by
  cases k <;> cases f <;> first | rfl | exact absurd rfl h

theorem applyOptions_knownOpts_get (ks : List KnownOption) (f : FieldName)
    (h : ∀ k ∈ ks, f ≠ k.field) :
    ∀ r : registrantAlertRequest, (applyOptions (knownOpts ks) r).get f = r.get f := by
  induction ks with
  | nil => intro r; rfl
  | cons k rest ih =>
    intro r
    have hk : f ≠ k.field := h k (List.mem_cons_self _ _)
    have hrest : ∀ k ∈ rest, f ≠ k.field := fun k hk => h k (List.mem_cons_of_mem _ hk)
    show (applyOptions (knownOpts rest) (k.toFn r)).get f = r.get f
    rw [ih hrest, toFn_get_of_ne k r f hk]

/-- C14. Each of the nine recognized options gives its own field the value
it was built with and leaves every other field of the request unchanged;
hence after any list of recognized options the key, the basic terms, the
advanced terms and the mode of the request are what they were before. -/
theorem options_change_only_their_field :
    (∀ (k : KnownOption) (r : registrantAlertRequest), (k.toFn r).get k.field = k.value)
      ∧ (∀ (k : KnownOption) (r : registrantAlertRequest) (f : FieldName),
          f ≠ k.field → (k.toFn r).get f = r.get f)
      ∧ (∀ (ks : List KnownOption) (r : registrantAlertRequest),
          (applyOptions (knownOpts ks) r).APIKey = r.APIKey
            ∧ (applyOptions (knownOpts ks) r).BasicSearchTerms = r.BasicSearchTerms
            ∧ (applyOptions (knownOpts ks) r).AdvancedSearchTerms = r.AdvancedSearchTerms
            ∧ (applyOptions (knownOpts ks) r).Mode = r.Mode) := by
  refine ⟨?_, toFn_get_of_ne, ?_⟩
  · intro k r
    cases k <;> rfl
  · intro ks r
    have h1 := applyOptions_knownOpts_get ks .APIKey (fun k _ => by cases k <;> simp [KnownOption.field]) r
    have h2 := applyOptions_knownOpts_get ks .BasicSearchTerms
      (fun k _ => by cases k <;> simp [KnownOption.field]) r
    have h3 := applyOptions_knownOpts_get ks .AdvancedSearchTerms
      (fun k _ => by cases k <;> simp [KnownOption.field]) r
    have h4 := applyOptions_knownOpts_get ks .Mode (fun k _ => by cases k <;> simp [KnownOption.field]) r
    simp only [registrantAlertRequest.get, FieldValue.text.injEq, FieldValue.basic.injEq,
      FieldValue.advanced.injEq] at h1 h2 h3 h4
    exact ⟨h1, h2, h3, h4⟩

/-- Witness of C14: the punycode option leaves the response format of a
request as it was. -/
theorem options_change_only_their_field_witness :
    ((KnownOption.punycode false).toFn
        (initialRequest "key" fixtureBasic none true)).get .ResponseFormat
      = (initialRequest "key" fixtureBasic none true).get .ResponseFormat :=
  options_change_only_their_field.2.1 (.punycode false)
    (initialRequest "key" fixtureBasic none true) .ResponseFormat (by decide)

theorem digitChar_lt (n : Nat) (h : n < 10) : Nat.digitChar n = digitOf n := by
  interval_cases n <;> rfl

theorem toDigitsCore_one (fuel n : Nat) (ds : List Char) (h : n < 10) :
    Nat.toDigitsCore 10 (fuel + 1) n ds = digitOf n :: ds := by
  simp [Nat.toDigitsCore, Nat.mod_eq_of_lt h, Nat.div_eq_of_lt h, digitChar_lt n h]

theorem toDigitsCore_step (fuel n : Nat) (ds : List Char) (h : 10 ≤ n) :
    Nat.toDigitsCore 10 (fuel + 1) n ds
      = Nat.toDigitsCore 10 fuel (n / 10) (digitOf (n % 10) :: ds) := by
  have h0 : n / 10 ≠ 0 := by omega
  simp [Nat.toDigitsCore, h0, digitChar_lt (n % 10) (Nat.mod_lt _ (by decide))]

theorem toDigits_one (n : Nat) (h : n < 10) : Nat.toDigits 10 n = [digitOf n] := by
  unfold Nat.toDigits
  exact toDigitsCore_one n n [] h

theorem toDigits_two (n : Nat) (h1 : 10 ≤ n) (h : n < 100) :
    Nat.toDigits 10 n = [digitOf (n / 10), digitOf (n % 10)] := by
  unfold Nat.toDigits
  obtain ⟨k, rfl⟩ : ∃ k, n = k + 1 := ⟨n - 1, by omega⟩
  rw [toDigitsCore_step _ _ _ h1, toDigitsCore_one _ _ _ (by omega)]

theorem toDigits_three (n : Nat) (h1 : 100 ≤ n) (h : n < 1000) :
    Nat.toDigits 10 n = [digitOf (n / 100), digitOf (n / 10 % 10), digitOf (n % 10)] := by
  unfold Nat.toDigits
  obtain ⟨k, rfl⟩ : ∃ k, n = k + 2 := ⟨n - 2, by omega⟩
  rw [toDigitsCore_step _ _ _ (by omega), toDigitsCore_step _ _ _ (by omega),
    toDigitsCore_one _ _ _ (by omega)]
  have e1 : (k + 2) / 10 / 10 = (k + 2) / 100 := by omega
  rw [e1]

theorem toDigits_four (n : Nat) (h1 : 1000 ≤ n) (h : n < 10000) :
    Nat.toDigits 10 n
      = [digitOf (n / 1000), digitOf (n / 100 % 10), digitOf (n / 10 % 10), digitOf (n % 10)] := by
  unfold Nat.toDigits
  obtain ⟨k, rfl⟩ : ∃ k, n = k + 3 := ⟨n - 3, by omega⟩
  rw [toDigitsCore_step _ _ _ (by omega), toDigitsCore_step _ _ _ (by omega),
    toDigitsCore_step _ _ _ (by omega), toDigitsCore_one _ _ _ (by omega)]
  have e1 : (k + 3) / 10 / 10 / 10 = (k + 3) / 1000 := by omega
  have e2 : (k + 3) / 10 / 10 % 10 = (k + 3) / 100 % 10 := by omega
  rw [e1, e2]

theorem appendInt_two (n : Nat) (h : n < 100) :
    appendInt (Int.ofNat n) 2 = String.mk [digitOf (n / 10), digitOf (n % 10)] := by
  have hneg : ¬ (Int.ofNat n < 0) := by simp
  have hab : (Int.ofNat n).natAbs = n := rfl
  unfold appendInt
  simp only [hneg, if_false, hab, Nat.repr, List.asString]
  rcases Nat.lt_or_ge n 10 with h10 | h10
  · rw [toDigits_one n h10]
    have e1 : n / 10 = 0 := by omega
    have e2 : n % 10 = n := by omega
    rw [e1, e2]
    rfl
  · rw [toDigits_two n h10 h]
    rfl

theorem appendInt_four (n : Nat) (h : n < 10000) :
    appendInt (Int.ofNat n) 4
      = String.mk [digitOf (n / 1000), digitOf (n / 100 % 10), digitOf (n / 10 % 10),
          digitOf (n % 10)] := by
  have hneg : ¬ (Int.ofNat n < 0) := by simp
  have hab : (Int.ofNat n).natAbs = n := rfl
  unfold appendInt
  simp only [hneg, if_false, hab, Nat.repr, List.asString]
  rcases Nat.lt_or_ge n 10 with h10 | h10
  · rw [toDigits_one n h10]
    have e1 : n / 1000 = 0 := by omega
    have e2 : n / 100 % 10 = 0 := by omega
    have e3 : n / 10 % 10 = 0 := by omega
    have e4 : n % 10 = n := by omega
    rw [e1, e2, e3, e4]
    rfl
  · rcases Nat.lt_or_ge n 100 with h100 | h100
    · rw [toDigits_two n h10 h100]
      have e1 : n / 1000 = 0 := by omega
      have e2 : n / 100 % 10 = 0 := by omega
      have e3 : n / 10 % 10 = n / 10 := by omega
      rw [e1, e2, e3]
      rfl
    · rcases Nat.lt_or_ge n 1000 with h1000 | h1000
      · rw [toDigits_three n h100 h1000]
        have e1 : n / 1000 = 0 := by omega
        have e2 : n / 100 % 10 = n / 100 := by omega
        rw [e1, e2]
        rfl
      · rw [toDigits_four n h1000 h]
        rfl

theorem formatDate_digits (d : GoTime) (hy0 : 0 ≤ d.year) (hy : d.year ≤ 9999)
    (hm : d.month ≤ 12) (hd : d.day ≤ 31) :
    formatDate d
      = String.mk [digitOf (d.year.toNat / 1000), digitOf (d.year.toNat / 100 % 10),
          digitOf (d.year.toNat / 10 % 10), digitOf (d.year.toNat % 10), '-',
          digitOf (d.month / 10), digitOf (d.month % 10), '-',
          digitOf (d.day / 10), digitOf (d.day % 10)] := by
  obtain ⟨y, m, dd, hh, mi, se, ns, lc⟩ := d
  obtain ⟨n, rfl⟩ := Int.eq_ofNat_of_zero_le hy0
  have hn : n < 10000 := by
    have : (n : Int) ≤ 9999 := hy
    omega
  have hnat : (Int.ofNat n).toNat = n := rfl
  show appendInt (Int.ofNat n) 4 ++ "-" ++ appendInt (Int.ofNat m) 2 ++ "-"
      ++ appendInt (Int.ofNat dd) 2 = _
  rw [appendInt_four n hn, appendInt_two m (by simp at hm; omega),
    appendInt_two dd (by simp at hd; omega)]
  simp only [hnat]
  rfl

/-- C15. For a time value `d` whose year is between 0 and 9999 (and whose
month and day are those of a calendar day), each of the seven date options
sets its field to the text of ten characters made of the four digits of the
year, `-`, the two digits of the month, `-`, and the two digits of the day;
the text is the same for any two values on the same calendar day, whatever
their time of day. -/
theorem date_options_write_calendar_day (d : GoTime) (r : registrantAlertRequest)
    (hy0 : 0 ≤ d.year) (hy : d.year ≤ 9999) (hm : d.month ≤ 12) (hd : d.day ≤ 31) :
    (OptionSinceDate d r).SinceDate = formatDate d
      ∧ (OptionCreatedDateFrom d r).CreatedDateFrom = formatDate d
      ∧ (OptionCreatedDateTo d r).CreatedDateTo = formatDate d
      ∧ (OptionUpdatedDateFrom d r).UpdatedDateFrom = formatDate d
      ∧ (OptionUpdatedDateTo d r).UpdatedDateTo = formatDate d
      ∧ (OptionExpiredDateFrom d r).ExpiredDateFrom = formatDate d
      ∧ (OptionExpiredDateTo d r).ExpiredDateTo = formatDate d
      ∧ formatDate d
          = String.mk [digitOf (d.year.toNat / 1000), digitOf (d.year.toNat / 100 % 10),
              digitOf (d.year.toNat / 10 % 10), digitOf (d.year.toNat % 10), '-',
              digitOf (d.month / 10), digitOf (d.month % 10), '-',
              digitOf (d.day / 10), digitOf (d.day % 10)]
      ∧ (formatDate d).length = 10
      ∧ ∀ e : GoTime, e.year = d.year → e.month = d.month → e.day = d.day →
          formatDate e = formatDate d := by
  refine ⟨rfl, rfl, rfl, rfl, rfl, rfl, rfl, formatDate_digits d hy0 hy hm hd, ?_, ?_⟩
  · rw [formatDate_digits d hy0 hy hm hd]
    rfl
  · intro e h1 h2 h3
    simp only [formatDate, h1, h2, h3]

/-- Witness of C15: the first of January 2021, at one in the morning. -/
theorem date_options_write_calendar_day_witness :
    (OptionUpdatedDateTo ⟨2021, 1, 1, 1, 0, 0, 0, 0⟩
        (initialRequest "key" fixtureBasic none false)).UpdatedDateTo = "2021-01-01" :=
  ((date_options_write_calendar_day ⟨2021, 1, 1, 1, 0, 0, 0, 0⟩
    (initialRequest "key" fixtureBasic none false)
    (by decide) (by decide) (by decide) (by decide)).2.2.2.2.1).trans (by decide)

theorem applyOptions_knownOpts_responseFormat_of_none (ks : List KnownOption)
    (h : ∀ k ∈ ks, k.isResponseFormat = false) (r : registrantAlertRequest) :
    (applyOptions (knownOpts ks) r).ResponseFormat = r.ResponseFormat := by
  have h1 := applyOptions_knownOpts_get ks .ResponseFormat
    (fun k hk => by
      have := h k hk
      cases k <;> simp_all [KnownOption.field, KnownOption.isResponseFormat]) r
  simpa [registrantAlertRequest.get] using h1

theorem knownOpts_append (xs ys : List KnownOption) :
    knownOpts (xs ++ ys) = knownOpts xs ++ knownOpts ys := by
  simp [knownOpts]

theorem run_first_effect (L : Lib) (service : registrantAlertServiceOp) (ctx : Nat) (c : Call)
    (opts : List Opt) (hv : c.validate = none) (ho : validateOptions opts = none) :
    (c.run L service ctx opts).trace.head?
      = some (.marshal (c.built service.client.apiKey opts)) := by
  have hopts : validateOptions (c.opts opts) = none := by
    unfold Call.opts
    split_ifs
    · simp [validateOptions_append, ho, validateOptions]
    · exact ho
  obtain ⟨rest, htrace, -⟩ :=
    request_trace L service ctx c.basic c.advanced (!c.preview) (c.opts opts) hopts
  rw [run_trace _ _ _ _ _ hv]
  unfold Call.request
  rw [htrace]
  rfl

/-- C16. For a raw entry point with accepted terms and any list of
recognized options, the request that is serialized is built from the
caller's options alone. Its response format is the string of the last
response-format option of the list, verbatim, and the default `json` when
the list has none; the member is on the wire with that string unless the
string is empty, in which case it is omitted. -/
theorem raw_entry_points_keep_response_format (L : Lib) (service : registrantAlertServiceOp)
    (ctx : Nat) (c : Call) (ks : List KnownOption) (hp : c.parsed = false)
    (hv : c.validate = none) :
    (c.run L service ctx (knownOpts ks)).trace.head?
        = some (.marshal (c.built service.client.apiKey (knownOpts ks)))
      ∧ ((∀ k ∈ ks, k.isResponseFormat = false) →
          (c.built service.client.apiKey (knownOpts ks)).ResponseFormat = "json")
      ∧ (∀ (before after : List KnownOption) (s : String),
          ks = before ++ .responseFormat s :: after →
          (∀ k ∈ after, k.isResponseFormat = false) →
          (c.built service.client.apiKey (knownOpts ks)).ResponseFormat = s
            ∧ lookupMember "responseFormat"
                (c.built service.client.apiKey (knownOpts ks)).members
              = if s = "" then none else some (.string s)) := by
  have hopts : c.opts (knownOpts ks) = knownOpts ks := by simp [Call.opts, hp]
  refine ⟨run_first_effect L service ctx c _ hv (validateOptions_knownOpts ks), ?_, ?_⟩
  · intro hnone
    unfold Call.built
    rw [hopts, applyOptions_knownOpts_responseFormat_of_none ks hnone]
    cases c <;> rfl
  · intro before after s hks hafter
    have hfmt : (c.built service.client.apiKey (knownOpts ks)).ResponseFormat = s := by
      unfold Call.built
      rw [hopts, hks, knownOpts_append, applyOptions_append]
      show (applyOptions (knownOpts after) (OptionResponseFormat s _)).ResponseFormat = s
      rw [applyOptions_knownOpts_responseFormat_of_none after hafter]
      rfl
    refine ⟨hfmt, ?_⟩
    rw [lookupMember_responseFormat, hfmt]

/-- Witness of C16: `BasicRawData` with the options `xml`, a since-date and
the empty format, in this order, serializes the empty format. -/
theorem raw_entry_points_keep_response_format_witness :
    ((Call.BasicRawData fixtureBasic).built "key"
        (knownOpts [.responseFormat "xml", .sinceDate GoTime.zero, .responseFormat "",
          .punycode true])).ResponseFormat = "" :=
  ((raw_entry_points_keep_response_format (fixtureLib (.ok fixtureSuccess) (.ok .null))
    (fixtureService (.ok (fixtureResponse 200 fixtureCountText))) 0
    (Call.BasicRawData fixtureBasic)
    [.responseFormat "xml", .sinceDate GoTime.zero, .responseFormat "", .punycode true]
    (by decide) (by decide)).2.2
    [.responseFormat "xml", .sinceDate GoTime.zero] [.punycode true] "" (by rfl)
    (by decide)).1

/-! ## The serialized body (C17, C18) -/

theorem lookupMember_punycode (r : registrantAlertRequest) :
    lookupMember "punycode" r.members = if r.Punycode then some (.bool true) else none := by
  unfold registrantAlertRequest.members
  simp [lookupMember_append, lookupMember_omitEmptyString, lookupMember_omitEmptyBool,
    lookupMember_omitNilBasic, lookupMember_omitEmptyTerms, lookupMember]
  split_ifs <;> rfl

/-- C17, the code at the failing input. After the option `punycode(false)`
the request of every entry point has `Punycode` false and its serialized
members have no `punycode` member: the tag `omitempty` drops the value
`false`. In general the member is on the wire exactly when the field is
true, and then with the value true. -/
theorem punycode_false_is_omitted :
    (∀ (apiKey : String) (c : Call),
        (c.built apiKey (knownOpts [.punycode false])).Punycode = false
          ∧ lookupMember "punycode" (c.built apiKey (knownOpts [.punycode false])).members
              = none)
      ∧ (∀ (apiKey : String) (c : Call),
          lookupMember "punycode" (c.built apiKey []).members = some (.bool true))
      ∧ (∀ r : registrantAlertRequest,
          lookupMember "punycode" r.members
            = if r.Punycode then some (.bool true) else none) := by
  refine ⟨?_, ?_, lookupMember_punycode⟩
  · intro apiKey c
    have h : (c.built apiKey (knownOpts [.punycode false])).Punycode = false := by
      cases c <;> rfl
    exact ⟨h, by rw [lookupMember_punycode, h]; rfl⟩
  · intro apiKey c
    have h : (c.built apiKey []).Punycode = true := by
      cases c <;> rfl
    rw [lookupMember_punycode, h]
    rfl

theorem newRequest_ok_body (L : Lib) (service : registrantAlertServiceOp) (body : Bytes)
    (req : HTTPRequest) (h : service.newRequest L body = .ok req) : req.Body = body := by
  unfold registrantAlertServiceOp.newRequest Client.NewRequest at h
  cases hn : L.httpNewRequest "POST" service.baseURL with
  | none =>
    simp [hn] at h
    rw [← h]
  | some e => simp [hn] at h

theorem Do_trace_send (c : Client) (ctx : Nat) (req sent : HTTPRequest)
    (h : Event.send sent ∈ (c.Do ctx req).trace) : sent = { req with ctx := ctx } := by
  revert h
  unfold Client.Do
  dsimp only
  rcases c.client _ with e | ⟨status, header, ⟨data, _ | cause, _ | rerr⟩⟩ <;> simp

theorem run_sends_members (L : Lib) (service : registrantAlertServiceOp) (ctx : Nat) (c : Call)
    (opts : List Opt) (sent : HTTPRequest) (hv : c.validate = none)
    (ho : validateOptions opts = none)
    (h : Event.send sent ∈ (c.run L service ctx opts).trace) :
    sent.Body = L.jsonText (.object (c.built service.client.apiKey opts).members) := by
  have hopts : validateOptions (c.opts opts) = none := by
    unfold Call.opts
    split_ifs
    · simp [validateOptions_append, ho, validateOptions]
    · exact ho
  rw [run_trace _ _ _ _ _ hv] at h
  unfold Call.request at h
  rw [request_eq] at h
  simp only [hopts] at h
  cases hn : service.newRequest L
      (L.jsonText (.object (applyOptions (c.opts opts)
        (initialRequest service.client.apiKey c.basic c.advanced (!c.preview))).members)) with
  | error e => simp [hn] at h
  | ok req =>
    simp only [hn] at h
    rcases List.mem_cons.mp h with h1 | h1
    · cases h1
    · rw [Do_trace_send _ _ _ _ h1]
      exact newRequest_ok_body L service _ req hn

/-- C18. The body an entry point sends is the text of the members of the
request it built. Among these members `apiKey` is always present with the
key, also when the key is empty, and each of the string fields `sinceDate`,
`mode`, `responseFormat` and the six created, updated and expired dates is
present if and only if its value is not the empty string, and then carries
that value unchanged. -/
theorem string_members_present_iff_not_empty (L : Lib) (service : registrantAlertServiceOp)
    (ctx : Nat) (c : Call) (opts : List Opt) (hv : c.validate = none)
    (ho : validateOptions opts = none) :
    (∀ sent, Event.send sent ∈ (c.run L service ctx opts).trace →
        sent.Body = L.jsonText (.object (c.built service.client.apiKey opts).members))
      ∧ ∀ r : registrantAlertRequest,
          lookupMember "apiKey" r.members = some (.string r.APIKey)
            ∧ lookupMember "sinceDate" r.members
                = (if r.SinceDate = "" then none else some (.string r.SinceDate))
            ∧ lookupMember "mode" r.members
                = (if r.Mode = "" then none else some (.string r.Mode))
            ∧ lookupMember "responseFormat" r.members
                = (if r.ResponseFormat = "" then none else some (.string r.ResponseFormat))
            ∧ lookupMember "createdDateFrom" r.members
                = (if r.CreatedDateFrom = "" then none else some (.string r.CreatedDateFrom))
            ∧ lookupMember "createdDateTo" r.members
                = (if r.CreatedDateTo = "" then none else some (.string r.CreatedDateTo))
            ∧ lookupMember "updatedDateFrom" r.members
                = (if r.UpdatedDateFrom = "" then none else some (.string r.UpdatedDateFrom))
            ∧ lookupMember "updatedDateTo" r.members
                = (if r.UpdatedDateTo = "" then none else some (.string r.UpdatedDateTo))
            ∧ lookupMember "expiredDateFrom" r.members
                = (if r.ExpiredDateFrom = "" then none else some (.string r.ExpiredDateFrom))
            ∧ lookupMember "expiredDateTo" r.members
                = (if r.ExpiredDateTo = "" then none else some (.string r.ExpiredDateTo)) := by
  refine ⟨fun sent h => run_sends_members L service ctx c opts sent hv ho h, ?_⟩
  intro r
  refine ⟨?_, ?_, ?_, lookupMember_responseFormat r, ?_, ?_, ?_, ?_, ?_, ?_⟩
  · simp [registrantAlertRequest.members, lookupMember]
  all_goals
    unfold registrantAlertRequest.members
    simp [lookupMember_append, lookupMember_omitEmptyString, lookupMember_omitEmptyBool,
      lookupMember_omitNilBasic, lookupMember_omitEmptyTerms, lookupMember]
    try (split_ifs <;> rfl)

/-- Witness of C18: the request `BasicPreview` builds from a since-date
option carries the date, and no created-date member. -/
theorem string_members_present_iff_not_empty_witness :
    lookupMember "sinceDate"
        ((Call.BasicPreview fixtureBasic).built "key"
          [some (OptionSinceDate ⟨2021, 1, 1, 0, 0, 0, 0, 0⟩)]).members
      = some (.string "2021-01-01") :=
  ((string_members_present_iff_not_empty (fixtureLib (.ok fixtureSuccess) (.ok .null))
    (fixtureService (.ok (fixtureResponse 200 fixtureCountText))) 0
    (Call.BasicPreview fixtureBasic) [some (OptionSinceDate ⟨2021, 1, 1, 0, 0, 0, 0, 0⟩)]
    (by decide) (by rfl)).2
    ((Call.BasicPreview fixtureBasic).built "key"
      [some (OptionSinceDate ⟨2021, 1, 1, 0, 0, 0, 0, 0⟩)])).2.1.trans (by rfl)

/-! ## Option validation (C19) -/

theorem validateOptions_of_nil_mem (opts : List Opt) (h : ∃ o ∈ opts, o = none) :
    validateOptions opts = some (.argError ⟨"Option", "can not be nil"⟩) := by
  cases hv : validateOptions opts with
  | some err => rw [validateOptions_eq_some opts err hv]
  | none =>
    obtain ⟨o, ho, rfl⟩ := h
    have := (validateOptions_eq_none opts).mp hv none ho
    simp at this

/-- C19. `validateOptions` returns the error `Option` `can not be nil` if
and only if some entry of the list is nil, and no error otherwise, the empty
list included. When it rejects the options of a call whose terms are
accepted, the entry point returns that error with a nil envelope and a zero
typed result, and has performed no effect: no request was serialized and
none was sent. -/
theorem validateOptions_rejects_nil_entries (opts : List Opt) :
    (validateOptions opts = some (.argError ⟨"Option", "can not be nil"⟩)
        ↔ ∃ o ∈ opts, o = none)
      ∧ (validateOptions opts = none ↔ ∀ o ∈ opts, o ≠ none)
      ∧ validateOptions [] = none
      ∧ ((∃ o ∈ opts, o = none) →
          ∀ (L : Lib) (service : registrantAlertServiceOp) (ctx : Nat) (c : Call),
            c.validate = none →
            c.run L service ctx opts
              = ⟨0, none, none, some (.argError ⟨"Option", "can not be nil"⟩), []⟩) := by
  have hnone : validateOptions opts = none ↔ ∀ o ∈ opts, o ≠ none := by
    rw [validateOptions_eq_none]
    constructor
    · intro h o ho hn
      have := h o ho
      simp [hn] at this
    · intro h o ho
      cases o with
      | none => exact absurd rfl (h none ho)
      | some f => rfl
  refine ⟨⟨?_, validateOptions_of_nil_mem opts⟩, hnone, rfl, ?_⟩
  · intro h
    by_contra hcon
    have hall : ∀ o ∈ opts, o ≠ none := fun o ho hn => hcon ⟨o, ho, hn⟩
    rw [hnone.mpr hall] at h
    cases h
  · intro hnil L service ctx c hv
    have hopts : validateOptions (c.opts opts)
        = some (.argError ⟨"Option", "can not be nil"⟩) := by
      apply validateOptions_of_nil_mem
      obtain ⟨o, ho, hn⟩ := hnil
      refine ⟨o, ?_, hn⟩
      unfold Call.opts
      split_ifs
      · exact List.mem_append_left _ ho
      · exact ho
    have hreq : c.request L service ctx opts
        = ⟨none, some (.argError ⟨"Option", "can not be nil"⟩), []⟩ := by
      unfold Call.request
      rw [request_eq]
      simp only [hopts]
    have he : (c.request L service ctx opts).err
        = some (.argError ⟨"Option", "can not be nil"⟩) := by rw [hreq]
    rw [run_of_request_err L service ctx c opts _ hv he, hreq]

/-- Witness of C19: `BasicPurchase` on accepted terms with a nil entry after
a response-format option. -/
theorem validateOptions_rejects_nil_entries_witness :
    (Call.BasicPurchase fixtureBasic).run (fixtureLib (.ok fixtureSuccess) (.ok .null))
        (fixtureService (.ok (fixtureResponse 200 fixtureCountText))) 0
        [some (OptionResponseFormat "xml"), none]
      = ⟨0, none, none, some (.argError ⟨"Option", "can not be nil"⟩), []⟩ :=
  (validateOptions_rejects_nil_entries [some (OptionResponseFormat "xml"), none]).2.2.2
    ⟨none, by simp, rfl⟩ (fixtureLib (.ok fixtureSuccess) (.ok .null))
    (fixtureService (.ok (fixtureResponse 200 fixtureCountText))) 0
    (Call.BasicPurchase fixtureBasic) (by decide)

/-! ## Decoding of messages (C20) -/

theorem decodeStrings_array_of_strings (xs : List String) :
    decodeStrings (.array (xs.map .string)) = .ok (some xs) := by
  have hall : (xs.map JSON.string).all
      (fun v => match v with | .string _ => true | .null => true | _ => false) = true := by
    simp [List.all_eq_true]
  have hmap : (xs.map JSON.string).map (fun v => match v with | .string s => s | _ => "")
      = xs := by
    induction xs with
    | nil => rfl
    | cons x rest ih => simpa using ih
  simp only [decodeStrings, hall, if_true, hmap]

theorem UnmarshalJSON_of_toJSON (L : Lib) (m n : Messages) (b : Bytes)
    (h : L.jsonParse b = .ok n.toJSON) : Messages.UnmarshalJSON L m b = (n, none) := by
  cases n with
  | none => simp [Messages.UnmarshalJSON, unmarshalStrings, h, Messages.toJSON, decodeStrings]
  | some xs =>
    simp [Messages.UnmarshalJSON, unmarshalStrings, h, Messages.toJSON,
      decodeStrings_array_of_strings]

/-- C20. A messages value that the reader sees as an array of strings
decodes to exactly that sequence of strings, same length, order and
contents, whatever the receiver held; and writing any messages `n` as JSON
and decoding the text again (the reader reading back the document that was
written) returns `n`, so decoding what was decoded changes nothing. -/
theorem messages_array_decodes_to_itself (L : Lib) (m : Messages) (b : Bytes) :
    (∀ xs : List String, L.jsonParse b = .ok (.array (xs.map .string)) →
        Messages.UnmarshalJSON L m b = (some xs, none)
          ∧ len (Messages.UnmarshalJSON L m b).1 = xs.length)
      ∧ (∀ n : Messages, Messages.marshal L n = L.jsonText n.toJSON)
      ∧ (∀ n : Messages, L.jsonParse (Messages.marshal L n) = .ok n.toJSON →
          Messages.UnmarshalJSON L m (Messages.marshal L n) = (n, none)) := by
  refine ⟨?_, ?_, ?_⟩
  · intro xs h
    have := UnmarshalJSON_of_toJSON L m (some xs) b h
    rw [this]
    exact ⟨rfl, rfl⟩
  · intro n
    cases n <;> rfl
  · intro n h
    exact UnmarshalJSON_of_toJSON L m n _ h

/-- Witness of C20: the array of `Message1` and `Message2` decodes to the
two strings in this order, and so does the text written for them. -/
theorem messages_array_decodes_to_itself_witness :
    Messages.UnmarshalJSON
          (fixtureLib (.ok fixtureSuccess)
            (.ok (.array [.string "Message1", .string "Message2"])))
          none (bytesOf "[\"Message1\",\"Message2\"]")
        = (some ["Message1", "Message2"], none)
      ∧ Messages.UnmarshalJSON
          (fixtureLib (.ok fixtureSuccess)
            (.ok (.array [.string "Message1", .string "Message2"])))
          none
          (Messages.marshal
            (fixtureLib (.ok fixtureSuccess)
              (.ok (.array [.string "Message1", .string "Message2"])))
            (some ["Message1", "Message2"]))
        = (some ["Message1", "Message2"], none) :=
  ⟨((messages_array_decodes_to_itself
      (fixtureLib (.ok fixtureSuccess) (.ok (.array [.string "Message1", .string "Message2"])))
      none (bytesOf "[\"Message1\",\"Message2\"]")).1 ["Message1", "Message2"] (by rfl)).1,
    (messages_array_decodes_to_itself
      (fixtureLib (.ok fixtureSuccess) (.ok (.array [.string "Message1", .string "Message2"])))
      none (bytesOf "[\"Message1\",\"Message2\"]")).2.2 (some ["Message1", "Message2"])
      (by rfl)⟩

/-! ## Decoding of messages that are not arrays of strings (C21 to C23, C29) -/

theorem UnmarshalJSON_of_decode_error (L : Lib) (m : Messages) (b : Bytes) (x : JSON)
    (cause : String) (h : L.jsonParse b = .ok x) (hx : decodeStrings x = .error cause) :
    Messages.UnmarshalJSON L m b = (some (m.getD [] ++ [sprintfS x]), none) := by
  simp [Messages.UnmarshalJSON, unmarshalStrings, h, hx]

theorem decodeStrings_of_not_array (x : JSON) (ha : x.isArray = false) (hn : x.isNull = false) :
    ∃ cause, decodeStrings x = .error cause := by
  cases x with
  | null => simp [JSON.isNull] at hn
  | array items => simp [JSON.isArray] at ha
  | bool b => exact ⟨_, rfl⟩
  | number g => exact ⟨_, rfl⟩
  | string s => exact ⟨_, rfl⟩
  | object members => exact ⟨_, rfl⟩

/-- C21. A messages value that the reader sees as the string `s`, decoded
into an empty `Messages` (nil or of length 0), yields the one-element
sequence of `s`; for the empty string this is the sequence of one empty
string, which is not nil. -/
theorem messages_string_decodes_to_singleton (L : Lib) (m : Messages) (b : Bytes) (s : String)
    (hm : len m = 0) (h : L.jsonParse b = .ok (.string s)) :
    Messages.UnmarshalJSON L m b = (some [s], none)
      ∧ (s = "" → (Messages.UnmarshalJSON L m b).1 = some [""]
          ∧ (Messages.UnmarshalJSON L m b).1 ≠ none
          ∧ len (Messages.UnmarshalJSON L m b).1 = 1) := by
  have hempty : m.getD [] = [] := by
    cases m with
    | none => rfl
    | some xs =>
      have : xs.length = 0 := hm
      simpa using List.length_eq_zero.mp this
  have hrun : Messages.UnmarshalJSON L m b = (some [s], none) := by
    rw [UnmarshalJSON_of_decode_error L m b (.string s) _ h rfl, hempty]
    rfl
  refine ⟨hrun, ?_⟩
  intro hs
  rw [hrun, hs]
  exact ⟨rfl, by simp, rfl⟩

/-- Witness of C21: the string `Message` decodes to the sequence of
`Message`. -/
theorem messages_string_decodes_to_singleton_witness :
    Messages.UnmarshalJSON (fixtureLib (.ok fixtureSuccess) (.ok (.string "Message"))) none
        (bytesOf "\"Message\"") = (some ["Message"], none) :=
  (messages_string_decodes_to_singleton
    (fixtureLib (.ok fixtureSuccess) (.ok (.string "Message"))) none (bytesOf "\"Message\"")
    "Message" (by rfl) (by rfl)).1

/-- C23, the code at the failing inputs. The number 5 decodes into an empty
`Messages` as the one element `%!s(float64=5)` and the boolean true as the
one element `%!s(bool=true)`: the verb `%s` does not apply to a `float64` or
a `bool`, and `fmt` prints its bad-verb form instead of `5` and `true`. -/
theorem messages_number_and_bool_print_bad_verb :
    Messages.UnmarshalJSON (fixtureLib (.ok fixtureSuccess) (.ok (.number "5"))) none
        (bytesOf "5") = (some ["%!s(float64=5)"], none)
      ∧ Messages.UnmarshalJSON (fixtureLib (.ok fixtureSuccess) (.ok (.bool true))) none
          (bytesOf "true") = (some ["%!s(bool=true)"], none)
      ∧ "%!s(float64=5)" ≠ "5" ∧ "%!s(bool=true)" ≠ "true" := by
  refine ⟨by rfl, by rfl, by decide, by decide⟩

theorem all_isStringOrNull (items : List JSON) :
    items.all (fun v => match v with | .string _ => true | .null => true | _ => false)
      = items.all JSON.isStringOrNull := by
  induction items with
  | nil => rfl
  | cons v rest ih =>
    simp only [List.all_cons, ih]
    cases v <;> rfl

theorem map_itemText (items : List JSON) :
    items.map (fun v => match v with | .string s => s | _ => "")
      = items.map JSON.itemText := by
  induction items with
  | nil => rfl
  | cons v rest ih =>
    simp only [List.map_cons, ih]
    cases v <;> rfl

theorem decodeStrings_of_stringArray (items : List JSON)
    (h : items.all JSON.isStringOrNull = true) :
    decodeStrings (.array items) = .ok (some (items.map JSON.itemText)) := by
  simp only [decodeStrings]
  rw [all_isStringOrNull, map_itemText, if_pos h]

theorem decodeStrings_of_not_stringArray (x : JSON) (hn : x.isNull = false)
    (ha : x.isStringArray = false) : ∃ cause, decodeStrings x = .error cause := by
  cases x with
  | null => simp [JSON.isNull] at hn
  | bool b => exact ⟨_, rfl⟩
  | number g => exact ⟨_, rfl⟩
  | string s => exact ⟨_, rfl⟩
  | object members => exact ⟨_, rfl⟩
  | array items =>
    have hall : ¬ items.all JSON.isStringOrNull = true := by
      have h0 : items.all JSON.isStringOrNull = false := ha
      simp [h0]
    simp only [decodeStrings]
    rw [all_isStringOrNull, if_neg hall]
    split
    · exact ⟨_, rfl⟩
    · exact ⟨_, rfl⟩

theorem isStringArray_of_strings (xs : List String) :
    (JSON.array (xs.map .string)).isStringArray = true := by
  simp [JSON.isStringArray, List.all_eq_true, JSON.isStringOrNull]

theorem itemText_of_strings (xs : List String) :
    (xs.map JSON.string).map JSON.itemText = xs := by
  induction xs with
  | nil => rfl
  | cons x rest ih => simpa [JSON.itemText] using ih

/-- C29. `Messages.UnmarshalJSON` replaces the receiver when the reader sees
`null` (by nil) or an array whose items are all strings (by that sequence;
an item `null` is taken as the empty string), and appends to it on every
other document, an array that holds an item of another kind included: a
receiver of `k` elements then holds `k + 1` elements, the first `k`
unchanged and the last the printed value, and the result has a single
element only when the receiver was empty. Every document that is not an
array is either `null` or one of these other documents. -/
theorem messages_replace_or_append (L : Lib) (m : Messages) (b : Bytes) :
    (∀ xs : List String, L.jsonParse b = .ok (.array (xs.map .string)) →
        Messages.UnmarshalJSON L m b = (some xs, none))
      ∧ (L.jsonParse b = .ok .null → Messages.UnmarshalJSON L m b = (none, none))
      ∧ (∀ items : List JSON, L.jsonParse b = .ok (.array items) →
          (JSON.array items).isStringArray = true →
          Messages.UnmarshalJSON L m b = (some (items.map JSON.itemText), none))
      ∧ (∀ x : JSON, L.jsonParse b = .ok x → x.isNull = false → x.isStringArray = false →
          Messages.UnmarshalJSON L m b = (some (m.getD [] ++ [sprintfS x]), none)
            ∧ len (Messages.UnmarshalJSON L m b).1 = len m + 1
            ∧ ((Messages.UnmarshalJSON L m b).1.getD []).take (len m) = m.getD []
            ∧ ((Messages.UnmarshalJSON L m b).1.getD []).getLast? = some (sprintfS x)
            ∧ (len (Messages.UnmarshalJSON L m b).1 = 1 ↔ len m = 0))
      ∧ (∀ x : JSON, x.isArray = false → x.isStringArray = false)
      ∧ (∀ x : JSON, (∃ cause, decodeStrings x = .error cause)
          ↔ (x.isNull = false ∧ x.isStringArray = false)) := by
  refine ⟨?_, ?_, ?_, ?_, ?_, ?_⟩
  · intro xs h
    exact UnmarshalJSON_of_toJSON L m (some xs) b h
  · intro h
    exact UnmarshalJSON_of_toJSON L m none b h
  · intro items h hall
    simp [Messages.UnmarshalJSON, unmarshalStrings, h, decodeStrings_of_stringArray items hall]
  · intro x h hn ha
    obtain ⟨cause, hx⟩ := decodeStrings_of_not_stringArray x hn ha
    have hrun := UnmarshalJSON_of_decode_error L m b x cause h hx
    have hlen : (m.getD []).length = len m := by cases m <;> rfl
    rw [hrun]
    refine ⟨rfl, ?_, ?_, ?_, ?_⟩
    · simp [len, hlen]
    · simp [← hlen]
    · simp
    · simp [len, hlen]
  · intro x hx
    cases x <;> first | rfl | (simp [JSON.isArray] at hx)
  · intro x
    constructor
    · rintro ⟨cause, hx⟩
      cases hn : x.isNull with
      | true =>
        cases x <;> simp [JSON.isNull] at hn
        simp [decodeStrings] at hx
      | false =>
        refine ⟨rfl, ?_⟩
        cases ha : x.isStringArray with
        | false => rfl
        | true =>
          cases x with
          | array items =>
            rw [decodeStrings_of_stringArray items ha] at hx
            cases hx
          | null => cases ha
          | bool b => cases ha
          | number g => cases ha
          | string s => cases ha
          | object members => cases ha
    · rintro ⟨hn, ha⟩
      exact decodeStrings_of_not_stringArray x hn ha

/-- Witness of C29: the string `c` decoded into a receiver that holds `a`
and `b` gives `a`, `b`, `c`; the array of the number 1 and the string `s`
decoded into a receiver that holds `a` is appended as one element; and the
array of `a` and `null` replaces a receiver that holds `x` and `y`. -/
theorem messages_replace_or_append_witness :
    Messages.UnmarshalJSON (fixtureLib (.ok fixtureSuccess) (.ok (.string "c")))
          (some ["a", "b"]) (bytesOf "\"c\"") = (some ["a", "b", "c"], none)
      ∧ Messages.UnmarshalJSON
          (fixtureLib (.ok fixtureSuccess) (.ok (.array [.number "1", .string "s"])))
          (some ["a"]) (bytesOf "[1,\"s\"]") = (some ["a", "[%!s(float64=1) s]"], none)
      ∧ Messages.UnmarshalJSON
          (fixtureLib (.ok fixtureSuccess) (.ok (.array [.string "a", .null])))
          (some ["x", "y"]) (bytesOf "[\"a\",null]") = (some ["a", ""], none) :=
  ⟨((messages_replace_or_append (fixtureLib (.ok fixtureSuccess) (.ok (.string "c")))
      (some ["a", "b"]) (bytesOf "\"c\"")).2.2.2.1 (.string "c") (by rfl) (by rfl) (by rfl)).1,
    ((messages_replace_or_append
      (fixtureLib (.ok fixtureSuccess) (.ok (.array [.number "1", .string "s"])))
      (some ["a"]) (bytesOf "[1,\"s\"]")).2.2.2.1 (.array [.number "1", .string "s"])
      (by rfl) (by rfl) (by rfl)).1,
    (messages_replace_or_append
      (fixtureLib (.ok fixtureSuccess) (.ok (.array [.string "a", .null])))
      (some ["x", "y"]) (bytesOf "[\"a\",null]")).2.2.1 [.string "a", .null]
      (by rfl) (by rfl)⟩

theorem insertEntry_perm (e : String × String) (xs : List (String × String)) :
    (insertEntry e xs).Perm (e :: xs) := by
  induction xs with
  | nil => exact List.Perm.refl _
  | cons x rest ih =>
    simp only [insertEntry]
    split_ifs
    · exact List.Perm.refl _
    · exact (List.Perm.cons x ih).trans (List.Perm.swap e x rest)

theorem sortEntries_perm (xs : List (String × String)) : (sortEntries xs).Perm xs := by
  induction xs with
  | nil => exact List.Perm.refl _
  | cons x rest ih => exact (insertEntry_perm x _).trans (List.Perm.cons x ih)

theorem insertEntry_sorted (e : String × String) (xs : List (String × String))
    (h : xs.Pairwise (fun a b => a.1 ≤ b.1)) :
    (insertEntry e xs).Pairwise (fun a b => a.1 ≤ b.1) := by
  induction xs with
  | nil => simp [insertEntry]
  | cons x rest ih =>
    simp only [insertEntry]
    rw [List.pairwise_cons] at h
    split_ifs with hlt
    · refine List.pairwise_cons.mpr ⟨?_, List.pairwise_cons.mpr h⟩
      intro a ha
      rcases List.mem_cons.mp ha with rfl | ha
      · exact le_of_lt hlt
      · exact le_trans (le_of_lt hlt) (h.1 a ha)
    · refine List.pairwise_cons.mpr ⟨?_, ih h.2⟩
      intro a ha
      have hmem := (insertEntry_perm e rest).mem_iff.mp ha
      rcases List.mem_cons.mp hmem with rfl | ha
      · exact le_of_not_lt hlt
      · exact h.1 a ha

theorem sortEntries_sorted (xs : List (String × String)) :
    (sortEntries xs).Pairwise (fun a b => a.1 ≤ b.1) := by
  induction xs with
  | nil => simp [sortEntries]
  | cons x rest ih => exact insertEntry_sorted x _ ih

theorem sortEntries_strict (xs : List (String × String)) (h : (xs.map Prod.fst).Nodup) :
    (sortEntries xs).Pairwise (fun a b => a.1 < b.1) := by
  have hnodup : ((sortEntries xs).map Prod.fst).Nodup :=
    ((sortEntries_perm xs).map Prod.fst).nodup_iff.mpr h
  have hne : (sortEntries xs).Pairwise (fun a b => a.1 ≠ b.1) := by
    rw [List.Nodup, List.pairwise_map] at hnodup
    exact hnodup
  exact ((sortEntries_sorted xs).and hne).imp (fun hab => lt_of_le_of_ne hab.1 hab.2)

theorem lastWins_of_nodup (xs : List (String × String)) (h : (xs.map Prod.fst).Nodup) :
    lastWins xs = xs := by
  induction xs with
  | nil => rfl
  | cons x rest ih =>
    obtain ⟨k, v⟩ := x
    simp only [List.map_cons, List.nodup_cons] at h
    have hk : rest.any (fun e => e.1 = k) = false := by
      rw [Bool.eq_false_iff]
      intro hany
      rw [List.any_eq_true] at hany
      obtain ⟨e, he, hek⟩ := hany
      apply h.1
      have : e.1 = k := by simpa using hek
      rw [← this]
      exact List.mem_map_of_mem _ he
    simp only [lastWins, hk, ih h.2]
    rfl

theorem joinEntries_eq (es : List (String × String)) :
    joinEntries es = " ".intercalate (es.map (fun e => e.1 ++ ":" ++ e.2)) := by
  cases es with
  | nil => rfl
  | cons e rest =>
    have key : ∀ (rest : List (String × String)) (e : String × String),
        joinEntries (e :: rest)
          = e.1 ++ ":" ++ e.2 ++ tailJoin " " (rest.map (fun e => e.1 ++ ":" ++ e.2)) := by
      intro rest
      induction rest with
      | nil => intro e; simp [joinEntries, tailJoin]
      | cons x more ih =>
        intro e
        simp only [joinEntries, ih x, List.map_cons, tailJoin, String.append_assoc]
    rw [key rest e]
    simp [String.intercalate, intercalate_go_eq]

theorem sprintItems_strings (xs : List String) :
    sprintItems (xs.map .string) = " ".intercalate xs := by
  cases xs with
  | nil => simp [sprintItems, String.intercalate]
  | cons x rest =>
    have key : ∀ (rest : List String) (x : String),
        sprintItems ((x :: rest).map .string) = x ++ tailJoin " " rest := by
      intro rest
      induction rest with
      | nil => intro x; simp [sprintItems, sprintValue, tailJoin]
      | cons y more ih =>
        intro x
        have := ih y
        simp only [List.map_cons] at this ⊢
        simp only [sprintItems, sprintValue, this, tailJoin, String.append_assoc]
    rw [key rest x]
    simp [String.intercalate, intercalate_go_eq]

theorem sprintMembers_render (members : List (String × MemberValue)) :
    sprintMembers (members.map (fun e => (e.1, e.2.toJSON)))
      = members.map (fun e => (e.1, e.2.render)) := by
  have hv : ∀ v : MemberValue, sprintValue v.toJSON = v.render := by
    intro v
    cases v with
    | text s => simp [sprintValue, MemberValue.toJSON, MemberValue.render]
    | texts items =>
      simp [sprintValue, MemberValue.toJSON, MemberValue.render, sprintItems_strings]
  induction members with
  | nil => simp [sprintMembers]
  | cons e rest ih =>
    simp only [List.map_cons, sprintMembers, hv, ih]

theorem lastWins_subset (xs : List (String × String)) :
    ∀ e ∈ lastWins xs, e ∈ xs := by
  induction xs with
  | nil => intro e he; simp [lastWins] at he
  | cons x rest ih =>
    obtain ⟨k, v⟩ := x
    intro e he
    simp only [lastWins] at he
    split_ifs at he
    · exact List.mem_cons_of_mem _ (ih e he)
    · rcases List.mem_cons.mp he with rfl | he
      · exact List.mem_cons_self _ _
      · exact List.mem_cons_of_mem _ (ih e he)

theorem lastWins_nodup (xs : List (String × String)) :
    ((lastWins xs).map Prod.fst).Nodup := by
  induction xs with
  | nil => simp [lastWins]
  | cons x rest ih =>
    obtain ⟨k, v⟩ := x
    simp only [lastWins]
    split_ifs with hany
    · exact ih
    · rw [List.map_cons, List.nodup_cons]
      refine ⟨?_, ih⟩
      intro hmem
      obtain ⟨e, he, hek⟩ := List.mem_map.mp hmem
      apply hany
      rw [List.any_eq_true]
      exact ⟨e, lastWins_subset rest e he, by simpa using hek⟩

/-- C22. A messages value that the reader sees as an object whose values are
strings or arrays of strings, decoded into an empty `Messages`, yields
exactly one element: `map[`, the entries `key:value` of the object in
strictly ascending key order separated by single spaces, `]`, where a string
value is written as it is and an array value as `[`, its items separated by
single spaces, `]`. The entries are those of the members when the keys of
the object are distinct, and in general those of the last member of each
key. -/
theorem messages_object_decodes_to_map_text (L : Lib) (m : Messages) (b : Bytes)
    (members : List (String × MemberValue)) (hm : len m = 0)
    (h : L.jsonParse b = .ok (.object (members.map (fun e => (e.1, e.2.toJSON))))) :
    ((members.map Prod.fst).Nodup →
        lastWins (members.map (fun e => (e.1, e.2.render)))
          = members.map (fun e => (e.1, e.2.render)))
      ∧ ∃ entries : List (String × String),
          entries.Perm (lastWins (members.map (fun e => (e.1, e.2.render))))
            ∧ entries.Pairwise (fun x y => x.1 < y.1)
            ∧ Messages.UnmarshalJSON L m b
                = (some ["map["
                    ++ " ".intercalate (entries.map (fun e => e.1 ++ ":" ++ e.2)) ++ "]"],
                    none) := by
  have hempty : m.getD [] = [] := by
    cases m with
    | none => rfl
    | some xs =>
      have : xs.length = 0 := hm
      simpa using List.length_eq_zero.mp this
  refine ⟨?_, sortEntries (lastWins (members.map (fun e => (e.1, e.2.render)))),
    sortEntries_perm _, sortEntries_strict _ (lastWins_nodup _), ?_⟩
  · intro hkeys
    apply lastWins_of_nodup
    simpa [List.map_map, Function.comp] using hkeys
  · rw [UnmarshalJSON_of_decode_error L m b _ _ h rfl, hempty]
    simp only [sprintfS, sprintValue, sprintMembers_render, joinEntries_eq, List.nil_append]

/-- Witness of C22: the object with `key1` an array of `Message1` and `key2`
the string `Message2`, given with `key2` first, decodes to the one element
`map[key1:[Message1] key2:Message2]`. -/
theorem messages_object_decodes_to_map_text_witness :
    Messages.UnmarshalJSON
        (fixtureLib (.ok fixtureSuccess)
          (.ok (.object [("key2", .string "Message2"), ("key1", .array [.string "Message1"])])))
        none (bytesOf "object")
      = (some ["map[key1:[Message1] key2:Message2]"], none) := by
  obtain ⟨hlast, entries, hperm, hsorted, hrun⟩ := messages_object_decodes_to_map_text
    (fixtureLib (.ok fixtureSuccess)
      (.ok (.object [("key2", .string "Message2"), ("key1", .array [.string "Message1"])])))
    none (bytesOf "object") [("key2", .text "Message2"), ("key1", .texts ["Message1"])]
    (by rfl) (by rfl)
  rw [hlast (by decide)] at hperm
  have hlt : "key1" < "key2" := by
    simp
    decide
  have hanti : IsAntisymm (String × String) (fun x y => x.1 < y.1) :=
    ⟨fun x y hxy hyx => absurd hxy (lt_asymm hyx)⟩
  have htarget : List.Pairwise (fun x y : String × String => x.1 < y.1)
      [("key1", "[Message1]"), ("key2", "Message2")] :=
    List.pairwise_cons.mpr
      ⟨fun y hy => by
          rw [List.mem_singleton.mp hy]
          exact hlt,
        List.pairwise_singleton _ _⟩
  have hswap : entries.Perm [("key1", "[Message1]"), ("key2", "Message2")] :=
    hperm.trans (List.Perm.swap _ _ _)
  have hentries : entries = [("key1", "[Message1]"), ("key2", "Message2")] :=
    List.eq_of_perm_of_sorted hswap hsorted htarget
  rw [hrun, hentries]
  rfl

/-! ## The date value (C24, C25) -/

theorem isDigit_digitOf (k : Nat) (h : k < 10) : isDigit (digitOf k) = true := by
  interval_cases k <;> rfl

theorem digitValue_digitOf (k : Nat) (h : k < 10) : digitValue (digitOf k) = k := by
  interval_cases k <;> rfl

theorem digitOf_ne_dash (k : Nat) (h : k < 10) : digitOf k ≠ '-' := by
  interval_cases k <;> decide

theorem daysIn_le (month : Nat) (year : Int) : daysIn month year ≤ 31 := by
  unfold daysIn
  split_ifs
  · omega
  · split <;> omega

theorem timeParse_dateText (y m d : Nat) (hy : y ≤ 9999) (hm1 : 1 ≤ m) (hm : m ≤ 12)
    (hd1 : 1 ≤ d) (hd : d ≤ daysIn m (Int.ofNat y)) :
    timeParse (dateText y m d) = .ok (dayTime y m d).t := by
  have hd31 : d ≤ 31 := le_trans hd (daysIn_le _ _)
  have hyear : digitValue (digitOf (y / 1000)) * 1000 + digitValue (digitOf (y / 100 % 10)) * 100
      + digitValue (digitOf (y / 10 % 10)) * 10 + digitValue (digitOf (y % 10)) = y := by
    rw [digitValue_digitOf _ (by omega), digitValue_digitOf _ (by omega),
      digitValue_digitOf _ (by omega), digitValue_digitOf _ (by omega)]
    omega
  have hmonth : digitValue (digitOf (m / 10)) * 10 + digitValue (digitOf (m % 10)) = m := by
    rw [digitValue_digitOf _ (by omega), digitValue_digitOf _ (by omega)]
    omega
  have hday : digitValue (digitOf (d / 10)) * 10 + digitValue (digitOf (d % 10)) = d := by
    rw [digitValue_digitOf _ (by omega), digitValue_digitOf _ (by omega)]
    omega
  have hm0 : ¬ (m ≤ 0 ∨ 12 < m) := by omega
  have hd0 : ¬ (d < 1 ∨ d > daysIn m (Int.ofNat y)) := by omega
  simp only [timeParse, dateText, getYear, getnum, skipDash,
    isDigit_digitOf _ (show y / 1000 < 10 by omega),
    isDigit_digitOf _ (show y / 100 % 10 < 10 by omega),
    isDigit_digitOf _ (show y / 10 % 10 < 10 by omega),
    isDigit_digitOf _ (show y % 10 < 10 by omega),
    isDigit_digitOf _ (show m / 10 < 10 by omega),
    isDigit_digitOf _ (show m % 10 < 10 by omega),
    isDigit_digitOf _ (show d / 10 < 10 by omega),
    isDigit_digitOf _ (show d % 10 < 10 by omega),
    and_self, if_true, hyear, hmonth, hday, hm0, hd0, if_false, ne_eq, not_true_eq_false,
    dayTime]

theorem formatDate_dayTime (y m d : Nat) (hy : y ≤ 9999) (hm : m ≤ 12) (hd : d ≤ 31) :
    formatDate (dayTime y m d).t = dateText y m d := by
  have hy9 : ((y : Nat) : Int) ≤ 9999 := by exact_mod_cast hy
  have h := formatDate_digits (dayTime y m d).t (by simp [dayTime]) hy9 hm hd
  rw [h]
  rfl

theorem dateText_ne_empty (y m d : Nat) : dateText y m d ≠ "" := by
  intro h
  have := congrArg String.length h
  simp [dateText] at this

theorem dayTime_ne_emptyTime (y m d : Nat) (h : ¬ (y = 1 ∧ m = 1 ∧ d = 1)) :
    dayTime y m d ≠ emptyTime := by
  intro heq
  apply h
  simp only [dayTime, emptyTime, GoTime.zero, Time.mk.injEq, GoTime.mk.injEq] at heq
  obtain ⟨hy, hm, hd, -⟩ := heq
  have hy1 : ((y : Nat) : Int) = 1 := hy
  exact ⟨by exact_mod_cast hy1, hm, hd⟩

/-- C24, counterexample. The text `"0001-01-01"` names a valid calendar day
and decodes without error, but it decodes to the empty `Time`, and
`Time.MarshalJSON` writes the empty `Time` as the two characters `""`, which
is not the original text. -/
theorem first_day_does_not_round_trip :
    Time.UnmarshalJSON (fixtureLib (.ok fixtureSuccess) (.ok (.string "0001-01-01")))
        (dayTime 2006 1 2) (bytesOf (quoted "0001-01-01")) = (emptyTime, none)
      ∧ "0001-01-01" = dateText 1 1 1
      ∧ Time.MarshalJSON emptyTime = (bytesOf (quoted ""), none)
      ∧ bytesOf (quoted "") ≠ bytesOf (quoted "0001-01-01") := by
  refine ⟨by rfl, by decide, by rfl, by decide⟩

/-- C24, amended. For every valid calendar day of the years 0 to 9999 other
than January 1 of year 1, decoding the JSON string of its text `YYYY-MM-DD`
with `Time.UnmarshalJSON` succeeds, whatever the receiver held, and gives
midnight of that day, and `Time.MarshalJSON` of the result returns exactly
the original text; the text of January 1 of year 1 decodes to the empty
`Time`, which is written as the empty string. -/
theorem date_text_round_trips (L : Lib) (t0 : Time) (y m d : Nat) (hy : y ≤ 9999)
    (hm1 : 1 ≤ m) (hm : m ≤ 12) (hd1 : 1 ≤ d) (hd : d ≤ daysIn m (Int.ofNat y))
    (hread : L.jsonParse (bytesOf (quoted (dateText y m d))) = .ok (.string (dateText y m d))) :
    Time.UnmarshalJSON L t0 (bytesOf (quoted (dateText y m d))) = (dayTime y m d, none)
      ∧ (¬ (y = 1 ∧ m = 1 ∧ d = 1) →
          Time.MarshalJSON (dayTime y m d) = (bytesOf (quoted (dateText y m d)), none))
      ∧ ((y = 1 ∧ m = 1 ∧ d = 1) →
          dayTime y m d = emptyTime
            ∧ Time.MarshalJSON (dayTime y m d) = (bytesOf (quoted ""), none)) := by
  refine ⟨?_, ?_, ?_⟩
  · simp only [Time.UnmarshalJSON, unmarshalString, hread, dateText_ne_empty, if_false,
      timeParse_dateText y m d hy hm1 hm hd1 hd]
  · intro hne
    have hd31 : d ≤ 31 := le_trans hd (daysIn_le _ _)
    simp only [Time.MarshalJSON, dayTime_ne_emptyTime y m d hne, if_false,
      formatDate_dayTime y m d hy hm hd31]
    rfl
  · rintro ⟨rfl, rfl, rfl⟩
    exact ⟨rfl, rfl⟩

/-- Witness of C24, amended: the text `"2006-01-02"` decodes to January 2,
2006 and is written back as the same text. -/
theorem date_text_round_trips_witness :
    Time.UnmarshalJSON (fixtureLib (.ok fixtureSuccess) (.ok (.string "2006-01-02")))
          emptyTime (bytesOf (quoted (dateText 2006 1 2))) = (dayTime 2006 1 2, none)
      ∧ Time.MarshalJSON (dayTime 2006 1 2) = (bytesOf (quoted (dateText 2006 1 2)), none)
      ∧ dateText 2006 1 2 = "2006-01-02" :=
  ⟨(date_text_round_trips (fixtureLib (.ok fixtureSuccess) (.ok (.string "2006-01-02")))
      emptyTime 2006 1 2 (by decide) (by decide) (by decide) (by decide) (by decide)
      (by rfl)).1,
    (date_text_round_trips (fixtureLib (.ok fixtureSuccess) (.ok (.string "2006-01-02")))
      emptyTime 2006 1 2 (by decide) (by decide) (by decide) (by decide) (by decide)
      (by rfl)).2.1 (by decide),
    by decide⟩

/-- C25. `Time.MarshalJSON` of the empty `Time` returns the two characters
`""`, and `Time.UnmarshalJSON` of that text, which the reader sees as the
empty string, succeeds and sets the value to the empty `Time`, whatever the
value held before. -/
theorem empty_time_round_trips (L : Lib) (t : Time)
    (hread : L.jsonParse (bytesOf (quoted "")) = .ok (.string "")) :
    Time.MarshalJSON emptyTime = (bytesOf (quoted ""), none)
      ∧ bytesOf (quoted "") = [34, 34]
      ∧ Time.UnmarshalJSON L t (Time.MarshalJSON emptyTime).1 = (emptyTime, none) := by
  refine ⟨rfl, by decide, ?_⟩
  have hm : (Time.MarshalJSON emptyTime).1 = bytesOf (quoted "") := rfl
  rw [hm]
  simp [Time.UnmarshalJSON, unmarshalString, hread]

/-- Witness of C25: decoding the empty string into a value that held
January 2, 2006 gives the empty `Time`. -/
theorem empty_time_round_trips_witness :
    Time.UnmarshalJSON (fixtureLib (.ok fixtureSuccess) (.ok (.string "")))
        (dayTime 2006 1 2) (Time.MarshalJSON emptyTime).1 = (emptyTime, none) :=
  (empty_time_round_trips (fixtureLib (.ok fixtureSuccess) (.ok (.string "")))
    (dayTime 2006 1 2) (by rfl)).2.2

/-! ## The transport adapter (C26) -/

/-- C26. `Client.Do` reports the first failure. When executing fails, the
error is `cannot execute request: ` followed by the cause, the response is
nil and no body is closed. When executing succeeds and reading fails, the
error is `cannot read response: ` followed by the cause and the response is
returned, also when closing fails as well. The error is
`cannot close response: ` followed by a cause exactly when executing and
reading succeeded and closing failed with that cause. On every path where
executing succeeded the body is closed exactly once, after the read. -/
theorem Do_reports_first_failure (c : Client) (ctx : Nat) (req : HTTPRequest) :
    (∀ cause, c.client { req with ctx := ctx } = .error cause →
        (c.Do ctx req).err = some (.wrapped "cannot execute request: " (.library cause))
          ∧ (Error.wrapped "cannot execute request: " (.library cause)).Error
              = "cannot execute request: " ++ cause
          ∧ (c.Do ctx req).response = none
          ∧ (c.Do ctx req).trace.count .closeBody = 0)
      ∧ (∀ resp cause, c.client { req with ctx := ctx } = .ok resp →
          resp.Body.readErr = some cause →
          (c.Do ctx req).err = some (.wrapped "cannot read response: " (.library cause))
            ∧ (Error.wrapped "cannot read response: " (.library cause)).Error
                = "cannot read response: " ++ cause
            ∧ (c.Do ctx req).response = some resp)
      ∧ (∀ cause,
          (c.Do ctx req).err = some (.wrapped "cannot close response: " (.library cause))
            ↔ ∃ resp, c.client { req with ctx := ctx } = .ok resp
                ∧ resp.Body.readErr = none ∧ resp.Body.closeErr = some cause)
      ∧ (∀ cause, (Error.wrapped "cannot close response: " (.library cause)).Error
          = "cannot close response: " ++ cause)
      ∧ (∀ resp, c.client { req with ctx := ctx } = .ok resp →
          (c.Do ctx req).trace = [.send { req with ctx := ctx }, .readBody, .closeBody]
            ∧ (c.Do ctx req).trace.count .closeBody = 1) := by
  unfold Client.Do
  dsimp only
  rcases c.client _ with e | ⟨status, header, ⟨data, _ | rcause, _ | ccause⟩⟩
  all_goals
    refine ⟨?_, ?_, ?_, fun cause => rfl, ?_⟩ <;>
    simp [Error.Error] <;>
    (try (rintro resp cause rfl; simp))

/-- Witness of C26: the body breaks off and closing fails as well; the read
failure is reported. -/
theorem Do_reports_first_failure_witness :
    ((fixtureService (.ok ⟨200, [], ⟨bytesOf "abc", some "unexpected EOF", some "closed"⟩⟩)).client.Do
        0 fixtureRequest).err
      = some (.wrapped "cannot read response: " (.library "unexpected EOF")) :=
  ((Do_reports_first_failure
    (fixtureService (.ok ⟨200, [], ⟨bytesOf "abc", some "unexpected EOF", some "closed"⟩⟩)).client
    0 fixtureRequest).2.1
    ⟨200, [], ⟨bytesOf "abc", some "unexpected EOF", some "closed"⟩⟩ "unexpected EOF"
    (by rfl) (by rfl)).1

/-! ## Independence of the HTTP status on the parsed paths (C27) -/

theorem Do_withStatus (status : Int) (service : registrantAlertServiceOp) (ctx : Nat)
    (req : HTTPRequest) :
    (withStatus status service).client.Do ctx req
      = { response := (service.client.Do ctx req).response.map (HTTPResponse.setStatus status)
          err := (service.client.Do ctx req).err
          written := (service.client.Do ctx req).written
          trace := (service.client.Do ctx req).trace } := by
  unfold Client.Do withStatus
  dsimp only
  rcases service.client.client _ with e | ⟨st, header, ⟨data, _ | rcause, _ | ccause⟩⟩ <;> rfl

theorem request_withStatus (L : Lib) (status : Int) (service : registrantAlertServiceOp)
    (ctx : Nat) (b : Option BasicSearchTerms) (a : Option (List AdvancedSearchTerm)) (p : Bool)
    (opts : List Opt) :
    (withStatus status service).request L ctx b a p opts
      = { resp := (service.request L ctx b a p opts).resp.map
            (fun e => { e with Response := e.Response.map (HTTPResponse.setStatus status) })
          err := (service.request L ctx b a p opts).err
          trace := (service.request L ctx b a p opts).trace } := by
  rw [request_eq, request_eq]
  have hkey : (withStatus status service).client.apiKey = service.client.apiKey := rfl
  have hnew : ∀ body, (withStatus status service).newRequest L body
      = service.newRequest L body := fun _ => rfl
  rw [hkey, hnew]
  cases validateOptions opts with
  | some e => rfl
  | none =>
    dsimp only
    cases service.newRequest L _ with
    | error e => rfl
    | ok req =>
      dsimp only
      rw [Do_withStatus]
      rfl

theorem run_err_not_errorResponse (L : Lib) (service : registrantAlertServiceOp) (ctx : Nat)
    (c : Call) (opts : List Opt) (hp : c.parsed = true) (e : ErrorResponse) :
    (c.run L service ctx opts).err ≠ some (.errorResponse e) := by
  cases hv : c.validate with
  | some err =>
    obtain ⟨a, rfl⟩ := validate_eq_some c err hv
    rw [run_of_rejected L service ctx c opts _ hv]
    simp
  | none =>
    cases he : (c.request L service ctx opts).err with
    | some err =>
      rw [run_of_request_err L service ctx c opts err hv he]
      intro h
      simp only [Option.some.injEq] at h
      subst h
      unfold Call.request at he
      rw [request_eq] at he
      cases hvo : validateOptions (c.opts opts) with
      | some e2 =>
        have := validateOptions_eq_some _ _ hvo
        simp [hvo, this] at he
      | none =>
        simp only [hvo] at he
        cases hn : service.newRequest L
            (L.jsonText (.object (applyOptions (c.opts opts)
              (initialRequest service.client.apiKey c.basic c.advanced
                (!c.preview))).members)) with
        | error e2 =>
          obtain ⟨text, rfl⟩ := newRequest_error _ _ _ _ hn
          simp [hn] at he
        | ok req =>
          simp only [hn] at he
          revert he
          unfold Client.Do
          dsimp only
          rcases service.client.client _ with
            e3 | ⟨st, header, ⟨data, _ | rcause, _ | ccause⟩⟩ <;> simp
    | none =>
      obtain ⟨hr, body, hresp⟩ := request_ok_resp _ _ _ _ _ _ _ he
      cases hd : L.jsonDecode body with
      | error cause =>
        rw [run_parsed_of_decode_error L service ctx c opts _ cause hp hv he hresp hd]
        simp
      | ok v =>
        rw [run_parsed_of_decoded L service ctx c opts _ v hp hv he hresp hd]
        split_ifs <;> simp

theorem run_withStatus (L : Lib) (status : Int) (service : registrantAlertServiceOp)
    (ctx : Nat) (c : Call) (opts : List Opt) (hp : c.parsed = true) :
    (c.run L (withStatus status service) ctx opts).err = (c.run L service ctx opts).err
      ∧ (c.run L (withStatus status service) ctx opts).count = (c.run L service ctx opts).count
      ∧ (c.run L (withStatus status service) ctx opts).parsed
          = (c.run L service ctx opts).parsed := by
  have hreq : c.request L (withStatus status service) ctx opts
      = { resp := (c.request L service ctx opts).resp.map
            (fun e => { e with Response := e.Response.map (HTTPResponse.setStatus status) })
          err := (c.request L service ctx opts).err
          trace := (c.request L service ctx opts).trace } := by
    unfold Call.request
    exact request_withStatus L status service ctx _ _ _ _
  cases hv : c.validate with
  | some err =>
    rw [run_of_rejected L _ ctx c opts _ hv, run_of_rejected L _ ctx c opts _ hv]
    exact ⟨rfl, rfl, rfl⟩
  | none =>
    cases he : (c.request L service ctx opts).err with
    | some err =>
      have he2 : (c.request L (withStatus status service) ctx opts).err = some err := by
        rw [hreq]; exact he
      rw [run_of_request_err L _ ctx c opts err hv he,
        run_of_request_err L _ ctx c opts err hv he2]
      exact ⟨rfl, rfl, rfl⟩
    | none =>
      obtain ⟨hr, body, hresp⟩ := request_ok_resp _ _ _ _ _ _ _ he
      have he2 : (c.request L (withStatus status service) ctx opts).err = none := by
        rw [hreq]; exact he
      have hresp2 : (c.request L (withStatus status service) ctx opts).resp
          = some ⟨some (hr.setStatus status), body⟩ := by
        have hresp1 : (c.request L service ctx opts).resp = some ⟨some hr, body⟩ := hresp
        rw [hreq]
        simp only [hresp1]
        rfl
      cases hd : L.jsonDecode body with
      | error cause =>
        rw [run_parsed_of_decode_error L _ ctx c opts _ cause hp hv he hresp hd,
          run_parsed_of_decode_error L _ ctx c opts _ cause hp hv he2 hresp2 hd]
        exact ⟨rfl, rfl, rfl⟩
      | ok v =>
        rw [run_parsed_of_decoded L _ ctx c opts _ v hp hv he hresp hd,
          run_parsed_of_decoded L _ ctx c opts _ v hp hv he2 hresp2 hd]
        split_ifs <;> exact ⟨rfl, rfl, rfl⟩

/-- C27. The outcome of a parsed entry point does not depend on the HTTP
status: replacing the status of every response of the transport by any
other status, with the same body bytes, leaves the error and the typed
result of the call unchanged, whether the call ends with no error, a
transport error, a parse error or an application error; and a parsed entry
point never returns the status error of the raw paths. -/
theorem parsed_outcome_independent_of_status (L : Lib) (status : Int)
    (service : registrantAlertServiceOp) (ctx : Nat) (c : Call) (opts : List Opt)
    (hp : c.parsed = true) :
    (c.run L (withStatus status service) ctx opts).err = (c.run L service ctx opts).err
      ∧ (c.run L (withStatus status service) ctx opts).count = (c.run L service ctx opts).count
      ∧ (c.run L (withStatus status service) ctx opts).parsed
          = (c.run L service ctx opts).parsed
      ∧ ∀ e : ErrorResponse, (c.run L service ctx opts).err ≠ some (.errorResponse e) := by
  obtain ⟨h1, h2, h3⟩ := run_withStatus L status service ctx c opts hp
  exact ⟨h1, h2, h3, fun e => run_err_not_errorResponse L service ctx c opts hp e⟩

/-- Witness of C27: `BasicPreview` against a server that answers a count of
4 returns 4 and no error under status 500 as under status 200. -/
theorem parsed_outcome_independent_of_status_witness :
    ((Call.BasicPreview fixtureBasic).run (fixtureLib (.ok fixtureSuccess) (.ok .null))
          (withStatus 500 (fixtureService (.ok (fixtureResponse 200 fixtureCountText)))) 0 []).err
        = none
      ∧ ((Call.BasicPreview fixtureBasic).run (fixtureLib (.ok fixtureSuccess) (.ok .null))
          (withStatus 500 (fixtureService (.ok (fixtureResponse 200 fixtureCountText)))) 0
          []).count = 4 :=
  ⟨(parsed_outcome_independent_of_status (fixtureLib (.ok fixtureSuccess) (.ok .null)) 500
      (fixtureService (.ok (fixtureResponse 200 fixtureCountText))) 0
      (Call.BasicPreview fixtureBasic) [] (by decide)).1.trans (by rfl),
    (parsed_outcome_independent_of_status (fixtureLib (.ok fixtureSuccess) (.ok .null)) 500
      (fixtureService (.ok (fixtureResponse 200 fixtureCountText))) 0
      (Call.BasicPreview fixtureBasic) [] (by decide)).2.1.trans (by rfl)⟩

/-! ## Date options and the wire (C28) -/

theorem formatDate_ne_empty (d : GoTime) : formatDate d ≠ "" := by
  intro h
  have hlen := congrArg String.length h
  simp only [formatDate, String.length_append] at hlen
  have h1 : "-".length = 1 := rfl
  have h0 : "".length = 0 := rfl
  omega

theorem isDate_value (k : KnownOption) (h : k.isDate = true) :
    k.value = .text (formatDate k.date) := by
  cases k <;> first | rfl | (simp [KnownOption.isDate] at h)

theorem isDate_iff_field (k : KnownOption) :
    k.isDate = true ↔ k.field ≠ .ResponseFormat ∧ k.field ≠ .Punycode := by
  cases k <;> simp [KnownOption.isDate, KnownOption.field]

theorem isDate_of_field_eq (j k : KnownOption) (hk : k.isDate = true)
    (hf : j.field = k.field) : j.isDate = true := by
  rw [isDate_iff_field] at hk ⊢
  rw [hf]
  exact hk

theorem toFn_get_field (k : KnownOption) (r : registrantAlertRequest) :
    (k.toFn r).get k.field = k.value := by
  cases k <;> rfl

theorem date_field_stays_set (k : KnownOption) (hk : k.isDate = true)
    (after : List KnownOption) :
    ∀ r : registrantAlertRequest, (∃ s, s ≠ "" ∧ r.get k.field = .text s) →
      ∃ s, s ≠ "" ∧ (applyOptions (knownOpts after) r).get k.field = .text s := by
  induction after with
  | nil => intro r h; exact h
  | cons j rest ih =>
    intro r h
    apply ih (j.toFn r)
    by_cases hf : k.field = j.field
    · have hj : j.isDate = true := isDate_of_field_eq j k hk hf.symm
      refine ⟨formatDate j.date, formatDate_ne_empty _, ?_⟩
      rw [hf, toFn_get_field, isDate_value j hj]
    · obtain ⟨s, hs, hget⟩ := h
      exact ⟨s, hs, by rw [toFn_get_of_ne j r k.field hf, hget]⟩

theorem lookupMember_date_field (k : KnownOption) (hk : k.isDate = true)
    (r : registrantAlertRequest) (s : String) (hs : s ≠ "") (hget : r.get k.field = .text s) :
    lookupMember k.field.key r.members = some (.string s) := by
  cases k
  case responseFormat => cases hk
  case punycode => cases hk
  all_goals
    simp only [KnownOption.field, registrantAlertRequest.get, FieldValue.text.injEq] at hget
    subst hget
    unfold registrantAlertRequest.members
    simp [FieldName.key, KnownOption.field, lookupMember_append,
      lookupMember_omitEmptyString, lookupMember_omitEmptyBool, lookupMember_omitNilBasic,
      lookupMember_omitEmptyTerms, lookupMember, hs]

/-- C28. No date option leaves its field empty. With the zero time value
each of the seven date options sets its field to `0001-01-01`; the text a
date option writes is never empty; and once a date option is in a list of
recognized options, whatever comes before and after it, its field in the
request that results is a non-empty string and the member of that field is
in the serialized body with that string. -/
theorem date_options_never_leave_field_empty :
    (∀ r : registrantAlertRequest,
        (OptionSinceDate GoTime.zero r).SinceDate = "0001-01-01"
          ∧ (OptionCreatedDateFrom GoTime.zero r).CreatedDateFrom = "0001-01-01"
          ∧ (OptionCreatedDateTo GoTime.zero r).CreatedDateTo = "0001-01-01"
          ∧ (OptionUpdatedDateFrom GoTime.zero r).UpdatedDateFrom = "0001-01-01"
          ∧ (OptionUpdatedDateTo GoTime.zero r).UpdatedDateTo = "0001-01-01"
          ∧ (OptionExpiredDateFrom GoTime.zero r).ExpiredDateFrom = "0001-01-01"
          ∧ (OptionExpiredDateTo GoTime.zero r).ExpiredDateTo = "0001-01-01")
      ∧ (∀ d : GoTime, formatDate d ≠ "")
      ∧ (∀ (k : KnownOption) (before after : List KnownOption) (r : registrantAlertRequest),
          k.isDate = true →
          ∃ s, s ≠ ""
            ∧ (applyOptions (knownOpts (before ++ k :: after)) r).get k.field = .text s
            ∧ lookupMember k.field.key
                (applyOptions (knownOpts (before ++ k :: after)) r).members
              = some (.string s)) := by
  have hzero : formatDate GoTime.zero = "0001-01-01" := by decide
  refine ⟨fun r => ⟨hzero, hzero, hzero, hzero, hzero, hzero, hzero⟩, formatDate_ne_empty, ?_⟩
  intro k before after r hk
  have hset : ∃ s, s ≠ "" ∧ ((k.toFn (applyOptions (knownOpts before) r)).get k.field
      = .text s) :=
    ⟨formatDate k.date, formatDate_ne_empty _, by rw [toFn_get_field, isDate_value k hk]⟩
  obtain ⟨s, hs, hget⟩ := date_field_stays_set k hk after _ hset
  have happ : applyOptions (knownOpts (before ++ k :: after)) r
      = applyOptions (knownOpts after) (k.toFn (applyOptions (knownOpts before) r)) := by
    rw [knownOpts_append, applyOptions_append]
    rfl
  rw [happ]
  exact ⟨s, hs, hget, lookupMember_date_field k hk _ s hs hget⟩

/-- Witness of C28: a since-date option at the zero time, followed by a
response-format option, leaves `sinceDate` in the body as `0001-01-01`. -/
theorem date_options_never_leave_field_empty_witness :
    ∃ s, s ≠ ""
      ∧ (applyOptions (knownOpts ([] ++ KnownOption.sinceDate GoTime.zero
            :: [KnownOption.responseFormat ""]))
          (initialRequest "key" fixtureBasic none true)).get
            (KnownOption.sinceDate GoTime.zero).field = .text s
      ∧ lookupMember (KnownOption.sinceDate GoTime.zero).field.key
          (applyOptions (knownOpts ([] ++ KnownOption.sinceDate GoTime.zero
            :: [KnownOption.responseFormat ""]))
            (initialRequest "key" fixtureBasic none true)).members
        = some (.string s) :=
  date_options_never_leave_field_empty.2.2 (.sinceDate GoTime.zero) []
    [.responseFormat ""] (initialRequest "key" fixtureBasic none true) (by decide)

/-! ## Order of the validations (C30) -/

theorem validate_message (c : Call) (a : ArgError) (h : c.validate = some (.argError a)) :
    a.Message = "is required." ∨ a.Message = "must have between 1 and 4 items."
      ∨ a.Message = "must have between 0 and 4 items." := by
  have hb : ∀ t, validateBasicSearchTerms t = some (.argError a) →
      a.Message = "is required." ∨ a.Message = "must have between 1 and 4 items."
        ∨ a.Message = "must have between 0 and 4 items." := by
    intro t ht
    cases t with
    | none =>
      simp [validateBasicSearchTerms] at ht
      rw [← ht]
      exact Or.inl rfl
    | some b =>
      simp only [validateBasicSearchTerms] at ht
      split_ifs at ht
      · simp at ht
        rw [← ht]
        exact Or.inr (Or.inl rfl)
      · simp at ht
        rw [← ht]
        exact Or.inr (Or.inr rfl)
  have hl : ∀ xs i, validateAdvancedLoop i xs = some (.argError a) →
      a.Message = "is required." := by
    intro xs
    induction xs with
    | nil => intro i h; simp [validateAdvancedLoop] at h
    | cons x rest ih =>
      intro i h
      simp only [validateAdvancedLoop] at h
      split_ifs at h
      · simp at h
        rw [← h]
      · simp at h
        rw [← h]
      · exact ih _ h
  have ha : ∀ t, validateAdvancedSearchTerms t = some (.argError a) →
      a.Message = "is required." ∨ a.Message = "must have between 1 and 4 items."
        ∨ a.Message = "must have between 0 and 4 items." := by
    intro t ht
    cases t with
    | none =>
      simp [validateAdvancedSearchTerms] at ht
      rw [← ht]
      exact Or.inl rfl
    | some xs =>
      simp only [validateAdvancedSearchTerms] at ht
      split_ifs at ht
      · simp at ht
        rw [← ht]
        exact Or.inr (Or.inl rfl)
      · exact Or.inl (hl _ _ ht)
  cases c <;> first | exact hb _ h | exact ha _ h

theorem validate_ne_option_error (c : Call) (err : Error) (h : c.validate = some err) :
    err ≠ .argError ⟨"Option", "can not be nil"⟩ := by
  intro heq
  subst heq
  rcases validate_message c _ h with hm | hm | hm <;> simp at hm

/-- C30. The validation of the search terms takes precedence over the
validation of the options. When the terms of a call are rejected, the entry
point returns the error of the terms, which is never the error `Option`
`can not be nil`, whatever the options are, a nil entry among them or not;
the option error is returned only when the terms are accepted, and then
whenever the options have a nil entry. -/
theorem terms_validation_precedes_options (L : Lib) (service : registrantAlertServiceOp)
    (ctx : Nat) (c : Call) (opts : List Opt) :
    (∀ err, c.validate = some err → (∃ o ∈ opts, o = none) →
        (c.run L service ctx opts).err = some err
          ∧ err ≠ .argError ⟨"Option", "can not be nil"⟩)
      ∧ ((c.run L service ctx opts).err = some (.argError ⟨"Option", "can not be nil"⟩) →
          c.validate = none)
      ∧ (c.validate = none → (∃ o ∈ opts, o = none) →
          (c.run L service ctx opts).err = some (.argError ⟨"Option", "can not be nil"⟩)) := by
  refine ⟨?_, ?_, ?_⟩
  · intro err hv _
    rw [run_of_rejected L service ctx c opts err hv]
    exact ⟨rfl, validate_ne_option_error c err hv⟩
  · intro hrun
    cases hv : c.validate with
    | none => rfl
    | some err =>
      rw [run_of_rejected L service ctx c opts err hv] at hrun
      simp only [Option.some.injEq] at hrun
      exact absurd hrun (validate_ne_option_error c err hv)
  · intro hv hnil
    have hopts : validateOptions (c.opts opts)
        = some (.argError ⟨"Option", "can not be nil"⟩) := by
      apply validateOptions_of_nil_mem
      obtain ⟨o, ho, hn⟩ := hnil
      refine ⟨o, ?_, hn⟩
      unfold Call.opts
      split_ifs
      · exact List.mem_append_left _ ho
      · exact ho
    have he : (c.request L service ctx opts).err
        = some (.argError ⟨"Option", "can not be nil"⟩) := by
      unfold Call.request
      rw [request_eq]
      simp only [hopts]
    rw [run_of_request_err L service ctx c opts _ hv he]

/-- Witness of C30: `AdvancedRawData` on nil terms with a nil option returns
the error of the terms. -/
theorem terms_validation_precedes_options_witness :
    ((Call.AdvancedRawData none).run (fixtureLib (.ok fixtureSuccess) (.ok .null))
        (fixtureService (.ok (fixtureResponse 200 fixtureCountText))) 0 [none]).err
      = some (.argError ⟨"advancedSearchTerms", "is required."⟩) :=
  ((terms_validation_precedes_options (fixtureLib (.ok fixtureSuccess) (.ok .null))
    (fixtureService (.ok (fixtureResponse 200 fixtureCountText))) 0
    (Call.AdvancedRawData none) [none]).1
    (.argError ⟨"advancedSearchTerms", "is required."⟩) (by rfl) ⟨none, by simp, rfl⟩).1

end RegistrantAlert
